import Mathlib

/-!
# Keyset pagination of list queries: `backend/src/apiserver/list/list.go`

A shallow embedding of the Go package `list` and the properties of its page
token, its page-size policy and the query it contributes.

Conventions of the embedding.

* A Go `string` is a Lean `String`, so every string is valid UTF-8.
* A Go `int` is an `Int` (64 bits are assumed where the width matters); the one
  conversion to `uint64` is written with an explicit `% 2 ^ 64`.
* A Go `(T, error)` result is an `Except Error T`.
* An `interface{}` holding a value is a `GoValue`; the nil interface is `none`.
* Byte slices are lists of natural numbers below 256.
* The standard library (`encoding/base64`, `encoding/json`, `strings`, `reflect`)
  and the query builder are embedded as far as this package uses them; each
  definition says what it stands for. Of `encoding/json`, the limit on the depth
  of nesting is left out, and a `float64` is kept as a decimal literal.
* The filter package and the database are outside the source file: the first is
  a parameter (`Env`), the second is given by the usual meaning of WHERE, ORDER BY
  and LIMIT over a list of records, with the comparison of column values as a
  parameter.
-/

namespace list

/-! ## Errors (package `util`) -/

/-- Classification of an error value, as seen by the callers of this package. -/
inductive ErrorClass where
  /-- A `util.UserError` carrying the invalid-argument code. -/
  | InvalidInput
  /-- A `util.UserError` carrying the internal code. -/
  | InternalServerError
  /-- A plain Go `error` (`fmt.Errorf`), which carries no classification. -/
  | Unclassified
  deriving DecidableEq, Repr

/-- An error value: its classification, its message template and, when it wraps
another error, the text of the wrapped error. -/
structure Error where
  cls : ErrorClass
  msg : String
  cause : Option String
  deriving DecidableEq, Repr

/-- Modelled from the spec: `util.NewInvalidInputError` of package `util`, which is
not part of this source file; the spec classifies its result as `InvalidInput`. -/
def NewInvalidInputError (msg : String) : Error :=
  { cls := ErrorClass.InvalidInput, msg := msg, cause := none }

/-- Modelled from the spec: `util.NewInvalidInputErrorWithDetails` of package
`util`; an `InvalidInput` error wrapping the underlying error. -/
def NewInvalidInputErrorWithDetails (err : String) (msg : String) : Error :=
  { cls := ErrorClass.InvalidInput, msg := msg, cause := some err }

/-- Modelled from the spec: `util.NewInternalServerError` of package `util`; an
error of the internal classification wrapping the underlying error. -/
def NewInternalServerError (err : String) (msg : String) : Error :=
  { cls := ErrorClass.InternalServerError, msg := msg, cause := some err }

/-- The plain error built by `fmt.Errorf`: it has no classification. -/
def Errorf (msg : String) : Error :=
  { cls := ErrorClass.Unclassified, msg := msg, cause := none }

/-! ## Page-size policy -/

/-- The constant `defaultPageSize`. -/
def defaultPageSize : Int := 20

/-- The constant `maxPageSize`. -/
def maxPageSize : Int := 200

/-- The function `validatePageSize`. -/
def validatePageSize (pageSize : Int) : Except Error Int :=
  if pageSize < 0 then
    .error (NewInvalidInputError "The page size should be greater than 0. Got %q")
  else if pageSize = 0 then
    .ok defaultPageSize
  else if pageSize > maxPageSize then
    .ok maxPageSize
  else
    .ok pageSize

/-! ## `encoding/base64`, `StdEncoding` -/

/-- The alphabet of the standard encoding. -/
def base64Alphabet : List Char :=
  "ABCDEFGHIJKLMNOPQRSTUVWXYZabcdefghijklmnopqrstuvwxyz0123456789+/".toList

/-- The character of a six-bit value. -/
def encodeSextet (n : Nat) : Char :=
  base64Alphabet.getD n 'A'

/-- The six-bit value of a character of the alphabet (`decodeMap`). -/
def decodeSextet (c : Char) : Option Nat :=
  let n := c.toNat
  if 65 ≤ n ∧ n ≤ 90 then some (n - 65)
  else if 97 ≤ n ∧ n ≤ 122 then some (n - 97 + 26)
  else if 48 ≤ n ∧ n ≤ 57 then some (n - 48 + 52)
  else if n = 43 then some 62
  else if n = 47 then some 63
  else none

/-- `StdEncoding.EncodeToString`: three bytes give four characters, and a last
group of one or two bytes is padded with `=`. -/
def base64Encode : List Nat → List Char
  | [] => []
  | [a] => [encodeSextet (a / 4), encodeSextet (a % 4 * 16), '=', '=']
  | [a, b] =>
    [encodeSextet (a / 4), encodeSextet (a % 4 * 16 + b / 16), encodeSextet (b % 16 * 4), '=']
  | a :: b :: c :: rest =>
    encodeSextet (a / 4) :: encodeSextet (a % 4 * 16 + b / 16) ::
      encodeSextet (b % 16 * 4 + c / 64) :: encodeSextet (c % 64) :: base64Encode rest

/-- Whether a character is one of the line breaks the decoder ignores. -/
def isNewline (c : Char) : Bool :=
  c = '\n' || c = '\r'

/-- Drop leading line breaks. -/
def skipNewlines : List Char → List Char
  | [] => []
  | c :: cs => if isNewline c then skipNewlines cs else c :: cs

/-- `StdEncoding.DecodeString` (the loop over `decodeQuantum`), with the sextets of
the current quantum in `q`. Line breaks are ignored, padding is required, nothing
but line breaks may follow the padding, and the unused low bits of a padded
quantum are not checked (the encoding is not strict). `none` is a
`CorruptInputError`. -/
def base64DecodeAux : List Nat → List Char → Option (List Nat)
  | q, [] =>
    match q with
    | [] => some []
    | _ => none
  | q, c :: cs =>
    match decodeSextet c with
    | some v =>
      match q with
      | [s0, s1, s2] =>
        match base64DecodeAux [] cs with
        | some out =>
          some ((s0 * 4 + s1 / 16) :: (s1 % 16 * 16 + s2 / 4) :: (s2 % 4 * 64 + v) :: out)
        | none => none
      | _ => base64DecodeAux (q ++ [v]) cs
    | none =>
      if isNewline c then base64DecodeAux q cs
      else if c ≠ '=' then none
      else
        match q with
        | [s0, s1] =>
          match skipNewlines cs with
          | p :: rest =>
            if p = '=' ∧ skipNewlines rest = [] then some [s0 * 4 + s1 / 16] else none
          | [] => none
        | [s0, s1, s2] =>
          if skipNewlines cs = [] then some [s0 * 4 + s1 / 16, s1 % 16 * 16 + s2 / 4]
          else none
        | _ => none

/-- `StdEncoding.DecodeString`. -/
def base64Decode (s : List Char) : Option (List Nat) :=
  base64DecodeAux [] s

/-! ## UTF-8 (`unicode/utf8`) -/

/-- The UTF-8 bytes of a character (`utf8.EncodeRune`). -/
def utf8EncodeChar (c : Char) : List Nat :=
  let n := c.toNat
  if n < 0x80 then [n]
  else if n < 0x800 then [0xC0 + n / 64, 0x80 + n % 64]
  else if n < 0x10000 then [0xE0 + n / 4096, 0x80 + n / 64 % 64, 0x80 + n % 64]
  else [0xF0 + n / 262144, 0x80 + n / 4096 % 64, 0x80 + n / 64 % 64, 0x80 + n % 64]

/-- The bytes of a string. -/
def utf8Encode (cs : List Char) : List Nat :=
  cs.flatMap utf8EncodeChar

/-- Whether a byte is a continuation byte. -/
def isCont (b : Nat) : Bool :=
  0x80 ≤ b && b ≤ 0xBF

/-- `utf8.DecodeRune`: the first rune of a byte sequence and its width. An invalid
or truncated sequence gives `U+FFFD` with width 1, as do overlong forms,
surrogates and values above `U+10FFFF`. -/
def utf8DecodeRune : List Nat → Nat × Nat
  | [] => (0xFFFD, 1)
  | b0 :: rest =>
    if b0 < 0x80 then (b0, 1)
    else if 0xC2 ≤ b0 ∧ b0 ≤ 0xDF then
      match rest with
      | b1 :: _ => if isCont b1 then ((b0 - 0xC0) * 64 + (b1 - 0x80), 2) else (0xFFFD, 1)
      | _ => (0xFFFD, 1)
    else if 0xE0 ≤ b0 ∧ b0 ≤ 0xEF then
      match rest with
      | b1 :: b2 :: _ =>
        let lo := if b0 = 0xE0 then 0xA0 else 0x80
        let hi := if b0 = 0xED then 0x9F else 0xBF
        if lo ≤ b1 ∧ b1 ≤ hi ∧ isCont b2 then
          ((b0 - 0xE0) * 4096 + (b1 - 0x80) * 64 + (b2 - 0x80), 3)
        else (0xFFFD, 1)
      | _ => (0xFFFD, 1)
    else if 0xF0 ≤ b0 ∧ b0 ≤ 0xF4 then
      match rest with
      | b1 :: b2 :: b3 :: _ =>
        let lo := if b0 = 0xF0 then 0x90 else 0x80
        let hi := if b0 = 0xF4 then 0x8F else 0xBF
        if lo ≤ b1 ∧ b1 ≤ hi ∧ isCont b2 ∧ isCont b3 then
          ((b0 - 0xF0) * 262144 + (b1 - 0x80) * 4096 + (b2 - 0x80) * 64 + (b3 - 0x80), 4)
        else (0xFFFD, 1)
      | _ => (0xFFFD, 1)
    else (0xFFFD, 1)

/-- Decode a byte sequence rune by rune, as the JSON decoder reads the bytes of a
string; `fuel` bounds the number of runes. -/
def utf8DecodeAux : Nat → List Nat → List Char
  | 0, _ => []
  | _, [] => []
  | fuel + 1, b :: bs =>
    let r := utf8DecodeRune (b :: bs)
    Char.ofNat r.1 :: utf8DecodeAux fuel ((b :: bs).drop r.2)

/-- The runes of a byte sequence, each invalid byte read as `U+FFFD`. -/
def utf8Decode (bs : List Nat) : List Char :=
  utf8DecodeAux bs.length bs

/-! ## `encoding/json`: values and their compact text -/

mutual
/-- A JSON value. A number keeps its literal text, as `json.Number` does. -/
inductive Json where
  | null
  | bool (b : Bool)
  | num (lit : String)
  | str (s : String)
  | arr (xs : JsonList)
  | obj (ms : JsonMembers)
  deriving DecidableEq
/-- The elements of a JSON array. -/
inductive JsonList where
  | nil
  | cons (x : Json) (xs : JsonList)
  deriving DecidableEq
/-- The members of a JSON object, in the order of the text. -/
inductive JsonMembers where
  | nil
  | cons (k : String) (v : Json) (ms : JsonMembers)
  deriving DecidableEq
end

/-- A lower-case hexadecimal digit. -/
def hexDigit (n : Nat) : Char :=
  "0123456789abcdef".toList.getD n '0'

/-- The escaped form of one character of a string, as `json.Marshal` writes it
(HTML escaping on): quote and backslash get a backslash, line feed, carriage
return and tab their short form, other control characters and `<`, `>`, `&` the
form `\u00XX`, `U+2028` and `U+2029` the form `\u202X`. (Later versions of the
encoder write backspace and form feed in their short form; both forms decode to
the same character.) -/
def escapeChar (c : Char) : List Char :=
  let n := c.toNat
  if n = 34 then ['\\', '"']
  else if n = 92 then ['\\', '\\']
  else if n = 10 then ['\\', 'n']
  else if n = 13 then ['\\', 'r']
  else if n = 9 then ['\\', 't']
  else if n < 32 ∨ n = 60 ∨ n = 62 ∨ n = 38 then
    ['\\', 'u', '0', '0', hexDigit (n / 16), hexDigit (n % 16)]
  else if n = 0x2028 then ['\\', 'u', '2', '0', '2', '8']
  else if n = 0x2029 then ['\\', 'u', '2', '0', '2', '9']
  else [c]

/-- A string between quotes, escaped. -/
def quote (s : List Char) : List Char :=
  '"' :: (s.flatMap escapeChar ++ ['"'])

mutual
/-- The compact text of a JSON value. -/
def Json.render : Json → List Char
  | .null => ['n', 'u', 'l', 'l']
  | .bool true => ['t', 'r', 'u', 'e']
  | .bool false => ['f', 'a', 'l', 's', 'e']
  | .num lit => lit.data
  | .str s => quote s.data
  | .arr .nil => ['[', ']']
  | .arr (.cons x xs) => '[' :: (x.render ++ xs.renderTail)
  | .obj .nil => [Char.ofNat 123, Char.ofNat 125]
  | .obj (.cons k v ms) => Char.ofNat 123 :: (quote k.data ++ ':' :: (v.render ++ ms.renderTail))
/-- The text after an element of an array: the next elements, then the bracket. -/
def JsonList.renderTail : JsonList → List Char
  | .nil => [']']
  | .cons x xs => ',' :: (x.render ++ xs.renderTail)
/-- The text after a member of an object: the next members, then the brace. -/
def JsonMembers.renderTail : JsonMembers → List Char
  | .nil => [Char.ofNat 125]
  | .cons k v ms => ',' :: (quote k.data ++ ':' :: (v.render ++ ms.renderTail))
end

/-! ## `encoding/json`: reading text -/

/-- The white space of JSON. -/
def isSpace (c : Char) : Bool :=
  c = ' ' || c = '\t' || c = '\r' || c = '\n'

/-- Drop leading white space. -/
def skipSpace : List Char → List Char
  | [] => []
  | c :: cs => if isSpace c then skipSpace cs else c :: cs

/-- Whether a character is a decimal digit. -/
def isDigit (c : Char) : Bool :=
  48 ≤ c.toNat && c.toNat ≤ 57

/-- The value of a hexadecimal digit of either case. -/
def hexValue (c : Char) : Option Nat :=
  let n := c.toNat
  if 48 ≤ n ∧ n ≤ 57 then some (n - 48)
  else if 97 ≤ n ∧ n ≤ 102 then some (n - 87)
  else if 65 ≤ n ∧ n ≤ 70 then some (n - 55)
  else none

/-- The value of four hexadecimal digits (`getu4`). -/
def hex4 (a b c d : Char) : Option Nat :=
  match hexValue a, hexValue b, hexValue c, hexValue d with
  | some x, some y, some z, some w => some (x * 4096 + y * 256 + z * 16 + w)
  | _, _, _, _ => none

/-- The character of a one-letter escape. -/
def simpleEscape (e : Char) : Option Char :=
  if e = '"' then some '"'
  else if e = '\\' then some '\\'
  else if e = '/' then some '/'
  else if e = 'b' then some (Char.ofNat 8)
  else if e = 'f' then some (Char.ofNat 12)
  else if e = 'n' then some '\n'
  else if e = 'r' then some '\r'
  else if e = 't' then some '\t'
  else none

/-- Whether a code unit is a UTF-16 surrogate. -/
def isSurrogate (r : Nat) : Bool :=
  0xD800 ≤ r && r ≤ 0xDFFF

/-- The value of the low surrogate escape `\uXXXX` at the head of a text, if there
is one. -/
def lowSurrogate : List Char → Option Nat
  | bs :: u :: a :: b :: c :: d :: _ =>
    if bs = '\\' ∧ u = 'u' then
      match hex4 a b c d with
      | some lo => if 0xDC00 ≤ lo ∧ lo ≤ 0xDFFF then some lo else none
      | none => none
    else none
  | _ => none

/-- Put a decoded character in front of the rest of a decoded string. -/
def consChar (c : Char) : Option (List Char × List Char) → Option (List Char × List Char)
  | some (s, rest) => some (c :: s, rest)
  | none => none

/-- Read a string after its opening quote (the scanner's string states and
`unquote`): the decoded characters and the text after the closing quote. A raw
control character, an unknown escape or a missing closing quote is a syntax
error; a surrogate escape that is not the first half of a valid pair decodes as
`U+FFFD`. `skip` counts the characters of a low surrogate escape that has already
been decoded together with the high surrogate before it. -/
def unquoteAux : Nat → List Char → Option (List Char × List Char)
  | _, [] => none
  | skip + 1, _ :: cs => unquoteAux skip cs
  | 0, c :: cs =>
    if c = '"' then some ([], cs)
    else if c = '\\' then
      match cs with
      | [] => none
      | e :: cs1 =>
        if e = 'u' then
          match cs1 with
          | a :: b :: c3 :: d :: cs2 =>
            match hex4 a b c3 d with
            | none => none
            | some r =>
              if isSurrogate r then
                match (if r ≤ 0xDBFF then lowSurrogate cs2 else none) with
                | some lo =>
                  consChar (Char.ofNat ((r - 0xD800) * 1024 + (lo - 0xDC00) + 0x10000))
                    (unquoteAux 6 cs2)
                | none => consChar (Char.ofNat 0xFFFD) (unquoteAux 0 cs2)
              else consChar (Char.ofNat r) (unquoteAux 0 cs2)
          | _ => none
        else
          match simpleEscape e with
          | some ch => consChar ch (unquoteAux 0 cs1)
          | none => none
    else if c.toNat < 32 then none
    else consChar c (unquoteAux 0 cs)

/-- Read a string after its opening quote. -/
def unquote (cs : List Char) : Option (List Char × List Char) :=
  unquoteAux 0 cs

/-- The longest run of digits at the head of a text, and the text after it. -/
def takeDigits : List Char → List Char × List Char
  | [] => ([], [])
  | c :: cs =>
    if isDigit c then ((takeDigits cs).1.cons c, (takeDigits cs).2) else ([], c :: cs)

/-- The exponent part of a number, if one follows: the text of the number so far
extended by it, and the text after the number. -/
def scanExponent (acc : List Char) : List Char → Option (List Char × List Char)
  | [] => some (acc, [])
  | e :: t =>
    if e = 'e' ∨ e = 'E' then
      match t with
      | [] => none
      | sg :: u =>
        if sg = '+' ∨ sg = '-' then
          if (takeDigits u).1 = [] then none
          else some (acc ++ e :: sg :: (takeDigits u).1, (takeDigits u).2)
        else
          if (takeDigits t).1 = [] then none
          else some (acc ++ e :: (takeDigits t).1, (takeDigits t).2)
    else some (acc, e :: t)

/-- The fraction part of a number, if one follows, then the exponent part. -/
def scanFraction (acc : List Char) : List Char → Option (List Char × List Char)
  | [] => some (acc, [])
  | p :: t =>
    if p = '.' then
      if (takeDigits t).1 = [] then none
      else scanExponent (acc ++ p :: (takeDigits t).1) (takeDigits t).2
    else scanExponent acc (p :: t)

/-- The integer part of a number after its sign: a single `0`, or a digit from 1
to 9 followed by digits. -/
def scanInteger (acc : List Char) : List Char → Option (List Char × List Char)
  | [] => none
  | d :: t =>
    if d = '0' then scanFraction (acc ++ [d]) t
    else if isDigit d then scanFraction (acc ++ d :: (takeDigits t).1) (takeDigits t).2
    else none

/-- Read a number (the scanner's number states): its literal text and the text
after it. -/
def scanNumber : List Char → Option (List Char × List Char)
  | [] => none
  | c :: cs => if c = '-' then scanInteger [c] cs else scanInteger [] (c :: cs)

/-- Read the rest of a literal `true`, `false` or `null` after its first letter. -/
def expectWord (word : List Char) (v : Json) (cs : List Char) : Option (Json × List Char) :=
  if cs.take word.length = word then some (v, cs.drop word.length) else none

mutual
/-- Read one value, white space before it skipped: the value and the text after
it. `fuel` bounds the depth of the recursion; `parseJson` supplies enough of it
for any text. -/
def parseValue : Nat → List Char → Option (Json × List Char)
  | 0, _ => none
  | fuel + 1, cs =>
    match skipSpace cs with
    | [] => none
    | c :: rest =>
      if c = Char.ofNat 123 then
        match skipSpace rest with
        | [] => none
        | c2 :: rest2 =>
          if c2 = Char.ofNat 125 then some (.obj .nil, rest2)
          else
            match parseMembers fuel (c2 :: rest2) with
            | some (ms, r) => some (.obj ms, r)
            | none => none
      else if c = '[' then
        match skipSpace rest with
        | [] => none
        | c2 :: rest2 =>
          if c2 = ']' then some (.arr .nil, rest2)
          else
            match parseElements fuel (c2 :: rest2) with
            | some (xs, r) => some (.arr xs, r)
            | none => none
      else if c = '"' then
        match unquote rest with
        | some (s, r) => some (.str (String.mk s), r)
        | none => none
      else if c = 't' then expectWord ['r', 'u', 'e'] (.bool true) rest
      else if c = 'f' then expectWord ['a', 'l', 's', 'e'] (.bool false) rest
      else if c = 'n' then expectWord ['u', 'l', 'l'] .null rest
      else
        match scanNumber (c :: rest) with
        | some (lit, r) => some (.num (String.mk lit), r)
        | none => none
/-- Read the elements of a non-empty array up to its closing bracket. -/
def parseElements : Nat → List Char → Option (JsonList × List Char)
  | 0, _ => none
  | fuel + 1, cs =>
    match parseValue fuel cs with
    | none => none
    | some (v, r) =>
      match skipSpace r with
      | [] => none
      | c :: r2 =>
        if c = ',' then
          match parseElements fuel r2 with
          | some (vs, r3) => some (.cons v vs, r3)
          | none => none
        else if c = ']' then some (.cons v .nil, r2)
        else none
/-- Read the members of a non-empty object up to its closing brace. -/
def parseMembers : Nat → List Char → Option (JsonMembers × List Char)
  | 0, _ => none
  | fuel + 1, cs =>
    match skipSpace cs with
    | [] => none
    | q :: r =>
      if q = '"' then
        match unquote r with
        | none => none
        | some (k, r1) =>
          match skipSpace r1 with
          | [] => none
          | col :: r2 =>
            if col = ':' then
              match parseValue fuel r2 with
              | none => none
              | some (v, r3) =>
                match skipSpace r3 with
                | [] => none
                | c :: r4 =>
                  if c = ',' then
                    match parseMembers fuel r4 with
                    | some (ms, r5) => some (.cons (String.mk k) v ms, r5)
                    | none => none
                  else if c = Char.ofNat 125 then some (.cons (String.mk k) v .nil, r4)
                  else none
            else none
      else none
end

/-- Read a whole text as one JSON value (`checkValid` and the scan of
`json.Unmarshal`): white space may surround the value and nothing else may follow
it. `none` is a `SyntaxError`. The fuel is two steps for every character, which
no text exhausts: `parseValue` reads a character before it recurses, and between
two calls of `parseElements` or `parseMembers` lies at least a value and a
comma. -/
def parseJson (cs : List Char) : Option Json :=
  match parseValue (2 * cs.length + 2) cs with
  | some (v, r) => if skipSpace r = [] then some v else none
  | none => none

/-! ## Numbers and times as text -/

/-- The character of a decimal digit. -/
def digitChar (d : Nat) : Char :=
  Char.ofNat (48 + d)

/-- The decimal digits of `n` in front of `acc`; `fuel` bounds their number. -/
def natDigitsAux : Nat → Nat → List Char → List Char
  | 0, _, acc => acc
  | fuel + 1, n, acc =>
    if n / 10 = 0 then digitChar (n % 10) :: acc
    else natDigitsAux fuel (n / 10) (digitChar (n % 10) :: acc)

/-- The decimal digits of a natural number. -/
def natDigits (n : Nat) : List Char :=
  natDigitsAux (n + 1) n []

/-- The decimal text of an integer, as `strconv.AppendInt` writes it. -/
def intLiteral (n : Int) : List Char :=
  if n < 0 then '-' :: natDigits n.natAbs else natDigits n.natAbs

/-- The value of a run of decimal digits. -/
def digitsValue (ds : List Char) : Nat :=
  ds.foldl (fun acc c => acc * 10 + (c.toNat - 48)) 0

/-- The digits of the mantissa of a number literal (integer and fraction digits
together) and its decimal exponent: the literal denotes
`digitsValue m * 10 ^ e`, up to sign. -/
def literalDecimal (lit : List Char) : List Char × Int :=
  let body := match lit with
    | [] => []
    | c :: t => if c = '-' then t else c :: t
  let ip := takeDigits body
  let fr := match ip.2 with
    | [] => (([] : List Char), ([] : List Char))
    | c :: t => if c = '.' then takeDigits t else ([], c :: t)
  let ex : Int := match fr.2 with
    | _ :: sg :: u =>
      if sg = '-' then - (digitsValue (takeDigits u).1 : Int)
      else if sg = '+' then (digitsValue (takeDigits u).1 : Int)
      else (digitsValue (takeDigits (sg :: u)).1 : Int)
    | _ => 0
  (ip.1 ++ fr.1, ex - fr.1.length)

/-- The least magnitude that `strconv.ParseFloat` rounds to infinity at 64 bits:
the largest finite `float64` plus half a unit in its last place. -/
def float64Limit : Nat :=
  2 ^ 1024 - 2 ^ 970

/-- Whether a number literal is out of the range of `float64`, in which case
decoding it into an `interface{}` is an error. -/
def float64Overflows (lit : List Char) : Bool :=
  let m := digitsValue (literalDecimal lit).1
  let e := (literalDecimal lit).2
  if 0 ≤ e then decide (float64Limit ≤ m * 10 ^ e.toNat)
  else decide (float64Limit * 10 ^ (-e).toNat ≤ m)

/-- A `time.Time`, given by its civil date and clock reading and the offset of its
zone in seconds east of UTC. -/
structure Time where
  year : Int
  month : Nat
  day : Nat
  hour : Nat
  minute : Nat
  second : Nat
  nanosecond : Nat
  offset : Int
  deriving DecidableEq

/-- A number in decimal, padded with zeros on the left to a width (`appendInt`). -/
def padDigits (width n : Nat) : List Char :=
  List.replicate (width - (natDigits n).length) '0' ++ natDigits n

/-- Remove the zeros at the end of a run of digits. -/
def trimZeros (ds : List Char) : List Char :=
  (ds.reverse.dropWhile (fun c => c = '0')).reverse

/-- The layout `time.RFC3339Nano`: the fraction of a second is left out when it is
zero and has no zeros at its end otherwise; the zone is `Z` at offset zero and
`+hh:mm` or `-hh:mm` otherwise. -/
def formatRFC3339Nano (t : Time) : List Char :=
  padDigits 4 t.year.toNat ++ '-' :: padDigits 2 t.month ++ '-' :: padDigits 2 t.day ++
    'T' :: padDigits 2 t.hour ++ ':' :: padDigits 2 t.minute ++ ':' :: padDigits 2 t.second ++
    (if t.nanosecond = 0 then [] else '.' :: trimZeros (padDigits 9 t.nanosecond)) ++
    (if t.offset = 0 then ['Z']
     else (if t.offset ≤ -60 then '-' else '+') ::
       padDigits 2 (t.offset.natAbs / 60 / 60) ++ ':' :: padDigits 2 (t.offset.natAbs / 60 % 60))

/-! ## The token -/

/-- A value held in an `interface{}`. The kinds are those a sort or key field of
a record can have (integer, string, bool, timestamp) and those `json.Unmarshal`
stores into an `interface{}` (`float64`, string, bool, slice, map).

A `float64` is identified by a decimal literal denoting it; binary rounding is
not part of the embedding. A decoded slice or map is kept as its JSON tree. -/
inductive GoValue where
  | int (n : Int)
  | float64 (lit : String)
  | str (s : String)
  | bool (b : Bool)
  | time (t : Time)
  | composite (j : Json)
  deriving DecidableEq

/-- The struct `token`. `Filter` is the pointer `*filter.Filter`, `none` when nil;
`F` is the type `filter.Filter`. -/
structure token (F : Type) where
  SortByFieldName : String := ""
  SortByFieldValue : Option GoValue := none
  KeyFieldName : String := ""
  KeyFieldValue : Option GoValue := none
  IsDesc : Bool := false
  Filter : Option F := none
  deriving DecidableEq

/-- A predicate of the query builder (package `squirrel`): the comparisons of a
column with a value and the combinators this package uses. -/
inductive Sqlizer where
  | Eq (column : String) (value : GoValue)
  | Lt (column : String) (value : GoValue)
  | Gt (column : String) (value : GoValue)
  | LtOrEq (column : String) (value : GoValue)
  | GtOrEq (column : String) (value : GoValue)
  | And (parts : List Sqlizer)
  | Or (parts : List Sqlizer)

/-- The parts of a `squirrel.SelectBuilder` that this package touches: the
predicates of the WHERE clause, the ORDER BY clauses and the row limit. -/
structure SelectBuilder where
  whereParts : List Sqlizer := []
  orderBys : List String := []
  limit : Option Nat := none

/-- `SelectBuilder.Where`: one more predicate. -/
def SelectBuilder.Where (b : SelectBuilder) (pred : Sqlizer) : SelectBuilder :=
  { b with whereParts := b.whereParts ++ [pred] }

/-- `SelectBuilder.OrderBy`: one more ordering clause. -/
def SelectBuilder.OrderBy (b : SelectBuilder) (clause : String) : SelectBuilder :=
  { b with orderBys := b.orderBys ++ [clause] }

/-- `SelectBuilder.Limit`: set the row limit. -/
def SelectBuilder.Limit (b : SelectBuilder) (n : Nat) : SelectBuilder :=
  { b with limit := some n }

/-- What this package takes from outside its source file: the filter package
(`Proto` is `api.Filter`, `F` is `filter.Filter`) and the case table of package
`unicode`. -/
structure Env (Proto F : Type) where
  /-- `unicode.ToLower` on the characters outside ASCII. -/
  unicodeToLower : Char → Char
  /-- `filter.NewWithKeyMap`. -/
  NewWithKeyMap : Proto → List (String × String) → Except Error F
  /-- `Filter.AddToSelect`. -/
  filterAddToSelect : F → SelectBuilder → SelectBuilder
  /-- The JSON form `json.Marshal` gives a filter; `none` is an error. -/
  filterMarshalJSON : F → Option Json
  /-- What `json.Unmarshal` makes of a JSON value other than `null` stored into the
  field `Filter`, given what the field holds; `none` is an error. -/
  filterUnmarshalJSON : Option F → Json → Option F

/-- The JSON form of a value held in an `interface{}`. A timestamp is written as
a string in the layout `RFC3339Nano`, and is an error outside the years 0 to
9999. The two kinds that only decoding produces are written as what they are
kept as, the literal or the tree, where Go prints the shortest literal of the
same `float64` and the keys of a map in sorted order. -/
def marshalValue : Option GoValue → Option Json
  | none => some .null
  | some (.int n) => some (.num (String.mk (intLiteral n)))
  | some (.float64 lit) => some (.num lit)
  | some (.str s) => some (.str s)
  | some (.bool b) => some (.bool b)
  | some (.time t) =>
    if 0 ≤ t.year ∧ t.year < 10000 then some (.str (String.mk (formatRFC3339Nano t))) else none
  | some (.composite j) => some j

/-- The JSON object `json.Marshal` builds from a token: its six fields under their
Go names, in the order of the struct. -/
def tokenToJson {Proto F : Type} (env : Env Proto F) (t : token F) : Option Json :=
  match marshalValue t.SortByFieldValue, marshalValue t.KeyFieldValue,
    (match t.Filter with
      | none => some Json.null
      | some f => env.filterMarshalJSON f) with
  | some sv, some kv, some fj =>
    some (.obj (.cons "SortByFieldName" (.str t.SortByFieldName)
      (.cons "SortByFieldValue" sv
      (.cons "KeyFieldName" (.str t.KeyFieldName)
      (.cons "KeyFieldValue" kv
      (.cons "IsDesc" (.bool t.IsDesc)
      (.cons "Filter" fj .nil)))))))
  | _, _, _ => none

/-- `json.Marshal` of a token: the bytes of the compact text. -/
def jsonMarshal {Proto F : Type} (env : Env Proto F) (t : token F) : Option (List Nat) :=
  match tokenToJson env t with
  | some j => some (utf8Encode j.render)
  | none => none

mutual
/-- Whether every number of a JSON value is in the range of `float64`. -/
def Json.numbersInRange : Json → Bool
  | .null => true
  | .bool _ => true
  | .num lit => !float64Overflows lit.data
  | .str _ => true
  | .arr xs => xs.numbersInRange
  | .obj ms => ms.numbersInRange
/-- Whether every number of the elements is in the range of `float64`. -/
def JsonList.numbersInRange : JsonList → Bool
  | .nil => true
  | .cons x xs => x.numbersInRange && xs.numbersInRange
/-- Whether every number of the members is in the range of `float64`. -/
def JsonMembers.numbersInRange : JsonMembers → Bool
  | .nil => true
  | .cons _ v ms => v.numbersInRange && ms.numbersInRange
end

/-- What `json.Unmarshal` stores into an `interface{}`: nil for `null`, a `float64`
for a number, a string, a bool, a slice or a map. The outer `none` is the error of
a number out of range. -/
def decodeInterface (j : Json) : Option (Option GoValue) :=
  match j with
  | .null => some none
  | .bool b => some (some (.bool b))
  | .num lit => if float64Overflows lit.data then none else some (some (.float64 lit))
  | .str s => some (some (.str s))
  | .arr xs => if xs.numbersInRange then some (some (.composite (.arr xs))) else none
  | .obj ms => if ms.numbersInRange then some (some (.composite (.obj ms))) else none

/-- The simple case folding of a character as far as it can meet an ASCII letter:
ASCII letters to upper case, the long s to `S`, the Kelvin sign to `K`. -/
def foldRune (c : Char) : Char :=
  let n := c.toNat
  if 97 ≤ n ∧ n ≤ 122 then Char.ofNat (n - 32)
  else if n = 0x17F then 'S'
  else if n = 0x212A then 'K'
  else c

/-- Whether a key of a JSON object names a field of the struct: the match is
insensitive to case. -/
def fieldMatches (name : String) (key : String) : Bool :=
  key.data.map foldRune = name.data.map foldRune

/-- Store one member of a JSON object into the token. A string field takes a
string, a bool field a bool, and both are left as they are by `null`; an
`interface{}` field takes any value; the filter pointer is set to nil by `null`;
a key that names no field is skipped. `none` is an `UnmarshalTypeError`. -/
def decodeMember {Proto F : Type} (env : Env Proto F) (t : token F) (k : String) (v : Json) :
    Option (token F) :=
  if fieldMatches "SortByFieldName" k then
    match v with
    | .str s => some { t with SortByFieldName := s }
    | .null => some t
    | _ => none
  else if fieldMatches "SortByFieldValue" k then
    match decodeInterface v with
    | some x => some { t with SortByFieldValue := x }
    | none => none
  else if fieldMatches "KeyFieldName" k then
    match v with
    | .str s => some { t with KeyFieldName := s }
    | .null => some t
    | _ => none
  else if fieldMatches "KeyFieldValue" k then
    match decodeInterface v with
    | some x => some { t with KeyFieldValue := x }
    | none => none
  else if fieldMatches "IsDesc" k then
    match v with
    | .bool b => some { t with IsDesc := b }
    | .null => some t
    | _ => none
  else if fieldMatches "Filter" k then
    match v with
    | .null => some { t with Filter := none }
    | _ =>
      match env.filterUnmarshalJSON t.Filter v with
      | some f => some { t with Filter := some f }
      | none => none
  else some t

/-- Store the members of a JSON object into the token, in the order of the text. -/
def decodeMembers {Proto F : Type} (env : Env Proto F) : token F → JsonMembers → Option (token F)
  | t, .nil => some t
  | t, .cons k v ms =>
    match decodeMember env t k v with
    | some t2 => decodeMembers env t2 ms
    | none => none

/-- `json.Unmarshal(b, t)`: the token after the call, or `none` for an error. The
text `null` leaves the token as it is; any value other than an object is an
`UnmarshalTypeError`. -/
def jsonUnmarshal {Proto F : Type} (env : Env Proto F) (b : List Nat) (t : token F) :
    Option (token F) :=
  match parseJson (utf8Decode b) with
  | none => none
  | some .null => some t
  | some (.obj ms) => decodeMembers env t ms
  | some _ => none

/-- The closure `errorF` of `unmarshal`. -/
def errorF (err : String) : Error :=
  NewInvalidInputErrorWithDetails err "Invalid package token."

/-- The method `token.unmarshal`: the receiver `t` after the call, or the error. -/
def token.unmarshal {Proto F : Type} (env : Env Proto F) (t : token F) (pageToken : String) :
    Except Error (token F) :=
  match base64Decode pageToken.data with
  | none => .error (errorF "illegal base64 data")
  | some b =>
    match jsonUnmarshal env b t with
    | none => .error (errorF "json: cannot unmarshal")
    | some t2 => .ok t2

/-- The method `token.marshal`. -/
def token.marshal {Proto F : Type} (env : Env Proto F) (t : token F) : Except Error String :=
  match jsonMarshal env t with
  | none => .error (NewInternalServerError "json: error" "Failed to serialize page token.")
  | some b => .ok (String.mk (base64Encode b))

/-! ## Options -/

/-- The struct `Options`: a page size and the embedded token. -/
structure Options (F : Type) where
  PageSize : Int
  token : token F
  deriving DecidableEq

/-- The function `NewOptionsFromToken`. -/
def NewOptionsFromToken {Proto F : Type} (env : Env Proto F) (nextPageToken : String)
    (pageSize : Int) : Except Error (Options F) :=
  if nextPageToken = "" then
    .error (Errorf "cannot create list.Options from empty page token")
  else
    match validatePageSize pageSize with
    | .error err => .error err
    | .ok pageSize =>
      match token.unmarshal env {} nextPageToken with
      | .error err => .error err
      | .ok t => .ok { PageSize := pageSize, token := t }

/-- A value of a type that implements the interface `Listable`, given by the name
of the struct type, the exported fields of the struct with their values, the
results of the three methods of the interface, the names of the unexported fields
of the struct, and whether the value is a pointer, not nil, to a struct, as
`nextPageToken` takes it to be. -/
structure Listable where
  typeName : String
  fields : List (String × GoValue)
  PrimaryKeyColumnName : String
  DefaultSortField : String
  APIToModelFieldMap : List (String × String)
  unexported : List String := []
  isStructPointer : Bool := true
  deriving DecidableEq

/-- What `reflect.Value.FieldByName` finds under a name, when it finds a field: an
exported field with its value, or an unexported field. -/
inductive Field where
  | exported (v : GoValue)
  | unexported
  deriving DecidableEq

/-- `reflect.Value.Interface` on a field: the value of an exported field; on an
unexported field it panics, which is `none`. -/
def Field.Interface : Field → Option GoValue
  | .exported v => some v
  | .unexported => none

/-- `reflect.Value.FieldByName` on the struct of a record: the field of that name,
exported or not; `none` is the invalid `Value` that stands for no such field. -/
def Listable.FieldByName (l : Listable) (name : String) : Option Field :=
  match l.fields.lookup name with
  | some v => some (.exported v)
  | none => if name ∈ l.unexported then some .unexported else none

/-- The value that `FieldByName` followed by `Interface` reads off a record: the
value of the exported field of that name of the struct that the record points
to; `none` when nothing can be read. -/
def Listable.FieldValue (l : Listable) (name : String) : Option GoValue :=
  if l.isStructPointer then (l.FieldByName name).bind Field.Interface else none

/-- `unicode.ToLower`: ASCII capitals by arithmetic, other characters by the table
of the package. -/
def toLowerRune (lower : Char → Char) (c : Char) : Char :=
  if c.toNat < 128 then (if 65 ≤ c.toNat ∧ c.toNat ≤ 90 then Char.ofNat (c.toNat + 32) else c)
  else lower c

/-- `strings.ToLower`. -/
def ToLower (lower : Char → Char) (s : String) : String :=
  String.mk (s.data.map (toLowerRune lower))

/-- `unicode.IsSpace`. -/
def isSpaceRune (c : Char) : Bool :=
  let n := c.toNat
  (9 ≤ n && n ≤ 13) || n = 32 || n = 0x85 || n = 0xA0 || n = 0x1680 ||
    (0x2000 ≤ n && n ≤ 0x200A) || n = 0x2028 || n = 0x2029 || n = 0x202F || n = 0x205F ||
    n = 0x3000

/-- The fields of a text after the field `cur` that is being read. -/
def fieldsAux : List Char → List Char → List String
  | [], cur => if cur = [] then [] else [String.mk cur]
  | c :: cs, cur =>
    if isSpaceRune c then
      (if cur = [] then fieldsAux cs [] else String.mk cur :: fieldsAux cs [])
    else fieldsAux cs (cur ++ [c])

/-- `strings.Fields`: the maximal runs of characters that are not white space. -/
def Fields (s : String) : List String :=
  fieldsAux s.data []

/-- The function `NewOptions`. `filterProto` is the pointer `*api.Filter`. -/
def NewOptions {Proto F : Type} (env : Env Proto F) (listable : Listable) (pageSize : Int)
    (sortBy : String) (filterProto : Option Proto) : Except Error (Options F) :=
  match validatePageSize pageSize with
  | .error err => .error err
  | .ok pageSize =>
    let tok : token F := { KeyFieldName := listable.PrimaryKeyColumnName }
    let queryList := Fields (ToLower env.unicodeToLower sortBy)
    if queryList.length > 2 ∨
        (queryList.length = 2 ∧ queryList.getD 1 "" ≠ "desc" ∧ queryList.getD 1 "" ≠ "asc") then
      .error (NewInvalidInputError
        "Received invalid sort by format %q. Supported format: \"field_name\", \"field_name desc\", or \"field_name asc\"")
    else
      let tok := { tok with SortByFieldName := listable.DefaultSortField }
      let named : Except Error (token F) :=
        if queryList.length > 0 then
          match listable.APIToModelFieldMap.lookup (queryList.getD 0 "") with
          | some n => .ok { tok with SortByFieldName := n }
          | none => .error (NewInvalidInputError "Invalid sorting field: %q: %s")
        else .ok tok
      match named with
      | .error err => .error err
      | .ok tok =>
        let tok :=
          if queryList.length = 2 then { tok with IsDesc := queryList.getD 1 "" = "desc" }
          else tok
        match filterProto with
        | some proto =>
          match env.NewWithKeyMap proto listable.APIToModelFieldMap with
          | .error err => .error err
          | .ok f => .ok { PageSize := pageSize, token := { tok with Filter := some f } }
        | none => .ok { PageSize := pageSize, token := tok }

/-- The method `Options.AddToSelect`. The conversion `uint64(o.PageSize + 1)` is
the residue modulo `2 ^ 64`. -/
def Options.AddToSelect {Proto F : Type} (env : Env Proto F) (o : Options F)
    (sqlBuilder : SelectBuilder) : SelectBuilder :=
  let sqlBuilder :=
    match o.token.SortByFieldValue, o.token.KeyFieldValue with
    | some sortValue, some keyValue =>
      if o.token.IsDesc then
        sqlBuilder.Where (.Or [.Lt o.token.SortByFieldName sortValue,
          .And [.Eq o.token.SortByFieldName sortValue, .LtOrEq o.token.KeyFieldName keyValue]])
      else
        sqlBuilder.Where (.Or [.Gt o.token.SortByFieldName sortValue,
          .And [.Eq o.token.SortByFieldName sortValue, .GtOrEq o.token.KeyFieldName keyValue]])
    | _, _ => sqlBuilder
  let order := if o.token.IsDesc then "DESC" else "ASC"
  let sqlBuilder :=
    (sqlBuilder.OrderBy (o.token.SortByFieldName ++ " " ++ order)).OrderBy
      (o.token.KeyFieldName ++ " " ++ order)
  let sqlBuilder := sqlBuilder.Limit ((o.PageSize + 1) % 2 ^ 64).toNat
  match o.token.Filter with
  | some f => env.filterAddToSelect f sqlBuilder
  | none => sqlBuilder

/-- The outcome of a call: a result, an error, or a panic. -/
inductive Outcome (α : Type) where
  | ok (a : α)
  | error (err : Error)
  | panic
  deriving DecidableEq

/-- The method `Options.nextPageToken`. `reflect.ValueOf(listable).Elem()` and the
calls on it panic unless the record is a pointer, not nil, to a struct, and
`Interface` panics on an unexported field. -/
def Options.nextPageToken {F : Type} (o : Options F) (listable : Listable) :
    Outcome (list.token F) :=
  if listable.isStructPointer then
    match listable.FieldByName o.token.SortByFieldName with
    | none => .error (Errorf "cannot sort by field %q on type %q")
    | some sortByField =>
      match listable.FieldByName listable.PrimaryKeyColumnName with
      | none => .error (Errorf "type %q does not have key field %q")
      | some keyField =>
        match sortByField.Interface, keyField.Interface with
        | some sortValue, some keyValue =>
          .ok { SortByFieldName := o.token.SortByFieldName
                SortByFieldValue := some sortValue
                KeyFieldName := listable.PrimaryKeyColumnName
                KeyFieldValue := some keyValue
                IsDesc := o.token.IsDesc }
        | _, _ => .panic
  else .panic

/-- The method `Options.NextPageToken`. -/
def Options.NextPageToken {Proto F : Type} (env : Env Proto F) (o : Options F)
    (listable : Listable) : Outcome String :=
  match o.nextPageToken listable with
  | .panic => .panic
  | .error err => .error err
  | .ok t =>
    match t.marshal env with
    | .error err => .error err
    | .ok s => .ok s

/-! ## Well-formed JSON and the values a token can carry through it -/

/-- Whether a text is one JSON number literal. -/
def validNumber (lit : List Char) : Bool :=
  decide (scanNumber lit = some (lit, []))

mutual
/-- Whether every number of a JSON value is a number literal. -/
def Json.wellFormed : Json → Bool
  | .null => true
  | .bool _ => true
  | .num lit => validNumber lit.data
  | .str _ => true
  | .arr xs => xs.wellFormed
  | .obj ms => ms.wellFormed
/-- Whether the elements are well formed. -/
def JsonList.wellFormed : JsonList → Bool
  | .nil => true
  | .cons x xs => x.wellFormed && xs.wellFormed
/-- Whether the values of the members are well formed. -/
def JsonMembers.wellFormed : JsonMembers → Bool
  | .nil => true
  | .cons _ v ms => v.wellFormed && ms.wellFormed
end

mutual
/-- A depth of recursion that suffices for `parseValue` to read the text of a
value. -/
def Json.fuel : Json → Nat
  | .null => 1
  | .bool _ => 1
  | .num _ => 1
  | .str _ => 1
  | .arr xs => xs.fuel + 1
  | .obj ms => ms.fuel + 1
/-- A depth of recursion that suffices for `parseElements`. -/
def JsonList.fuel : JsonList → Nat
  | .nil => 0
  | .cons x xs => x.fuel + xs.fuel + 1
/-- A depth of recursion that suffices for `parseMembers`. -/
def JsonMembers.fuel : JsonMembers → Nat
  | .nil => 0
  | .cons _ v ms => v.fuel + ms.fuel + 1
end

/-- Whether the text after a value starts as the text after a value of an array
or an object does, or is empty. -/
def delimited (rest : List Char) : Prop :=
  ∀ c, rest.head? = some c → c = ',' ∨ c = ']' ∨ c = Char.ofNat 125

/-- The scalar kinds a sort or key field can have: an integer of at most 64 bits,
a string, a bool, a timestamp of a year from 0 to 9999. -/
def GoValue.supported : GoValue → Bool
  | .int n => decide (-(2 ^ 63) ≤ n ∧ n < 2 ^ 64)
  | .str _ => true
  | .bool _ => true
  | .time t => decide (0 ≤ t.year ∧ t.year < 10000)
  | .float64 _ => false
  | .composite _ => false

/-- What `json.Unmarshal` gives back for a value that `json.Marshal` wrote: an
integer comes back as a `float64`, a timestamp as the string of its layout, a
string or a bool as itself. -/
def GoValue.throughJSON : GoValue → GoValue
  | .int n => .float64 (String.mk (intLiteral n))
  | .time t => .str (String.mk (formatRFC3339Nano t))
  | v => v

/-! ## Running the query

The store is a list of records. The database compares column values through a
key into a linear order (its collation), which is a parameter: two values are
equal for the database when their keys are, and a column a record lacks is
`NULL` (the bottom of `WithBot`), which no comparison of a WHERE clause
accepts. The columns of a record are the fields that the code reads off it,
`FieldValue`: the exported fields of the struct it points to. -/

/-- The key of the value of a column of a row, `⊥` when the row lacks the column. -/
def columnKey {κ : Type} (key : GoValue → κ) (row : Listable) (column : String) : WithBot κ :=
  (row.FieldValue column).map key

/-- Whether a row satisfies a predicate. -/
def Sqlizer.eval {κ : Type} [LinearOrder κ] (key : GoValue → κ) (row : Listable) :
    Sqlizer → Bool
  | .Eq column v =>
    match row.FieldValue column with
    | some x => decide (key x = key v)
    | none => false
  | .Lt column v =>
    match row.FieldValue column with
    | some x => decide (key x < key v)
    | none => false
  | .Gt column v =>
    match row.FieldValue column with
    | some x => decide (key v < key x)
    | none => false
  | .LtOrEq column v =>
    match row.FieldValue column with
    | some x => decide (key x ≤ key v)
    | none => false
  | .GtOrEq column v =>
    match row.FieldValue column with
    | some x => decide (key v ≤ key x)
    | none => false
  | .And parts => evalAll key row parts
  | .Or parts => evalAny key row parts
where
  /-- Whether a row satisfies all the predicates. -/
  evalAll {κ : Type} [LinearOrder κ] (key : GoValue → κ) (row : Listable) : List Sqlizer → Bool
    | [] => true
    | p :: ps => p.eval key row && evalAll key row ps
  /-- Whether a row satisfies one of the predicates. -/
  evalAny {κ : Type} [LinearOrder κ] (key : GoValue → κ) (row : Listable) : List Sqlizer → Bool
    | [] => false
    | p :: ps => p.eval key row || evalAny key row ps

/-- An ORDER BY clause read as a column and a direction: the text before the last
space is the column, and `DESC` after it makes the order descending. -/
def parseOrderBy (clause : String) : String × Bool :=
  let rev := clause.data.reverse
  (String.mk (rev.dropWhile (fun c => c ≠ ' ')).tail.reverse,
    decide ((rev.takeWhile (fun c => c ≠ ' ')).reverse = ['D', 'E', 'S', 'C']))

/-- Whether a row may stand before another one under the ORDER BY clauses: the
first clause on which the rows differ decides. -/
def rowLe {κ : Type} [LinearOrder κ] (key : GoValue → κ) :
    List (String × Bool) → Listable → Listable → Bool
  | [], _, _ => true
  | (column, desc) :: clauses, r, r2 =>
    if columnKey key r column = columnKey key r2 column then rowLe key clauses r r2
    else if desc then decide (columnKey key r2 column < columnKey key r column)
    else decide (columnKey key r column < columnKey key r2 column)

/-- The rows of the store that satisfy every predicate of the WHERE clause. -/
def matchingRows {κ : Type} [LinearOrder κ] (key : GoValue → κ) (store : List Listable)
    (b : SelectBuilder) : List Listable :=
  store.filter (fun r => Sqlizer.eval.evalAll key r b.whereParts)

/-- The result of the query a builder describes: the matching rows, in the order
of the ORDER BY clauses, cut at the limit. -/
def runQuery {κ : Type} [LinearOrder κ] (key : GoValue → κ) (store : List Listable)
    (b : SelectBuilder) : List Listable :=
  let sorted := (matchingRows key store b).insertionSort
    (fun r r2 => rowLe key (b.orderBys.map parseOrderBy) r r2 = true)
  match b.limit with
  | some n => sorted.take n
  | none => sorted

/-- The pages a caller shows when it lists the store from the options `o` on: it
runs the query of `AddToSelect`; when one row more than the page size comes back
it shows all rows but the last and goes on with the token that `nextPageToken`
derives from the last one; otherwise it shows the rows and stops. `fuel` bounds
the number of queries; `none` means that it ran out or that a token could not be
derived. -/
def listPages {Proto F κ : Type} [LinearOrder κ] (env : Env Proto F) (key : GoValue → κ)
    (store : List Listable) : Nat → Options F → Option (List (List Listable))
  | 0, _ => none
  | fuel + 1, o =>
    let rows := runQuery key store (o.AddToSelect env {})
    if rows.length = o.PageSize.toNat + 1 then
      match rows[o.PageSize.toNat]? with
      | none => none
      | some last =>
        match o.nextPageToken last with
        | .panic => none
        | .error _ => none
        | .ok t =>
          match listPages env key store fuel { PageSize := o.PageSize, token := t } with
          | some pages => some (rows.take o.PageSize.toNat :: pages)
          | none => none
    else some [rows]

/-- Whether a row comes strictly before another one in the order of the pair
(sort field, key field), ascending or descending. -/
def rowBefore {κ : Type} [LinearOrder κ] (key : GoValue → κ) (sortField keyField : String)
    (desc : Bool) (r r2 : Listable) : Prop :=
  if desc then
    columnKey key r2 sortField < columnKey key r sortField ∨
      (columnKey key r sortField = columnKey key r2 sortField ∧
        columnKey key r2 keyField < columnKey key r keyField)
  else
    columnKey key r sortField < columnKey key r2 sortField ∨
      (columnKey key r sortField = columnKey key r2 sortField ∧
        columnKey key r keyField < columnKey key r2 keyField)

instance {κ : Type} [LinearOrder κ] (key : GoValue → κ) (sortField keyField : String)
    (desc : Bool) (r r2 : Listable) : Decidable (rowBefore key sortField keyField desc r r2) := by
  unfold rowBefore
  exact inferInstance

/-- The contract the spec states for the filter collaborator: applied to a
builder it only adds predicates, and alters neither the ordering nor the limit. -/
def Env.FilterOnlyAddsPredicates {Proto F : Type} (env : Env Proto F) : Prop :=
  ∀ (f : F) (b : SelectBuilder), ∃ ps : List Sqlizer,
    env.filterAddToSelect f b = { b with whereParts := b.whereParts ++ ps }

/-! ## Sample data -/

deriving instance DecidableEq for Except

/-- A filter package whose filters are natural numbers: the filter `n` adds `n`
copies of one predicate to a query and is written in JSON as the number `n`. -/
def sampleEnv : Env Nat Nat :=
  { unicodeToLower := id
    NewWithKeyMap := fun proto _ => .ok proto
    filterAddToSelect := fun f b =>
      { b with whereParts := b.whereParts ++ List.replicate f (.Eq "Name" (.str "x")) }
    filterMarshalJSON := fun f => some (.num (String.mk (natDigits f)))
    filterUnmarshalJSON := fun _ j =>
      match j with
      | .num lit => some (digitsValue lit.data)
      | _ => none }

/-- A record of a type `Job` with the key field `UUID`. -/
def sampleJob (uuid : Int) (createdAt : Int) : Listable :=
  { typeName := "Job"
    fields := [("UUID", .int uuid), ("CreatedAtInSec", .int createdAt)]
    PrimaryKeyColumnName := "UUID"
    DefaultSortField := "CreatedAtInSec"
    APIToModelFieldMap := [("id", "UUID"), ("created_at", "CreatedAtInSec")] }

/-- The store of the end-to-end scenario of the spec. -/
def sampleStore : List Listable :=
  [sampleJob 3 20, sampleJob 1 10, sampleJob 2 10]

/-- The collation of the sample store: integers by their value. -/
def sampleKey : GoValue → Int
  | .int n => n
  | _ => 0

/-- First-page options on the sample store: two rows a page, by creation time. -/
def sampleFirstPage : Options Nat :=
  { PageSize := 2, token := { SortByFieldName := "CreatedAtInSec", KeyFieldName := "UUID" } }

/-- Options with a cursor and a filter. -/
def sampleNextPage : Options Nat :=
  { PageSize := 2
    token :=
      { SortByFieldName := "CreatedAtInSec"
        SortByFieldValue := some (.int 10)
        KeyFieldName := "UUID"
        KeyFieldValue := some (.int 2)
        IsDesc := true
        Filter := some 1 } }

/-- A token with an integer sort value and a string key value. -/
def sampleToken : token Nat :=
  { SortByFieldName := "CreatedAtInSec"
    SortByFieldValue := some (.int 10)
    KeyFieldName := "UUID"
    KeyFieldValue := some (.str "a<b")
    IsDesc := true
    Filter := some 3 }

/-- A token with a timestamp as sort value and no filter. -/
def sampleTimeToken : token Nat :=
  { SortByFieldName := "CreatedAt"
    SortByFieldValue := some (.time
      { year := 2018, month := 11, day := 5, hour := 7, minute := 3, second := 9,
        nanosecond := 120000000, offset := -19800 })
    KeyFieldName := "UUID"
    KeyFieldValue := some (.str "k") }

/-- The page token of `sampleTimeToken`: the base64 form of
`\x7b"SortByFieldName":"CreatedAt","SortByFieldValue":"2018-11-05T07:03:09.12-05:30","KeyFieldName":"UUID","KeyFieldValue":"k","IsDesc":false,"Filter":null\x7d`. -/
def sampleTimePageToken : String :=
  "eyJTb3J0QnlGaWVsZE5hbWUiOiJDcmVhdGVkQXQiLCJTb3J0QnlGaWVsZFZhbHVlIjoiMjAxOC0xMS0wNVQwNzowMzowOS4xMi0wNTozMCIsIktleUZpZWxkTmFtZSI6IlVVSUQiLCJLZXlGaWVsZFZhbHVlIjoiayIsIklzRGVzYyI6ZmFsc2UsIkZpbHRlciI6bnVsbH0="

/-- The page token of `sampleToken`: the base64 form of
`\x7b"SortByFieldName":"CreatedAtInSec","SortByFieldValue":10,"KeyFieldName":"UUID","KeyFieldValue":"a\u003cb","IsDesc":true,"Filter":3\x7d`. -/
def samplePageToken : String :=
  "eyJTb3J0QnlGaWVsZE5hbWUiOiJDcmVhdGVkQXRJblNlYyIsIlNvcnRCeUZpZWxkVmFsdWUiOjEwLCJLZXlGaWVsZE5hbWUiOiJVVUlEIiwiS2V5RmllbGRWYWx1ZSI6ImFcdTAwM2NiIiwiSXNEZXNjIjp0cnVlLCJGaWx0ZXIiOjN9"

/-- A record of a type `Pipeline` that can be sorted by name. -/
def samplePipeline : Listable :=
  { typeName := "Pipeline"
    fields := [("UUID", .str "p1"), ("Name", .str "first"), ("CreatedAtInSec", .int 10)]
    PrimaryKeyColumnName := "UUID"
    DefaultSortField := "CreatedAtInSec"
    APIToModelFieldMap := [("id", "UUID"), ("name", "Name"), ("created_at", "CreatedAtInSec")] }

/-- A record of a type whose field map has a key with white space in it. -/
def sampleSpacedKeys : Listable :=
  { typeName := "Odd"
    fields := [("UUID", .str "o1"), ("Name", .str "first")]
    PrimaryKeyColumnName := "UUID"
    DefaultSortField := "UUID"
    APIToModelFieldMap := [("Name desc", "UUID"), ("name", "Name")] }

/-- A record of a type with the unexported field `secret`. -/
def sampleHidden : Listable :=
  { typeName := "Hidden"
    fields := [("UUID", .str "h1")]
    PrimaryKeyColumnName := "UUID"
    DefaultSortField := "UUID"
    APIToModelFieldMap := [("id", "UUID"), ("secret", "secret")]
    unexported := ["secret"] }

/-- Options whose key field is `Name`, as `NewOptionsFromToken` returns them for a
page token that names this key field; the sample records have the key `UUID`. -/
def sampleForeignKeyOptions : Options Nat :=
  { PageSize := 2, token := { SortByFieldName := "CreatedAtInSec", KeyFieldName := "Name" } }

/-- A page token that carries a sort value and no key value: the base64 form of
`\x7b"SortByFieldValue":1\x7d`. -/
def sampleOneSidedPageToken : String :=
  "eyJTb3J0QnlGaWVsZFZhbHVlIjoxfQ=="

/-- A record of a type whose field map has the key `Name`, with a capital, and no
key `name`. -/
def sampleUpperKey : Listable :=
  { typeName := "Upper"
    fields := [("UUID", .str "u1"), ("Name", .str "first")]
    PrimaryKeyColumnName := "UUID"
    DefaultSortField := "UUID"
    APIToModelFieldMap := [("id", "UUID"), ("Name", "Name")] }

/-- The page token that `NextPageToken` derives from `sampleNextPage` and the
record `sampleJob 2 10`: the base64 form of
`\x7b"SortByFieldName":"CreatedAtInSec","SortByFieldValue":10,"KeyFieldName":"UUID","KeyFieldValue":2,"IsDesc":true,"Filter":null\x7d`. -/
def sampleDerivedPageToken : String :=
  "eyJTb3J0QnlGaWVsZE5hbWUiOiJDcmVhdGVkQXRJblNlYyIsIlNvcnRCeUZpZWxkVmFsdWUiOjEwLCJLZXlGaWVsZE5hbWUiOiJVVUlEIiwiS2V5RmllbGRWYWx1ZSI6MiwiSXNEZXNjIjp0cnVlLCJGaWx0ZXIiOm51bGx9"

/-! ## The page-size policy and the constructors -/

theorem validatePageSize_ok_range (n m : Int) (h : validatePageSize n = .ok m) :
    1 ≤ m ∧ m ≤ 200 := by
  unfold validatePageSize at h
  simp only [defaultPageSize, maxPageSize] at h
  split_ifs at h with h1 h2 h3
  · cases h; omega
  · cases h; omega
  · cases h; omega

/-- C4: `validatePageSize n` fails exactly when `n < 0`, every error it returns is
classified `InvalidInput`, and otherwise it returns 20 for 0, 200 for a size above
200 and the size itself between 1 and 200. -/
theorem validatePageSize_spec (n : Int) :
    ((∃ e, validatePageSize n = .error e) ↔ n < 0) ∧
    (∀ e, validatePageSize n = .error e → e.cls = ErrorClass.InvalidInput) ∧
    (n = 0 → validatePageSize n = .ok 20) ∧
    (200 < n → validatePageSize n = .ok 200) ∧
    (1 ≤ n → n ≤ 200 → validatePageSize n = .ok n) := by
  unfold validatePageSize
  simp only [defaultPageSize, maxPageSize]
  refine ⟨?_, ?_, ?_, ?_, ?_⟩
  · constructor
    · rintro ⟨e, he⟩
      split_ifs at he with h1 h2 h3
      exact h1
    · intro h
      rw [if_pos h]
      exact ⟨_, rfl⟩
  · intro e he
    split_ifs at he with h1 h2 h3
    cases he
    rfl
  · intro h
    subst h
    rfl
  · intro h
    rw [if_neg (by omega), if_neg (by omega), if_pos h]
  · intro h1 h2
    rw [if_neg (by omega), if_neg (by omega), if_neg (by omega)]

/-- The examples of the spec for C4: 0 gives 20, 500 gives 200, 50 gives 50, and
-1 fails with `InvalidInput`. -/
theorem validatePageSize_spec_witness :
    validatePageSize 0 = .ok 20 ∧ validatePageSize 500 = .ok 200 ∧
    validatePageSize 50 = .ok 50 ∧
    ∃ e, validatePageSize (-1) = .error e ∧ e.cls = ErrorClass.InvalidInput :=
  ⟨(validatePageSize_spec 0).2.2.1 rfl,
   (validatePageSize_spec 500).2.2.2.1 (by decide),
   (validatePageSize_spec 50).2.2.2.2 (by decide) (by decide),
   ((validatePageSize_spec (-1)).1.2 (by decide)).elim
     (fun e he => ⟨e, he, (validatePageSize_spec (-1)).2.1 e he⟩)⟩

theorem newOptions_pageSize {Proto F : Type} (env : Env Proto F) (l : Listable) (p : Int)
    (s : String) (f : Option Proto) (o : Options F) (h : NewOptions env l p s f = .ok o) :
    validatePageSize p = .ok o.PageSize := by
  unfold NewOptions at h
  cases hv : validatePageSize p with
  | error e => rw [hv] at h; cases h
  | ok ps =>
    rw [hv] at h
    simp only at h
    split_ifs at h <;> (repeat' split at h) <;> first | cases h; rfl | cases h

theorem newOptionsFromToken_pageSize {Proto F : Type} (env : Env Proto F) (s : String)
    (p : Int) (o : Options F) (h : NewOptionsFromToken env s p = .ok o) :
    validatePageSize p = .ok o.PageSize := by
  unfold NewOptionsFromToken at h
  split_ifs at h
  cases hv : validatePageSize p with
  | error e => rw [hv] at h; cases h
  | ok ps =>
    rw [hv] at h
    simp only at h
    split at h
    · cases h
    · cases h; rfl

/-- C3: the page size of every `Options` that `NewOptions` or `NewOptionsFromToken`
returns without error is between 1 and 200. -/
theorem constructed_pageSize_in_range {Proto F : Type} (env : Env Proto F) (o : Options F)
    (h : (∃ l p s f, NewOptions env l p s f = .ok o) ∨
      (∃ s p, NewOptionsFromToken env s p = .ok o)) :
    1 ≤ o.PageSize ∧ o.PageSize ≤ 200 := by
  rcases h with ⟨l, p, s, f, h⟩ | ⟨s, p, h⟩
  · exact validatePageSize_ok_range p _ (newOptions_pageSize env l p s f o h)
  · exact validatePageSize_ok_range p _ (newOptionsFromToken_pageSize env s p o h)

/-! ## The query contribution -/

/-- The cursor predicate that `AddToSelect` adds for the options `o`, as a list:
empty when a cursor value is absent. -/
theorem addToSelect_no_filter {Proto F : Type} (env : Env Proto F) (o : Options F)
    (b : SelectBuilder) (hf : o.token.Filter = none) :
    (∀ v k, o.token.SortByFieldValue = some v → o.token.KeyFieldValue = some k →
      o.token.IsDesc = false →
      (o.AddToSelect env b).whereParts =
        b.whereParts ++ [.Or [.Gt o.token.SortByFieldName v,
          .And [.Eq o.token.SortByFieldName v, .GtOrEq o.token.KeyFieldName k]]]) ∧
    (∀ v k, o.token.SortByFieldValue = some v → o.token.KeyFieldValue = some k →
      o.token.IsDesc = true →
      (o.AddToSelect env b).whereParts =
        b.whereParts ++ [.Or [.Lt o.token.SortByFieldName v,
          .And [.Eq o.token.SortByFieldName v, .LtOrEq o.token.KeyFieldName k]]]) ∧
    (o.token.SortByFieldValue = none ∨ o.token.KeyFieldValue = none →
      (o.AddToSelect env b).whereParts = b.whereParts) ∧
    (o.AddToSelect env b).orderBys = b.orderBys ++
      [o.token.SortByFieldName ++ " " ++ (if o.token.IsDesc then "DESC" else "ASC"),
       o.token.KeyFieldName ++ " " ++ (if o.token.IsDesc then "DESC" else "ASC")] ∧
    (o.AddToSelect env b).limit = some ((o.PageSize + 1) % 2 ^ 64).toNat := by
  obtain ⟨pageSize, ⟨sf, sv, kf, kv, desc, filt⟩⟩ := o
  simp only at hf
  subst hf
  refine ⟨?_, ?_, ?_, ?_, ?_⟩
  · intro v k h1 h2 h3
    simp only at h1 h2 h3
    subst h1 h2 h3
    simp [Options.AddToSelect, SelectBuilder.Where, SelectBuilder.OrderBy,
      SelectBuilder.Limit]
  · intro v k h1 h2 h3
    simp only at h1 h2 h3
    subst h1 h2 h3
    simp [Options.AddToSelect, SelectBuilder.Where, SelectBuilder.OrderBy,
      SelectBuilder.Limit]
  · intro h
    simp only at h
    rcases h with h | h
    · subst h
      simp [Options.AddToSelect, SelectBuilder.Where, SelectBuilder.OrderBy,
        SelectBuilder.Limit]
    · subst h
      cases sv <;> simp [Options.AddToSelect, SelectBuilder.Where, SelectBuilder.OrderBy,
        SelectBuilder.Limit]
  · cases sv <;> cases kv <;> cases desc <;>
      simp [Options.AddToSelect, SelectBuilder.Where, SelectBuilder.OrderBy,
        SelectBuilder.Limit]
  · cases sv <;> cases kv <;> cases desc <;>
      simp [Options.AddToSelect, SelectBuilder.Where, SelectBuilder.OrderBy,
        SelectBuilder.Limit]

theorem addToSelect_filter {Proto F : Type} (env : Env Proto F) (o : Options F)
    (b : SelectBuilder) (f : F) (hf : o.token.Filter = some f) :
    o.AddToSelect env b = env.filterAddToSelect f
      (Options.AddToSelect env { o with token := { o.token with Filter := none } } b) := by
  obtain ⟨pageSize, ⟨sf, sv, kf, kv, desc, filt⟩⟩ := o
  simp only at hf
  subst hf
  simp [Options.AddToSelect]

/-- C5: with both cursor values present `AddToSelect` adds, after the predicates of
the input builder, exactly the predicate `(sort > v) OR (sort = v AND key >= k)`
when ascending and `(sort < v) OR (sort = v AND key <= k)` when descending; with
one of them absent it adds no cursor predicate. What follows it, `ps`, is what the
filter adds, and is nothing when there is no filter. -/
theorem addToSelect_cursor_predicate {Proto F : Type} (env : Env Proto F)
    (henv : env.FilterOnlyAddsPredicates) (o : Options F) (b : SelectBuilder) :
    ∃ ps : List Sqlizer, (o.token.Filter = none → ps = []) ∧
      (∀ v k, o.token.SortByFieldValue = some v → o.token.KeyFieldValue = some k →
        o.token.IsDesc = false →
        (o.AddToSelect env b).whereParts =
          b.whereParts ++ [.Or [.Gt o.token.SortByFieldName v,
            .And [.Eq o.token.SortByFieldName v, .GtOrEq o.token.KeyFieldName k]]] ++ ps) ∧
      (∀ v k, o.token.SortByFieldValue = some v → o.token.KeyFieldValue = some k →
        o.token.IsDesc = true →
        (o.AddToSelect env b).whereParts =
          b.whereParts ++ [.Or [.Lt o.token.SortByFieldName v,
            .And [.Eq o.token.SortByFieldName v, .LtOrEq o.token.KeyFieldName k]]] ++ ps) ∧
      (o.token.SortByFieldValue = none ∨ o.token.KeyFieldValue = none →
        (o.AddToSelect env b).whereParts = b.whereParts ++ ps) := by
  cases hf : o.token.Filter with
  | none =>
    obtain ⟨h1, h2, h3, -, -⟩ := addToSelect_no_filter env o b hf
    refine ⟨[], fun _ => rfl, ?_, ?_, ?_⟩
    · intro v k hv hk hd
      rw [h1 v k hv hk hd, List.append_nil]
    · intro v k hv hk hd
      rw [h2 v k hv hk hd, List.append_nil]
    · intro h
      rw [h3 h, List.append_nil]
  | some f =>
    obtain ⟨h1, h2, h3, -, -⟩ := addToSelect_no_filter env
      { o with token := { o.token with Filter := none } } b rfl
    obtain ⟨ps, hps⟩ := henv f
      (Options.AddToSelect env { o with token := { o.token with Filter := none } } b)
    rw [addToSelect_filter env o b f hf, hps]
    refine ⟨ps, fun h => Option.noConfusion h, ?_, ?_, ?_⟩
    · intro v k hv hk hd
      rw [← h1 v k hv hk hd]
    · intro v k hv hk hd
      rw [← h2 v k hv hk hd]
    · intro h
      rw [← h3 h]

/-- C6: `AddToSelect` appends exactly two ordering clauses to those of the input
builder, the sort field and then the key field, both `ASC` when `IsDesc` is false
and both `DESC` when it is true, whatever the cursor and the filter. -/
theorem addToSelect_ordering {Proto F : Type} (env : Env Proto F)
    (henv : env.FilterOnlyAddsPredicates) (o : Options F) (b : SelectBuilder) :
    (o.token.IsDesc = false →
      (o.AddToSelect env b).orderBys =
        b.orderBys ++ [o.token.SortByFieldName ++ " ASC", o.token.KeyFieldName ++ " ASC"]) ∧
    (o.token.IsDesc = true →
      (o.AddToSelect env b).orderBys =
        b.orderBys ++ [o.token.SortByFieldName ++ " DESC", o.token.KeyFieldName ++ " DESC"]) := by
  have key : (o.AddToSelect env b).orderBys = b.orderBys ++
      [o.token.SortByFieldName ++ " " ++ (if o.token.IsDesc then "DESC" else "ASC"),
       o.token.KeyFieldName ++ " " ++ (if o.token.IsDesc then "DESC" else "ASC")] := by
    cases hf : o.token.Filter with
    | none => exact (addToSelect_no_filter env o b hf).2.2.2.1
    | some f =>
      obtain ⟨ps, hps⟩ := henv f
        (Options.AddToSelect env { o with token := { o.token with Filter := none } } b)
      rw [addToSelect_filter env o b f hf, hps]
      exact (addToSelect_no_filter env
        { o with token := { o.token with Filter := none } } b rfl).2.2.2.1
  constructor
  · intro hd
    rw [key, hd]
    simp [String.append_assoc]
  · intro hd
    rw [key, hd]
    simp [String.append_assoc]

theorem addToSelect_limit_eq {Proto F : Type} (env : Env Proto F)
    (henv : env.FilterOnlyAddsPredicates) (o : Options F) (b : SelectBuilder) :
    (o.AddToSelect env b).limit = some ((o.PageSize + 1) % 2 ^ 64).toNat := by
  cases hf : o.token.Filter with
  | none => exact (addToSelect_no_filter env o b hf).2.2.2.2
  | some f =>
    obtain ⟨ps, hps⟩ := henv f
      (Options.AddToSelect env { o with token := { o.token with Filter := none } } b)
    rw [addToSelect_filter env o b f hf, hps]
    exact (addToSelect_no_filter env
      { o with token := { o.token with Filter := none } } b rfl).2.2.2.2

theorem length_runQuery {κ : Type} [LinearOrder κ] (key : GoValue → κ)
    (store : List Listable) (b : SelectBuilder) (n : Nat) (h : b.limit = some n) :
    (runQuery key store b).length = min n (matchingRows key store b).length := by
  unfold runQuery
  rw [h]
  simp [List.length_take, List.length_insertionSort]

/-- C7: for a page size `P` between 1 and 200, `AddToSelect` sets the row limit to
`P + 1` with no wrap-around, so the query returns `P + 1` rows when more than `P`
rows of the store match and all `N` matching rows when `N ≤ P`. -/
theorem addToSelect_limit {Proto F κ : Type} [LinearOrder κ] (env : Env Proto F)
    (henv : env.FilterOnlyAddsPredicates) (o : Options F) (b : SelectBuilder)
    (key : GoValue → κ) (store : List Listable)
    (h1 : 1 ≤ o.PageSize) (h2 : o.PageSize ≤ 200) :
    (o.AddToSelect env b).limit = some (o.PageSize.toNat + 1) ∧
    (o.PageSize.toNat < (matchingRows key store (o.AddToSelect env b)).length →
      (runQuery key store (o.AddToSelect env b)).length = o.PageSize.toNat + 1) ∧
    ((matchingRows key store (o.AddToSelect env b)).length ≤ o.PageSize.toNat →
      (runQuery key store (o.AddToSelect env b)).length =
        (matchingRows key store (o.AddToSelect env b)).length) := by
  have hl : (o.AddToSelect env b).limit = some (o.PageSize.toNat + 1) := by
    rw [addToSelect_limit_eq env henv o b]
    congr 1
    omega
  refine ⟨hl, ?_, ?_⟩
  · intro h
    rw [length_runQuery key store _ _ hl]
    omega
  · intro h
    rw [length_runQuery key store _ _ hl]
    omega

/-! ## Options from a page token -/

/-- C8: for a non-empty page token `s` that `unmarshal` decodes to `t` and a page
size `p ≥ 0`, `NewOptionsFromToken s p` succeeds with the page size
`validatePageSize p` and with the token `t` itself: field names, values, direction
and filter are those of `t`, and nothing else enters the result. -/
theorem newOptionsFromToken_of_unmarshal {Proto F : Type} (env : Env Proto F) (s : String)
    (p : Int) (t : token F) (hs : s ≠ "") (hp : 0 ≤ p)
    (ht : token.unmarshal env {} s = .ok t) :
    ∃ ps, validatePageSize p = .ok ps ∧
      NewOptionsFromToken env s p = .ok { PageSize := ps, token := t } := by
  have hv : ∃ ps, validatePageSize p = .ok ps := by
    unfold validatePageSize
    rw [if_neg (by omega)]
    split_ifs <;> exact ⟨_, rfl⟩
  obtain ⟨ps, hps⟩ := hv
  refine ⟨ps, hps, ?_⟩
  unfold NewOptionsFromToken
  rw [if_neg hs, hps]
  simp only
  rw [ht]

/-- C9 as the code has it: `NewOptionsFromToken` with the empty page token fails for
every page size, and the error is the plain error of `fmt.Errorf`, which carries no
classification. -/
theorem newOptionsFromToken_empty {Proto F : Type} (env : Env Proto F) (p : Int) :
    ∃ e, NewOptionsFromToken env "" p = (.error e : Except Error (Options F)) ∧
      e.cls = ErrorClass.Unclassified := by
  refine ⟨Errorf "cannot create list.Options from empty page token", ?_, rfl⟩
  unfold NewOptionsFromToken
  rw [if_pos rfl]

/-- C9 fails as stated: the error for the empty page token is not classified
`InvalidInput`. -/
theorem newOptionsFromToken_empty_not_invalidInput :
    ¬ ∀ p : Int, ∃ e, NewOptionsFromToken sampleEnv "" p = .error e ∧
      e.cls = ErrorClass.InvalidInput := by
  intro h
  obtain ⟨e, he, hc⟩ := h 10
  revert hc
  have : NewOptionsFromToken sampleEnv "" 10 =
      .error (Errorf "cannot create list.Options from empty page token") := by decide
  rw [this] at he
  cases he
  decide

/-- C10: `unmarshal` fails exactly when the page token is not valid base64 or the
decoded bytes do not deserialize into the token, and every error it returns is
classified `InvalidInput` and wraps the underlying error. -/
theorem unmarshal_error_iff {Proto F : Type} (env : Env Proto F) (t : token F) (s : String) :
    ((∃ e, token.unmarshal env t s = .error e) ↔
      (base64Decode s.data = none ∨
        ∃ b, base64Decode s.data = some b ∧ jsonUnmarshal env b t = none)) ∧
    (∀ e, token.unmarshal env t s = .error e →
      e.cls = ErrorClass.InvalidInput ∧ e.cause.isSome = true) := by
  unfold token.unmarshal
  cases hb : base64Decode s.data with
  | none =>
    simp only [true_or, iff_true]
    refine ⟨⟨_, rfl⟩, ?_⟩
    intro e he
    cases he
    exact ⟨rfl, rfl⟩
  | some b =>
    simp only
    cases hj : jsonUnmarshal env b t with
    | none =>
      simp only
      refine ⟨⟨fun _ => Or.inr ⟨b, rfl, hj⟩, fun _ => ⟨_, rfl⟩⟩, ?_⟩
      intro e he
      cases he
      exact ⟨rfl, rfl⟩
    | some t2 =>
      simp only
      refine ⟨⟨?_, ?_⟩, ?_⟩
      · rintro ⟨e, he⟩
        cases he
      · rintro (h | ⟨b2, h1, h2⟩)
        · cases h
        · cases h1
          rw [hj] at h2
          cases h2
      · intro e he
        cases he

/-! ## Listing a store page by page -/

theorem parseOrderBy_asc (name : String) :
    parseOrderBy (name ++ " " ++ "ASC") = (name, false) := by
  unfold parseOrderBy
  simp [String.data_append, List.reverse_append, List.dropWhile, List.takeWhile]

theorem parseOrderBy_desc (name : String) :
    parseOrderBy (name ++ " " ++ "DESC") = (name, true) := by
  unfold parseOrderBy
  simp [String.data_append, List.reverse_append, List.dropWhile, List.takeWhile]

theorem rowLe_total {κ : Type} [LinearOrder κ] (key : GoValue → κ)
    (cl : List (String × Bool)) (a b : Listable) :
    rowLe key cl a b = true ∨ rowLe key cl b a = true := by
  induction cl with
  | nil => exact Or.inl rfl
  | cons c cl ih =>
    obtain ⟨column, desc⟩ := c
    unfold rowLe
    by_cases h : columnKey key a column = columnKey key b column
    · rw [if_pos h, if_pos h.symm]
      exact ih
    · rw [if_neg h, if_neg (Ne.symm h)]
      rcases lt_or_gt_of_ne h with h2 | h2 <;> cases desc <;> simp [h2]

theorem rowLe_trans {κ : Type} [LinearOrder κ] (key : GoValue → κ)
    (cl : List (String × Bool)) (a b c : Listable)
    (h1 : rowLe key cl a b = true) (h2 : rowLe key cl b c = true) :
    rowLe key cl a c = true := by
  induction cl with
  | nil => rfl
  | cons cc cl ih =>
    obtain ⟨column, desc⟩ := cc
    unfold rowLe at h1 h2 ⊢
    by_cases hab : columnKey key a column = columnKey key b column
    · rw [if_pos hab] at h1
      rw [hab]
      by_cases hbc : columnKey key b column = columnKey key c column
      · rw [if_pos hbc] at h2 ⊢
        exact ih h1 h2
      · rw [if_neg hbc] at h2 ⊢
        exact h2
    · rw [if_neg hab] at h1
      by_cases hbc : columnKey key b column = columnKey key c column
      · rw [if_pos hbc] at h2
        rw [← hbc, if_neg hab]
        exact h1
      · rw [if_neg hbc] at h2
        cases desc
        · simp only [Bool.false_eq_true, if_false, decide_eq_true_eq] at h1 h2 ⊢
          have h3 := lt_trans h1 h2
          rw [if_neg (ne_of_lt h3)]
          exact decide_eq_true h3
        · simp only [if_true, decide_eq_true_eq] at h1 h2 ⊢
          have h3 := lt_trans h2 h1
          rw [if_neg (ne_of_gt h3)]
          exact decide_eq_true h3

theorem rowBefore_asymm {κ : Type} [LinearOrder κ] (key : GoValue → κ) (sf kf : String)
    (d : Bool) (a b : Listable) (h1 : rowBefore key sf kf d a b)
    (h2 : rowBefore key sf kf d b a) : False := by
  unfold rowBefore at h1 h2
  cases d
  · simp only [Bool.false_eq_true, if_false] at h1 h2
    rcases h1 with h1 | ⟨e1, h1⟩ <;> rcases h2 with h2 | ⟨e2, h2⟩
    · exact lt_asymm h1 h2
    · rw [e2] at h1; exact lt_irrefl _ h1
    · rw [e1] at h2; exact lt_irrefl _ h2
    · exact lt_asymm h1 h2
  · simp only [if_true] at h1 h2
    rcases h1 with h1 | ⟨e1, h1⟩ <;> rcases h2 with h2 | ⟨e2, h2⟩
    · exact lt_asymm h1 h2
    · rw [e2] at h1; exact lt_irrefl _ h1
    · rw [e1] at h2; exact lt_irrefl _ h2
    · exact lt_asymm h1 h2

theorem rowBefore_of_rowLe {κ : Type} [LinearOrder κ] (key : GoValue → κ) (sf kf : String)
    (d : Bool) (a b : Listable) (h : rowLe key [(sf, d), (kf, d)] a b = true)
    (hne : columnKey key a kf ≠ columnKey key b kf) : rowBefore key sf kf d a b := by
  unfold rowBefore
  simp only [rowLe] at h
  by_cases hs : columnKey key a sf = columnKey key b sf
  · rw [if_pos hs, if_neg hne] at h
    cases d
    · simp only [Bool.false_eq_true, if_false, decide_eq_true_eq] at h ⊢
      exact Or.inr ⟨hs, h⟩
    · simp only [if_true, decide_eq_true_eq] at h ⊢
      exact Or.inr ⟨hs, h⟩
  · rw [if_neg hs] at h
    cases d
    · simp only [Bool.false_eq_true, if_false, decide_eq_true_eq] at h ⊢
      exact Or.inl h
    · simp only [if_true, decide_eq_true_eq] at h ⊢
      exact Or.inl h

/-- The store in the order of the clauses: sorted, and strictly so when the keys
are pairwise distinct. -/
theorem sorted_store {κ : Type} [LinearOrder κ] (key : GoValue → κ) (sf kf : String)
    (d : Bool) (store : List Listable)
    (hdist : store.Pairwise (fun r r2 => columnKey key r kf ≠ columnKey key r2 kf)) :
    (store.insertionSort (fun r r2 => rowLe key [(sf, d), (kf, d)] r r2 = true)).Pairwise
      (rowBefore key sf kf d) := by
  haveI : IsTotal Listable (fun r r2 => rowLe key [(sf, d), (kf, d)] r r2 = true) :=
    ⟨rowLe_total key _⟩
  haveI : IsTrans Listable (fun r r2 => rowLe key [(sf, d), (kf, d)] r r2 = true) :=
    ⟨rowLe_trans key _⟩
  have h1 := List.sorted_insertionSort
    (fun r r2 => rowLe key [(sf, d), (kf, d)] r r2 = true) store
  have h2 : (store.insertionSort
      (fun r r2 => rowLe key [(sf, d), (kf, d)] r r2 = true)).Pairwise
      (fun r r2 => columnKey key r kf ≠ columnKey key r2 kf) :=
    (List.Perm.pairwise_iff (fun h => Ne.symm h) (List.perm_insertionSort _ store)).2 hdist
  exact (List.Pairwise.and h1 h2).imp (fun h => rowBefore_of_rowLe key sf kf d _ _ h.1 h.2)

/-- Sorting the rows that satisfy a condition gives the sorted store, filtered. -/
theorem sort_filter {κ : Type} [LinearOrder κ] (key : GoValue → κ) (sf kf : String)
    (d : Bool) (store : List Listable) (p : Listable → Bool)
    (hdist : store.Pairwise (fun r r2 => columnKey key r kf ≠ columnKey key r2 kf)) :
    (store.filter p).insertionSort (fun r r2 => rowLe key [(sf, d), (kf, d)] r r2 = true) =
      (store.insertionSort (fun r r2 => rowLe key [(sf, d), (kf, d)] r r2 = true)).filter p := by
  haveI : IsAntisymm Listable (rowBefore key sf kf d) :=
    ⟨fun a b h1 h2 => (rowBefore_asymm key sf kf d a b h1 h2).elim⟩
  apply List.eq_of_perm_of_sorted (r := rowBefore key sf kf d)
  · exact (List.perm_insertionSort _ _).trans
      ((List.perm_insertionSort _ store).filter p).symm
  · exact sorted_store key sf kf d _ (hdist.filter p)
  · exact (sorted_store key sf kf d store hdist).filter p


theorem columnKey_of_field {κ : Type} (key : GoValue → κ) (x : Listable) (col : String)
    (v : GoValue) (h : x.FieldValue col = some v) :
    columnKey key x col = ((key v : κ) : WithBot κ) := by
  unfold columnKey
  rw [h]
  rfl

/-- The cursor predicate rejects the rows before the cursor row and accepts the
cursor row and the rows after it. -/
theorem eval_cursor {κ : Type} [LinearOrder κ] (key : GoValue → κ) (sf kf : String)
    (d : Bool) (x c : Listable) (xs xk sv kv : GoValue)
    (hxs : x.FieldValue sf = some xs) (hxk : x.FieldValue kf = some xk)
    (hcs : c.FieldValue sf = some sv) (hck : c.FieldValue kf = some kv) :
    (rowBefore key sf kf d x c →
      Sqlizer.eval.evalAll key x
        [if d then .Or [.Lt sf sv, .And [.Eq sf sv, .LtOrEq kf kv]]
         else .Or [.Gt sf sv, .And [.Eq sf sv, .GtOrEq kf kv]]] = false) ∧
    (rowBefore key sf kf d c x ∨ x = c →
      Sqlizer.eval.evalAll key x
        [if d then .Or [.Lt sf sv, .And [.Eq sf sv, .LtOrEq kf kv]]
         else .Or [.Gt sf sv, .And [.Eq sf sv, .GtOrEq kf kv]]] = true) := by
  unfold rowBefore
  rw [columnKey_of_field key x sf xs hxs, columnKey_of_field key x kf xk hxk,
    columnKey_of_field key c sf sv hcs, columnKey_of_field key c kf kv hck]
  simp only [WithBot.coe_lt_coe, WithBot.coe_inj]
  cases d
  · simp only [Bool.false_eq_true, if_false, Sqlizer.eval.evalAll, Sqlizer.eval,
      Sqlizer.eval.evalAny, hxs, hxk, Bool.and_true, Bool.or_false]
    constructor
    · rintro (h | ⟨h1, h2⟩)
      · simp [not_lt_of_gt h, ne_of_lt h]
      · simp [h1, not_le_of_gt h2]
    · rintro ((h | ⟨h1, h2⟩) | h)
      · simp [h]
      · simp [h1, le_of_lt h2]
      · subst h
        rw [hxs] at hcs
        rw [hxk] at hck
        cases hcs
        cases hck
        simp
  · simp only [if_true, Sqlizer.eval.evalAll, Sqlizer.eval,
      Sqlizer.eval.evalAny, hxs, hxk, Bool.and_true, Bool.or_false]
    constructor
    · rintro (h | ⟨h1, h2⟩)
      · simp [not_lt_of_gt h, ne_of_gt h]
      · simp [h1, not_le_of_gt h2]
    · rintro ((h | ⟨h1, h2⟩) | h)
      · simp [h]
      · simp [h1, le_of_lt h2]
      · subst h
        rw [hxs] at hcs
        rw [hxk] at hck
        cases hcs
        cases hck
        simp

/-- The ORDER BY clauses of the query of `AddToSelect` on the empty builder. -/
theorem orderBys_clauses {Proto F : Type} (env : Env Proto F) (o : Options F)
    (hf : o.token.Filter = none) :
    (o.AddToSelect env {}).orderBys.map parseOrderBy =
      [(o.token.SortByFieldName, o.token.IsDesc), (o.token.KeyFieldName, o.token.IsDesc)] := by
  rw [(addToSelect_no_filter env o {} hf).2.2.2.1]
  cases o.token.IsDesc
  · simp [parseOrderBy_asc]
  · simp [parseOrderBy_desc]

/-- The first query returns the head of the sorted store. -/
theorem runQuery_first {Proto F κ : Type} [LinearOrder κ] (env : Env Proto F)
    (key : GoValue → κ) (store : List Listable) (o : Options F)
    (hf : o.token.Filter = none) (hv : o.token.SortByFieldValue = none)
    (h1 : 1 ≤ o.PageSize) (h2 : o.PageSize ≤ 200) :
    runQuery key store (o.AddToSelect env {}) =
      (store.insertionSort (fun r r2 => rowLe key
        [(o.token.SortByFieldName, o.token.IsDesc), (o.token.KeyFieldName, o.token.IsDesc)]
        r r2 = true)).take (o.PageSize.toNat + 1) := by
  unfold runQuery matchingRows
  rw [orderBys_clauses env o hf, (addToSelect_no_filter env o {} hf).2.2.2.2,
    (addToSelect_no_filter env o {} hf).2.2.1 (Or.inl hv)]
  have : ((o.PageSize + 1) % 2 ^ 64).toNat = o.PageSize.toNat + 1 := by omega
  simp only [this]
  simp [Sqlizer.eval.evalAll]

/-- A query with the cursor on a row of the sorted store returns the rows from
that row on. -/
theorem runQuery_cursor {Proto F κ : Type} [LinearOrder κ] (env : Env Proto F)
    (key : GoValue → κ) (store : List Listable) (o : Options F) (c : Listable)
    (pre rest : List Listable) (sv kv : GoValue)
    (hf : o.token.Filter = none) (h1 : 1 ≤ o.PageSize) (h2 : o.PageSize ≤ 200)
    (hdist : store.Pairwise (fun r r2 =>
      columnKey key r o.token.KeyFieldName ≠ columnKey key r2 o.token.KeyFieldName))
    (hfields : ∀ r ∈ store, (∃ v, r.FieldValue o.token.SortByFieldName = some v) ∧
      (∃ v, r.FieldValue o.token.KeyFieldName = some v))
    (hL : store.insertionSort (fun r r2 => rowLe key
        [(o.token.SortByFieldName, o.token.IsDesc), (o.token.KeyFieldName, o.token.IsDesc)]
        r r2 = true) = pre ++ c :: rest)
    (hcs : c.FieldValue o.token.SortByFieldName = some sv)
    (hck : c.FieldValue o.token.KeyFieldName = some kv)
    (hsv : o.token.SortByFieldValue = some sv) (hkv : o.token.KeyFieldValue = some kv) :
    runQuery key store (o.AddToSelect env {}) = (c :: rest).take (o.PageSize.toNat + 1) := by
  have hw : (o.AddToSelect env {}).whereParts =
      [if o.token.IsDesc then .Or [.Lt o.token.SortByFieldName sv,
          .And [.Eq o.token.SortByFieldName sv, .LtOrEq o.token.KeyFieldName kv]]
        else .Or [.Gt o.token.SortByFieldName sv,
          .And [.Eq o.token.SortByFieldName sv, .GtOrEq o.token.KeyFieldName kv]]] := by
    cases hd : o.token.IsDesc
    · rw [(addToSelect_no_filter env o {} hf).1 sv kv hsv hkv hd]
      simp
    · rw [(addToSelect_no_filter env o {} hf).2.1 sv kv hsv hkv hd]
      simp
  have hsorted := sorted_store key o.token.SortByFieldName o.token.KeyFieldName
    o.token.IsDesc store hdist
  rw [hL] at hsorted
  have hmem : ∀ x ∈ pre ++ c :: rest, x ∈ store := by
    intro x hx
    rw [← hL] at hx
    exact (List.mem_insertionSort _).1 hx
  obtain ⟨hpre, hrest, hcross⟩ := List.pairwise_append.1 hsorted
  have hc_rest := (List.pairwise_cons.1 hrest).1
  unfold runQuery matchingRows
  rw [orderBys_clauses env o hf, (addToSelect_no_filter env o {} hf).2.2.2.2, hw,
    sort_filter key _ _ _ store _ hdist, hL]
  have : ((o.PageSize + 1) % 2 ^ 64).toNat = o.PageSize.toNat + 1 := by omega
  simp only [this]
  congr 1
  rw [List.filter_append]
  have e1 : List.filter (fun r => Sqlizer.eval.evalAll key r
      [if o.token.IsDesc then .Or [.Lt o.token.SortByFieldName sv,
          .And [.Eq o.token.SortByFieldName sv, .LtOrEq o.token.KeyFieldName kv]]
        else .Or [.Gt o.token.SortByFieldName sv,
          .And [.Eq o.token.SortByFieldName sv, .GtOrEq o.token.KeyFieldName kv]]]) pre
      = [] := by
    rw [List.filter_eq_nil_iff]
    intro x hx
    obtain ⟨⟨xs, hxs⟩, ⟨xk, hxk⟩⟩ := hfields x (hmem x (List.mem_append_left _ hx))
    rw [(eval_cursor key _ _ _ x c xs xk sv kv hxs hxk hcs hck).1
      (hcross x hx c (List.mem_cons_self _ _))]
    simp
  have e2 : List.filter (fun r => Sqlizer.eval.evalAll key r
      [if o.token.IsDesc then .Or [.Lt o.token.SortByFieldName sv,
          .And [.Eq o.token.SortByFieldName sv, .LtOrEq o.token.KeyFieldName kv]]
        else .Or [.Gt o.token.SortByFieldName sv,
          .And [.Eq o.token.SortByFieldName sv, .GtOrEq o.token.KeyFieldName kv]]])
      (c :: rest) = c :: rest := by
    rw [List.filter_eq_self]
    intro x hx
    obtain ⟨⟨xs, hxs⟩, ⟨xk, hxk⟩⟩ := hfields x (hmem x (List.mem_append_right _ hx))
    apply (eval_cursor key _ _ _ x c xs xk sv kv hxs hxk hcs hck).2
    rcases List.mem_cons.1 hx with h | h
    · exact Or.inr h
    · exact Or.inl (hc_rest x h)
  rw [e1, e2, List.nil_append]

/-! ## Reading a record through `reflect` -/

/-- A value is read off a record exactly when the record is a pointer to a struct
and the field of that name is exported. -/
theorem fieldValue_eq_some (r : Listable) (n : String) (v : GoValue) :
    r.FieldValue n = some v ↔
      r.isStructPointer = true ∧ r.FieldByName n = some (.exported v) := by
  unfold Listable.FieldValue
  cases r.isStructPointer
  · simp
  · rcases r.FieldByName n with _ | (w | _) <;> simp [Field.Interface]

/-- What a successful call of `nextPageToken` returns. -/
theorem nextPageToken_ok {F : Type} (o : Options F) (r : Listable) (t : token F)
    (h : o.nextPageToken r = .ok t) :
    ∃ sv kv, r.FieldValue o.token.SortByFieldName = some sv ∧
      r.FieldValue r.PrimaryKeyColumnName = some kv ∧
      t = { SortByFieldName := o.token.SortByFieldName
            SortByFieldValue := some sv
            KeyFieldName := r.PrimaryKeyColumnName
            KeyFieldValue := some kv
            IsDesc := o.token.IsDesc
            Filter := none } := by
  unfold Options.nextPageToken at h
  cases hp : r.isStructPointer
  · rw [hp] at h
    cases h
  · rw [hp] at h
    simp only [if_true] at h
    rcases hs : r.FieldByName o.token.SortByFieldName with _ | (sv | _)
    · rw [hs] at h
      cases h
    · rw [hs] at h
      simp only at h
      rcases hk : r.FieldByName r.PrimaryKeyColumnName with _ | (kv | _)
      · rw [hk] at h
        cases h
      · rw [hk] at h
        simp only [Field.Interface] at h
        cases h
        exact ⟨sv, kv, (fieldValue_eq_some r _ sv).2 ⟨hp, hs⟩,
          (fieldValue_eq_some r _ kv).2 ⟨hp, hk⟩, rfl⟩
      · rw [hk] at h
        simp only [Field.Interface] at h
        cases h
    · rw [hs] at h
      simp only at h
      rcases hk : r.FieldByName r.PrimaryKeyColumnName with _ | (kv | _)
      · rw [hk] at h
        cases h
      · rw [hk] at h
        simp only [Field.Interface] at h
        cases h
      · rw [hk] at h
        simp only [Field.Interface] at h
        cases h

/-- With both fields on the record, exported, `nextPageToken` succeeds. -/
theorem nextPageToken_of_fields {F : Type} (o : Options F) (r : Listable) (sv kv : GoValue)
    (hs : r.FieldValue o.token.SortByFieldName = some sv)
    (hk : r.FieldValue r.PrimaryKeyColumnName = some kv) :
    o.nextPageToken r = .ok
      { SortByFieldName := o.token.SortByFieldName
        SortByFieldValue := some sv
        KeyFieldName := r.PrimaryKeyColumnName
        KeyFieldValue := some kv
        IsDesc := o.token.IsDesc
        Filter := none } := by
  obtain ⟨hp, hs2⟩ := (fieldValue_eq_some r _ sv).1 hs
  obtain ⟨_, hk2⟩ := (fieldValue_eq_some r _ kv).1 hk
  unfold Options.nextPageToken
  rw [hp, hs2]
  simp only [if_true]
  rw [hk2]
  rfl

/-- The two causes of an error of `nextPageToken`, and the error of each. -/
theorem nextPageToken_error {F : Type} (o : Options F) (r : Listable) (e : Error)
    (h : o.nextPageToken r = .error e) :
    r.isStructPointer = true ∧
    ((r.FieldByName o.token.SortByFieldName = none ∧
        e = Errorf "cannot sort by field %q on type %q") ∨
      (r.FieldByName r.PrimaryKeyColumnName = none ∧
        e = Errorf "type %q does not have key field %q")) := by
  unfold Options.nextPageToken at h
  cases hp : r.isStructPointer
  · rw [hp] at h
    cases h
  · rw [hp] at h
    simp only [if_true] at h
    refine ⟨rfl, ?_⟩
    rcases hs : r.FieldByName o.token.SortByFieldName with _ | fs
    · rw [hs] at h
      cases h
      exact Or.inl ⟨rfl, rfl⟩
    · rw [hs] at h
      simp only at h
      rcases hk : r.FieldByName r.PrimaryKeyColumnName with _ | fk
      · rw [hk] at h
        cases h
        exact Or.inr ⟨rfl, rfl⟩
      · rw [hk] at h
        simp only at h
        cases fs <;> cases fk <;> simp only [Field.Interface] at h <;> cases h

/-- A missing field makes `nextPageToken` return an error. -/
theorem nextPageToken_of_missing {F : Type} (o : Options F) (r : Listable)
    (hp : r.isStructPointer = true)
    (h : r.FieldByName o.token.SortByFieldName = none ∨
      r.FieldByName r.PrimaryKeyColumnName = none) :
    ∃ e, o.nextPageToken r = .error e := by
  unfold Options.nextPageToken
  rw [hp]
  simp only [if_true]
  rcases hs : r.FieldByName o.token.SortByFieldName with _ | fs
  · exact ⟨_, rfl⟩
  · simp only
    rcases hk : r.FieldByName r.PrimaryKeyColumnName with _ | fk
    · exact ⟨_, rfl⟩
    · rcases h with h | h
      · rw [hs] at h
        cases h
      · rw [hk] at h
        cases h

/-- When `nextPageToken` panics: on a record that is no pointer to a struct, and
on an unexported field. -/
theorem nextPageToken_panic_iff {F : Type} (o : Options F) (r : Listable) :
    o.nextPageToken r = .panic ↔
      r.isStructPointer = false ∨
      ∃ fs fk, r.FieldByName o.token.SortByFieldName = some fs ∧
        r.FieldByName r.PrimaryKeyColumnName = some fk ∧
        (fs = .unexported ∨ fk = .unexported) := by
  unfold Options.nextPageToken
  cases hp : r.isStructPointer
  · simp
  · simp only [if_true, Bool.true_eq_false, false_or]
    rcases hs : r.FieldByName o.token.SortByFieldName with _ | fs
    · simp
    · simp only
      rcases hk : r.FieldByName r.PrimaryKeyColumnName with _ | fk
      · simp
      · cases fs <;> cases fk <;> simp [Field.Interface]

/-- Listing from options whose query returns the head of a suffix `S` of the sorted
store shows exactly `S`, given fuel for more queries than `S` has rows. -/
theorem listPages_suffix {Proto F κ : Type} [LinearOrder κ] (env : Env Proto F)
    (key : GoValue → κ) (store : List Listable) (sf kf : String) (d : Bool) (P : Int)
    (h1 : 1 ≤ P) (h2 : P ≤ 200)
    (hdist : store.Pairwise (fun r r2 => columnKey key r kf ≠ columnKey key r2 kf))
    (hfields : ∀ r ∈ store, (∃ v, r.FieldValue sf = some v) ∧
      (∃ v, r.FieldValue kf = some v) ∧ r.PrimaryKeyColumnName = kf) :
    ∀ (fuel : Nat) (S pre : List Listable) (o : Options F),
      S.length < fuel → o.PageSize = P → o.token.SortByFieldName = sf →
      o.token.KeyFieldName = kf → o.token.IsDesc = d → o.token.Filter = none →
      store.insertionSort (fun r r2 => rowLe key [(sf, d), (kf, d)] r r2 = true) = pre ++ S →
      runQuery key store (o.AddToSelect env {}) = S.take (P.toNat + 1) →
      ∃ pages, listPages env key store fuel o = some pages ∧ pages.flatten = S := by
  intro fuel
  induction fuel with
  | zero => intro S pre o hlt; omega
  | succ fuel ih =>
    intro S pre o hlt hP hsf hkf hd hf hL hq
    unfold listPages
    simp only [hq, hP]
    by_cases hlen : (S.take (P.toNat + 1)).length = P.toNat + 1
    · rw [if_pos hlen]
      have hn : P.toNat < S.length := by
        rw [List.length_take] at hlen
        omega
      have hget : (S.take (P.toNat + 1))[P.toNat]? = some S[P.toNat] := by
        rw [List.getElem?_take, if_pos (by omega), List.getElem?_eq_getElem hn]
      have hmemS : S[P.toNat] ∈ store := by
        have : S[P.toNat] ∈ pre ++ S :=
          List.mem_append_right _ (List.getElem_mem _)
        rw [← hL] at this
        exact (List.mem_insertionSort _).1 this
      obtain ⟨⟨sv, hsv⟩, ⟨kv, hkv⟩, hpk⟩ := hfields _ hmemS
      have hnext : o.nextPageToken S[P.toNat] = .ok
          { SortByFieldName := sf, SortByFieldValue := some sv, KeyFieldName := kf,
            KeyFieldValue := some kv, IsDesc := d } := by
        have hv := nextPageToken_of_fields o S[P.toNat] sv kv (by rw [hsf]; exact hsv)
          (by rw [hpk]; exact hkv)
        rw [hsf, hpk, hd] at hv
        exact hv
      simp only [hget, hnext]
      have hsplit : S.drop P.toNat = S[P.toNat] :: S.drop (P.toNat + 1) :=
        List.drop_eq_getElem_cons hn
      have hL2 : store.insertionSort (fun r r2 => rowLe key [(sf, d), (kf, d)] r r2 = true)
          = (pre ++ S.take P.toNat) ++ S[P.toNat] :: S.drop (P.toNat + 1) := by
        rw [hL, List.append_assoc, ← hsplit, List.take_append_drop]
      have hq2 := runQuery_cursor env key store
        (Options.mk P (token.mk sf (some sv) kf (some kv) d none))
        S[P.toNat] (pre ++ S.take P.toNat) (S.drop (P.toNat + 1)) sv kv rfl h1 h2 hdist
        (fun r hr => ⟨(hfields r hr).1, (hfields r hr).2.1⟩) hL2 hsv hkv rfl rfl
      obtain ⟨pages, hpages, hflat⟩ := ih (S[P.toNat] :: S.drop (P.toNat + 1))
        (pre ++ S.take P.toNat) _ (by
          rw [← hsplit, List.length_drop]
          have : 1 ≤ P.toNat := by omega
          omega) rfl rfl rfl rfl rfl hL2 hq2
      refine ⟨_, by rw [hpages], ?_⟩
      rw [List.flatten_cons, hflat, List.take_take, ← hsplit]
      have : min P.toNat (P.toNat + 1) = P.toNat := by omega
      rw [this, List.take_append_drop]
    · rw [if_neg hlen]
      refine ⟨_, rfl, ?_⟩
      have hn : S.length ≤ P.toNat + 1 := by
        rw [List.length_take] at hlen
        omega
      simp [List.take_of_length_le hn]

/-- C2: for a store whose records have the sort field and the key field, with
pairwise distinct keys, a page size between 1 and 200 and either direction, listing
from first-page options (no cursor, no filter) returns, given fuel for more queries
than the store has rows, pages whose concatenation is a permutation of the store in
strictly increasing order of (sort value, key value) for that direction: no record
is shown twice and none is left out. -/
theorem listPages_whole_store {Proto F κ : Type} [LinearOrder κ] (env : Env Proto F)
    (key : GoValue → κ) (store : List Listable) (o : Options F) (fuel : Nat)
    (hfuel : store.length < fuel)
    (h1 : 1 ≤ o.PageSize) (h2 : o.PageSize ≤ 200)
    (hf : o.token.Filter = none)
    (hv : o.token.SortByFieldValue = none ∧ o.token.KeyFieldValue = none)
    (hdist : store.Pairwise (fun r r2 =>
      columnKey key r o.token.KeyFieldName ≠ columnKey key r2 o.token.KeyFieldName))
    (hfields : ∀ r ∈ store, (r.FieldValue o.token.SortByFieldName).isSome = true ∧
      (r.FieldValue o.token.KeyFieldName).isSome = true ∧
      r.PrimaryKeyColumnName = o.token.KeyFieldName) :
    ∃ pages, listPages env key store fuel o = some pages ∧
      pages.flatten.Perm store ∧
      pages.flatten.Pairwise
        (rowBefore key o.token.SortByFieldName o.token.KeyFieldName o.token.IsDesc) := by
  have hfields2 : ∀ r ∈ store, (∃ v, r.FieldValue o.token.SortByFieldName = some v) ∧
      (∃ v, r.FieldValue o.token.KeyFieldName = some v) ∧
      r.PrimaryKeyColumnName = o.token.KeyFieldName := by
    intro r hr
    obtain ⟨a, b, c⟩ := hfields r hr
    exact ⟨Option.isSome_iff_exists.1 a, Option.isSome_iff_exists.1 b, c⟩
  obtain ⟨pages, hpages, hflat⟩ := listPages_suffix env key store o.token.SortByFieldName
    o.token.KeyFieldName o.token.IsDesc o.PageSize h1 h2 hdist hfields2 fuel
    (store.insertionSort (fun r r2 => rowLe key
      [(o.token.SortByFieldName, o.token.IsDesc), (o.token.KeyFieldName, o.token.IsDesc)]
      r r2 = true)) [] o (by rw [List.length_insertionSort]; exact hfuel) rfl rfl rfl rfl hf
    rfl (runQuery_first env key store o hf hv.1 h1 h2)
  refine ⟨pages, hpages, ?_, ?_⟩
  · rw [hflat]
    exact List.perm_insertionSort _ store
  · rw [hflat]
    exact sorted_store key _ _ _ store hdist

/-! ## Base64 and UTF-8 round trips -/

theorem decodeSextet_encodeSextet (n : Nat) (h : n < 64) :
    decodeSextet (encodeSextet n) = some n := by
  interval_cases n <;> rfl

theorem base64DecodeAux_quantum (s0 s1 s2 s3 : Nat) (h0 : s0 < 64) (h1 : s1 < 64)
    (h2 : s2 < 64) (h3 : s3 < 64) (rest : List Char) :
    base64DecodeAux []
      (encodeSextet s0 :: encodeSextet s1 :: encodeSextet s2 :: encodeSextet s3 :: rest) =
    (base64DecodeAux [] rest).map (fun out =>
      (s0 * 4 + s1 / 16) :: (s1 % 16 * 16 + s2 / 4) :: (s2 % 4 * 64 + s3) :: out) := by
  simp only [base64DecodeAux, decodeSextet_encodeSextet _ h0, decodeSextet_encodeSextet _ h1,
    decodeSextet_encodeSextet _ h2, decodeSextet_encodeSextet _ h3, List.nil_append,
    List.singleton_append, List.cons_append]
  cases base64DecodeAux [] rest <;> rfl

/-- Decoding the base64 form of a byte sequence gives the sequence back. -/
theorem base64Decode_encode : ∀ (bs : List Nat), (∀ b ∈ bs, b < 256) →
    base64Decode (base64Encode bs) = some bs
  | [], _ => rfl
  | [a], h => by
    have ha : a < 256 := h a (by simp)
    unfold base64Decode base64Encode
    simp only [base64DecodeAux, decodeSextet_encodeSextet (a / 4) (by omega),
      decodeSextet_encodeSextet (a % 4 * 16) (by omega), List.nil_append,
      List.singleton_append]
    have e : decodeSextet '=' = none := by decide
    have e2 : isNewline '=' = false := by decide
    simp only [e, e2, skipNewlines]
    simp
    exact ⟨rfl, by omega⟩
  | [a, b], h => by
    have ha : a < 256 := h a (by simp)
    have hb : b < 256 := h b (by simp)
    unfold base64Decode base64Encode
    simp only [base64DecodeAux, decodeSextet_encodeSextet (a / 4) (by omega),
      decodeSextet_encodeSextet (a % 4 * 16 + b / 16) (by omega),
      decodeSextet_encodeSextet (b % 16 * 4) (by omega), List.nil_append,
      List.singleton_append, List.cons_append]
    have e : decodeSextet '=' = none := by decide
    have e2 : isNewline '=' = false := by decide
    simp only [e, e2, skipNewlines]
    simp
    omega
  | a :: b :: c :: rest, h => by
    have ha : a < 256 := h a (by simp)
    have hb : b < 256 := h b (by simp)
    have hc : c < 256 := h c (by simp)
    have ih := base64Decode_encode rest (fun x hx => h x (by simp [hx]))
    unfold base64Decode at ih ⊢
    unfold base64Encode
    rw [base64DecodeAux_quantum _ _ _ _ (by omega) (by omega) (by omega) (by omega), ih]
    simp only [Option.map_some', Option.some.injEq, List.cons.injEq, and_true]
    omega

theorem utf8EncodeChar_lt (c : Char) : ∀ b ∈ utf8EncodeChar c, b < 256 := by
  have hv := c.valid
  have hn : c.toNat = c.val.toNat := rfl
  unfold utf8EncodeChar
  intro b hb
  simp only at hb
  rcases hv with hv | ⟨hv1, hv2⟩ <;> split_ifs at hb <;> simp at hb <;> omega

theorem utf8Encode_lt (cs : List Char) : ∀ b ∈ utf8Encode cs, b < 256 := by
  intro b hb
  unfold utf8Encode at hb
  rw [List.mem_flatMap] at hb
  obtain ⟨c, _, hc⟩ := hb
  exact utf8EncodeChar_lt c b hc

theorem utf8DecodeRune_encodeChar (c : Char) (rest : List Nat) :
    utf8DecodeRune (utf8EncodeChar c ++ rest) = (c.toNat, (utf8EncodeChar c).length) := by
  have hv2 : c.toNat < 0xD800 ∨ (0xDFFF < c.toNat ∧ c.toNat < 0x110000) := c.valid
  unfold utf8EncodeChar
  simp only
  split_ifs with h1 h2 h3
  · simp [utf8DecodeRune, h1]
  · simp only [utf8DecodeRune, List.cons_append, List.nil_append, isCont]
    rw [if_neg (by omega), if_pos (by omega)]
    simp only [Bool.and_eq_true, decide_eq_true_eq]
    rw [if_pos (by omega)]
    simp only [List.length_cons, List.length_nil, Prod.mk.injEq, and_true]
    omega
  · simp only [utf8DecodeRune, List.cons_append, List.nil_append, isCont]
    rw [if_neg (by omega), if_neg (by omega), if_pos (by omega)]
    simp only [Bool.and_eq_true, decide_eq_true_eq]
    rw [if_pos (by split_ifs <;> omega)]
    simp only [List.length_cons, List.length_nil, Prod.mk.injEq, and_true]
    omega
  · simp only [utf8DecodeRune, List.cons_append, List.nil_append, isCont]
    rw [if_neg (by omega), if_neg (by omega), if_neg (by omega), if_pos (by omega)]
    simp only [Bool.and_eq_true, decide_eq_true_eq]
    rw [if_pos (by split_ifs <;> omega)]
    simp only [List.length_cons, List.length_nil, Prod.mk.injEq, and_true]
    omega

theorem utf8EncodeChar_ne_nil (c : Char) : utf8EncodeChar c ≠ [] := by
  unfold utf8EncodeChar
  simp only
  split_ifs <;> simp

theorem utf8DecodeAux_encode : ∀ (cs : List Char) (fuel : Nat), cs.length ≤ fuel →
    utf8DecodeAux fuel (utf8Encode cs) = cs
  | [], fuel, _ => by
    cases fuel <;> simp [utf8Encode, utf8DecodeAux]
  | c :: cs, 0, h => by simp at h
  | c :: cs, fuel + 1, h => by
    have ih := utf8DecodeAux_encode cs fuel (by simpa using h)
    have e : utf8Encode (c :: cs) = utf8EncodeChar c ++ utf8Encode cs := by
      simp [utf8Encode]
    rw [e]
    obtain ⟨b, bs, hb⟩ := List.exists_cons_of_ne_nil (utf8EncodeChar_ne_nil c)
    have hr := utf8DecodeRune_encodeChar c (utf8Encode cs)
    rw [hb] at hr ⊢
    rw [List.cons_append] at hr ⊢
    unfold utf8DecodeAux
    simp only [hr]
    rw [← List.cons_append, List.drop_left, ih, Char.ofNat_toNat]

/-- Decoding the UTF-8 bytes of a text gives the text back. -/
theorem utf8Decode_encode (cs : List Char) : utf8Decode (utf8Encode cs) = cs := by
  unfold utf8Decode
  apply utf8DecodeAux_encode
  unfold utf8Encode
  induction cs with
  | nil => simp
  | cons c cs ih =>
    simp only [List.flatMap_cons, List.length_append, List.length_cons]
    have := List.length_pos.2 (utf8EncodeChar_ne_nil c)
    omega

/-! ## Strings and numbers as JSON text -/

theorem char_eq_of_toNat (c : Char) (n : Nat) (h : c.toNat = n) : c = Char.ofNat n := by
  rw [← h, Char.ofNat_toNat]

theorem char_ne_of_toNat (c d : Char) (h : c.toNat ≠ d.toNat) : c ≠ d := by
  intro e
  exact h (by rw [e])

theorem hexValue_hexDigit (k : Nat) (h : k < 16) : hexValue (hexDigit k) = some k := by
  interval_cases k <;> rfl

theorem hex4_byte (n : Nat) (h : n < 256) :
    hex4 '0' '0' (hexDigit (n / 16)) (hexDigit (n % 16)) = some n := by
  unfold hex4
  rw [hexValue_hexDigit _ (by omega), hexValue_hexDigit _ (by omega)]
  have : hexValue '0' = some 0 := by decide
  simp only [this]
  congr 1
  omega

theorem unquoteAux_escapeChar (c : Char) (tail : List Char) :
    unquoteAux 0 (escapeChar c ++ tail) = consChar c (unquoteAux 0 tail) := by
  unfold escapeChar
  simp only
  split_ifs with h1 h2 h3 h4 h5 h6 h7 h8
  · rw [char_eq_of_toNat c _ h1, unquoteAux.eq_def]
    simp [simpleEscape]
  · rw [char_eq_of_toNat c _ h2, unquoteAux.eq_def]
    simp [simpleEscape]
  · rw [char_eq_of_toNat c _ h3, unquoteAux.eq_def]
    simp [simpleEscape]
  · rw [char_eq_of_toNat c _ h4, unquoteAux.eq_def]
    simp [simpleEscape]
  · rw [char_eq_of_toNat c _ h5, unquoteAux.eq_def]
    simp [simpleEscape]
  · have hlt : c.toNat < 256 := by omega
    have hs : isSurrogate c.toNat = false := by
      unfold isSurrogate
      simp only [Bool.and_eq_false_imp, decide_eq_true_eq, decide_eq_false_iff_not]
      omega
    rw [unquoteAux.eq_def]
    simp only [List.cons_append, List.nil_append]
    simp only [if_true, hex4_byte _ hlt, hs, Bool.false_eq_true, if_false, Char.ofNat_toNat]
    rw [if_neg (by decide)]
  · rw [char_eq_of_toNat c _ h7, unquoteAux.eq_def]
    simp only [List.cons_append, List.nil_append]
    have : hex4 '2' '0' '2' '8' = some 0x2028 := by decide
    have hs : isSurrogate 0x2028 = false := by decide
    simp only [if_true, this, hs, Bool.false_eq_true, if_false]
    rw [if_neg (by decide)]
  · rw [char_eq_of_toNat c _ h8, unquoteAux.eq_def]
    simp only [List.cons_append, List.nil_append]
    have : hex4 '2' '0' '2' '9' = some 0x2029 := by decide
    have hs : isSurrogate 0x2029 = false := by decide
    simp only [if_true, this, hs, Bool.false_eq_true, if_false]
    rw [if_neg (by decide)]
  · rw [unquoteAux.eq_def]
    simp only [List.cons_append, List.nil_append]
    rw [if_neg (char_ne_of_toNat c '"' h1), if_neg (char_ne_of_toNat c '\\' h2),
      if_neg (by omega)]

/-- Reading the escaped form of a string up to its closing quote gives the string
back. -/
theorem unquote_quote (s rest : List Char) :
    unquote (s.flatMap escapeChar ++ '"' :: rest) = some (s, rest) := by
  unfold unquote
  induction s with
  | nil => rw [unquoteAux.eq_def]; simp
  | cons c s ih =>
    rw [List.flatMap_cons, List.append_assoc, unquoteAux_escapeChar, ih]
    rfl

theorem delimited_cases (rest : List Char) (h : delimited rest) :
    rest = [] ∨ ∃ c r, rest = c :: r ∧ isDigit c = false ∧ c ≠ '.' ∧ c ≠ 'e' ∧ c ≠ 'E' := by
  cases rest with
  | nil => exact Or.inl rfl
  | cons c r =>
    right
    refine ⟨c, r, rfl, ?_⟩
    rcases h c rfl with h | h | h <;> subst h <;> decide

theorem takeDigits_append (s rest : List Char) (h : delimited rest) :
    takeDigits (s ++ rest) = ((takeDigits s).1, (takeDigits s).2 ++ rest) := by
  induction s with
  | nil =>
    rcases delimited_cases rest h with h | ⟨c, r, h, hd, -⟩
    · subst h; rfl
    · subst h
      simp [takeDigits, hd]
  | cons c s ih =>
    by_cases hc : isDigit c = true
    · rw [List.cons_append, takeDigits, if_pos hc, ih, takeDigits, if_pos hc]
    · rw [List.cons_append, takeDigits, if_neg hc, takeDigits, if_neg hc]
      rfl

theorem scanExponent_append (acc s rest out r : List Char) (h : delimited rest)
    (hs : scanExponent acc s = some (out, r)) :
    scanExponent acc (s ++ rest) = some (out, r ++ rest) := by
  cases s with
  | nil =>
    simp only [scanExponent, Option.some.injEq, Prod.mk.injEq] at hs
    obtain ⟨rfl, rfl⟩ := hs
    rcases delimited_cases rest h with h | ⟨c, r, h, hd, h1, h2, h3⟩
    · subst h; rfl
    · subst h
      simp [scanExponent, h2, h3]
  | cons e t =>
    rw [scanExponent.eq_def] at hs ⊢
    simp only [List.cons_append] at hs ⊢
    by_cases he : e = 'e' ∨ e = 'E'
    · rw [if_pos he] at hs ⊢
      cases t with
      | nil => simp at hs
      | cons sg u =>
        simp only [List.cons_append] at hs ⊢
        by_cases hsg : sg = '+' ∨ sg = '-'
        · rw [if_pos hsg] at hs ⊢
          rw [takeDigits_append u rest h]
          simp only
          split_ifs at hs with h0
          rw [if_neg h0]
          simp only [Option.some.injEq, Prod.mk.injEq] at hs ⊢
          obtain ⟨rfl, rfl⟩ := hs
          exact ⟨rfl, rfl⟩
        · rw [if_neg hsg] at hs ⊢
          rw [← List.cons_append, takeDigits_append (sg :: u) rest h]
          simp only
          split_ifs at hs with h0
          rw [if_neg h0]
          simp only [Option.some.injEq, Prod.mk.injEq] at hs ⊢
          obtain ⟨rfl, rfl⟩ := hs
          exact ⟨rfl, rfl⟩
    · rw [if_neg he] at hs ⊢
      simp only [Option.some.injEq, Prod.mk.injEq] at hs ⊢
      obtain ⟨rfl, rfl⟩ := hs
      exact ⟨rfl, rfl⟩

theorem scanFraction_append (acc s rest out r : List Char) (h : delimited rest)
    (hs : scanFraction acc s = some (out, r)) :
    scanFraction acc (s ++ rest) = some (out, r ++ rest) := by
  cases s with
  | nil =>
    simp only [scanFraction, Option.some.injEq, Prod.mk.injEq] at hs
    obtain ⟨rfl, rfl⟩ := hs
    rcases delimited_cases rest h with h | ⟨c, r, h2, hd, h1, h3, h4⟩
    · subst h; rfl
    · subst h2
      simp only [List.nil_append, scanFraction, h1, if_false]
      exact scanExponent_append acc [] (c :: r) acc [] h rfl
  | cons p t =>
    rw [scanFraction.eq_def] at hs ⊢
    simp only [List.cons_append] at hs ⊢
    by_cases hp : p = '.'
    · rw [if_pos hp] at hs ⊢
      rw [takeDigits_append t rest h]
      simp only
      split_ifs at hs with h0
      rw [if_neg h0]
      exact scanExponent_append _ _ rest out r h hs
    · rw [if_neg hp] at hs ⊢
      exact scanExponent_append _ (p :: t) rest out r h hs

theorem scanInteger_append (acc s rest out r : List Char) (h : delimited rest)
    (hs : scanInteger acc s = some (out, r)) :
    scanInteger acc (s ++ rest) = some (out, r ++ rest) := by
  cases s with
  | nil => simp [scanInteger] at hs
  | cons d t =>
    rw [scanInteger.eq_def] at hs ⊢
    simp only [List.cons_append] at hs ⊢
    by_cases hd : d = '0'
    · rw [if_pos hd] at hs ⊢
      exact scanFraction_append _ _ rest out r h hs
    · rw [if_neg hd] at hs ⊢
      by_cases hg : isDigit d = true
      · rw [if_pos hg] at hs ⊢
        rw [takeDigits_append t rest h]
        exact scanFraction_append _ _ rest out r h hs
      · rw [if_neg hg] at hs
        cases hs

/-- A number literal is read as it is, whatever delimiter follows it. -/
theorem scanNumber_append (lit rest : List Char) (h : delimited rest)
    (hs : validNumber lit = true) : scanNumber (lit ++ rest) = some (lit, rest) := by
  unfold validNumber at hs
  rw [decide_eq_true_eq] at hs
  cases lit with
  | nil => simp [scanNumber] at hs
  | cons c cs =>
    rw [scanNumber.eq_def] at hs ⊢
    simp only [List.cons_append] at hs ⊢
    by_cases hc : c = '-'
    · rw [if_pos hc] at hs ⊢
      exact scanInteger_append _ _ rest _ _ h hs
    · rw [if_neg hc] at hs ⊢
      exact scanInteger_append _ (c :: cs) rest _ _ h hs

theorem validNumber_head (lit : List Char) (hs : validNumber lit = true) :
    ∃ c cs, lit = c :: cs ∧ (c = '-' ∨ isDigit c = true) := by
  unfold validNumber at hs
  rw [decide_eq_true_eq] at hs
  cases lit with
  | nil => simp [scanNumber] at hs
  | cons c cs =>
    refine ⟨c, cs, rfl, ?_⟩
    by_cases hc : c = '-'
    · exact Or.inl hc
    · right
      rw [scanNumber.eq_def] at hs
      simp only [if_neg hc] at hs
      rw [scanInteger.eq_def] at hs
      simp only at hs
      by_cases hd : c = '0'
      · subst hd; decide
      · rw [if_neg hd] at hs
        by_contra hg
        rw [if_neg hg] at hs
        cases hs

theorem isDigit_digitChar (d : Nat) (h : d < 10) : isDigit (digitChar d) = true := by
  interval_cases d <;> rfl

theorem digitChar_ne_zero (d : Nat) (h : d < 10) (h0 : 0 < d) : digitChar d ≠ '0' := by
  interval_cases d <;> decide

theorem digitChar_value (d : Nat) (h : d < 10) : (digitChar d).toNat - 48 = d := by
  interval_cases d <;> rfl

theorem natDigitsAux_spec (fuel : Nat) : ∀ (n : Nat) (acc : List Char), n < fuel →
    ∃ d ds, natDigitsAux fuel n acc = d :: (ds ++ acc) ∧ isDigit d = true ∧
      (∀ c ∈ ds, isDigit c = true) ∧ (0 < n → d ≠ '0') ∧
      List.foldl (fun a c => a * 10 + (c.toNat - 48)) 0 (d :: (ds ++ acc)) =
        List.foldl (fun a c => a * 10 + (c.toNat - 48)) n acc := by
  induction fuel with
  | zero => intro n acc h; omega
  | succ fuel ih =>
    intro n acc hn
    unfold natDigitsAux
    by_cases h10 : n / 10 = 0
    · rw [if_pos h10]
      have hlt : n < 10 := by omega
      refine ⟨digitChar (n % 10), [], rfl, isDigit_digitChar _ (by omega), by simp, ?_, ?_⟩
      · intro h0
        exact digitChar_ne_zero _ (by omega) (by omega)
      · simp only [List.nil_append, List.foldl_cons, digitChar_value _ (Nat.mod_lt n (by omega))]
        congr 1
        omega
    · rw [if_neg h10]
      obtain ⟨d, ds, he, hd, hds, h0, hv⟩ := ih (n / 10) (digitChar (n % 10) :: acc) (by omega)
      refine ⟨d, ds ++ [digitChar (n % 10)], ?_, hd, ?_, ?_, ?_⟩
      · rw [he]
        simp
      · intro c hc
        rcases List.mem_append.1 hc with h | h
        · exact hds c h
        · rw [List.mem_singleton.1 h]
          exact isDigit_digitChar _ (Nat.mod_lt n (by omega))
      · intro _
        exact h0 (by omega)
      · have e : d :: (ds ++ [digitChar (n % 10)] ++ acc) =
            d :: (ds ++ digitChar (n % 10) :: acc) := by simp
        rw [e, hv]
        simp only [List.foldl_cons, digitChar_value _ (Nat.mod_lt n (by omega))]
        congr 1
        omega

theorem natDigits_spec (n : Nat) :
    ∃ d ds, natDigits n = d :: ds ∧ isDigit d = true ∧ (∀ c ∈ ds, isDigit c = true) ∧
      (0 < n → d ≠ '0') ∧ digitsValue (natDigits n) = n := by
  obtain ⟨d, ds, he, hd, hds, h0, hv⟩ := natDigitsAux_spec (n + 1) n [] (by omega)
  rw [List.append_nil] at he hv
  refine ⟨d, ds, he, hd, hds, h0, ?_⟩
  unfold digitsValue natDigits
  rw [he, hv]
  rfl

theorem takeDigits_all (ds : List Char) (h : ∀ c ∈ ds, isDigit c = true) :
    takeDigits ds = (ds, []) := by
  induction ds with
  | nil => rfl
  | cons c cs ih =>
    rw [takeDigits, if_pos (h c (by simp)), ih (fun x hx => h x (by simp [hx]))]

theorem scanInteger_natDigits (acc : List Char) (n : Nat) :
    scanInteger acc (natDigits n) = some (acc ++ natDigits n, []) := by
  obtain ⟨d, ds, he, hd, hds, h0, -⟩ := natDigits_spec n
  rw [he, scanInteger.eq_def]
  simp only
  by_cases hz : d = '0'
  · have hn : n = 0 := by
      by_contra hne
      exact h0 (Nat.pos_of_ne_zero hne) hz
    subst hn
    have : natDigits 0 = ['0'] := rfl
    rw [this] at he
    cases he
    rfl
  · rw [if_neg hz, if_pos hd, takeDigits_all ds hds]
    rfl

/-- The decimal text of an integer is a number literal. -/
theorem validNumber_intLiteral (n : Int) : validNumber (intLiteral n) = true := by
  unfold validNumber
  rw [decide_eq_true_eq]
  unfold intLiteral
  split_ifs with hneg
  · rw [scanNumber.eq_def]
    simp only [if_true]
    exact scanInteger_natDigits ['-'] _
  · obtain ⟨d, ds, he, hd, -, -, -⟩ := natDigits_spec n.natAbs
    have hs := scanInteger_natDigits [] n.natAbs
    rw [he] at hs ⊢
    rw [scanNumber.eq_def]
    simp only
    have hne : d ≠ '-' := by
      intro e
      rw [e] at hd
      exact absurd hd (by decide)
    rw [if_neg hne, hs]
    rfl

/-- An integer of at most 64 bits is in the range of `float64`. -/
theorem float64Overflows_intLiteral (n : Int) (h1 : -(2 ^ 63) ≤ n) (h2 : n < 2 ^ 64) :
    float64Overflows (intLiteral n) = false := by
  obtain ⟨d, ds, he, hd, hds, -, hv⟩ := natDigits_spec n.natAbs
  have hne : d ≠ '-' := by
    intro e
    rw [e] at hd
    exact absurd hd (by decide)
  have hall : ∀ c ∈ natDigits n.natAbs, isDigit c = true := by
    rw [he]
    intro c hc
    rcases List.mem_cons.1 hc with h | h
    · rw [h]; exact hd
    · exact hds c h
  have hlit : literalDecimal (intLiteral n) = (natDigits n.natAbs, 0) := by
    unfold literalDecimal intLiteral
    split_ifs with hneg
    · simp only [if_true, takeDigits_all _ hall]
      simp
    · rw [he] at hall ⊢
      simp only [if_neg hne, takeDigits_all _ hall]
      simp
  unfold float64Overflows
  rw [hlit]
  simp only [le_refl, if_true, Int.toNat_zero, pow_zero, mul_one, hv, decide_eq_false_iff_not,
    not_le]
  have : n.natAbs < 2 ^ 64 := by omega
  have h3 : (2 : Nat) ^ 64 < float64Limit := by
    unfold float64Limit
    norm_num
  omega

/-! ## Reading back the text of a JSON value -/

theorem skipSpace_cons (c : Char) (cs : List Char) (h : isSpace c = false) :
    skipSpace (c :: cs) = c :: cs := by
  rw [skipSpace, h]
  rfl

theorem string_mk_data (s : String) : String.mk s.data = s := rfl

theorem delimited_comma (cs : List Char) : delimited (',' :: cs) := by
  intro c h
  simp only [List.head?_cons, Option.some.injEq] at h
  exact Or.inl h.symm

theorem delimited_bracket (cs : List Char) : delimited (']' :: cs) := by
  intro c h
  simp only [List.head?_cons, Option.some.injEq] at h
  exact Or.inr (Or.inl h.symm)

theorem delimited_brace (cs : List Char) : delimited (Char.ofNat 125 :: cs) := by
  intro c h
  simp only [List.head?_cons, Option.some.injEq] at h
  exact Or.inr (Or.inr h.symm)

theorem delimited_nil : delimited [] := by
  intro c h
  cases h

theorem delimited_list_tail (xs : JsonList) (rest : List Char) :
    delimited (xs.renderTail ++ rest) := by
  cases xs with
  | nil => exact delimited_bracket _
  | cons x xs => exact delimited_comma _

theorem delimited_members_tail (ms : JsonMembers) (rest : List Char) :
    delimited (ms.renderTail ++ rest) := by
  cases ms with
  | nil => exact delimited_brace _
  | cons k v ms => exact delimited_comma _

/-- The text of a value starts with a character that is neither white space nor
a closing bracket or brace. -/
theorem render_head (j : Json) (h : j.wellFormed = true) :
    ∃ c cs, j.render = c :: cs ∧ isSpace c = false ∧ c ≠ ']' ∧ c ≠ Char.ofNat 125 := by
  cases j with
  | null => exact ⟨_, _, rfl, by decide, by decide, by decide⟩
  | bool b => cases b <;> exact ⟨_, _, rfl, by decide, by decide, by decide⟩
  | num lit =>
    obtain ⟨c, cs, he, hc⟩ := validNumber_head lit.data h
    refine ⟨c, cs, he, ?_⟩
    rcases hc with hc | hc
    · subst hc; decide
    · unfold isDigit at hc
      simp only [Bool.and_eq_true, decide_eq_true_eq] at hc
      refine ⟨?_, ?_, ?_⟩
      · unfold isSpace
        have h1 : c ≠ ' ' := char_ne_of_toNat _ _ (by have : (' ' : Char).toNat = 32 := rfl; omega)
        have h2 : c ≠ '\t' := char_ne_of_toNat _ _ (by have : ('\t' : Char).toNat = 9 := rfl; omega)
        have h3 : c ≠ '\r' := char_ne_of_toNat _ _ (by have : ('\r' : Char).toNat = 13 := rfl; omega)
        have h4 : c ≠ '\n' := char_ne_of_toNat _ _ (by have : ('\n' : Char).toNat = 10 := rfl; omega)
        simp [h1, h2, h3, h4]
      · exact char_ne_of_toNat _ _ (by have : (']' : Char).toNat = 93 := rfl; omega)
      · exact char_ne_of_toNat _ _ (by have : (Char.ofNat 125).toNat = 125 := rfl; omega)
  | str s => exact ⟨_, _, rfl, by decide, by decide, by decide⟩
  | arr xs => cases xs <;> exact ⟨_, _, rfl, by decide, by decide, by decide⟩
  | obj ms => cases ms <;> exact ⟨_, _, rfl, by decide, by decide, by decide⟩

theorem number_head (c : Char) (h : c = '-' ∨ isDigit c = true) :
    isSpace c = false ∧ c ≠ Char.ofNat 123 ∧ c ≠ '[' ∧ c ≠ '"' ∧ c ≠ 't' ∧ c ≠ 'f' ∧
      c ≠ 'n' := by
  rcases h with h | h
  · subst h; decide
  · unfold isDigit at h
    simp only [Bool.and_eq_true, decide_eq_true_eq] at h
    have h1 : c ≠ ' ' := char_ne_of_toNat _ _ (by have : (' ' : Char).toNat = 32 := rfl; omega)
    have h2 : c ≠ '\t' := char_ne_of_toNat _ _ (by have : ('\t' : Char).toNat = 9 := rfl; omega)
    have h3 : c ≠ '\r' := char_ne_of_toNat _ _ (by have : ('\r' : Char).toNat = 13 := rfl; omega)
    have h4 : c ≠ '\n' := char_ne_of_toNat _ _ (by have : ('\n' : Char).toNat = 10 := rfl; omega)
    refine ⟨by simp [isSpace, h1, h2, h3, h4], ?_, ?_, ?_, ?_, ?_, ?_⟩
    · exact char_ne_of_toNat _ _ (by have : (Char.ofNat 123).toNat = 123 := rfl; omega)
    · exact char_ne_of_toNat _ _ (by have : ('[' : Char).toNat = 91 := rfl; omega)
    · exact char_ne_of_toNat _ _ (by have : ('"' : Char).toNat = 34 := rfl; omega)
    · exact char_ne_of_toNat _ _ (by have : ('t' : Char).toNat = 116 := rfl; omega)
    · exact char_ne_of_toNat _ _ (by have : ('f' : Char).toNat = 102 := rfl; omega)
    · exact char_ne_of_toNat _ _ (by have : ('n' : Char).toNat = 110 := rfl; omega)

mutual
/-- Reading the text of a well-formed value gives the value back and stops
right after it. -/
theorem parseValue_render : ∀ (j : Json) (fuel : Nat) (rest : List Char),
    j.wellFormed = true → delimited rest → j.fuel ≤ fuel →
    parseValue fuel (j.render ++ rest) = some (j, rest)
  | .null, 0, _, _, _, hf => by simp [Json.fuel] at hf
  | .null, fuel + 1, rest, _, _, _ => by
    rw [parseValue]
    simp [Json.render, skipSpace, isSpace, expectWord]
  | .bool _, 0, _, _, _, hf => by simp [Json.fuel] at hf
  | .bool true, fuel + 1, rest, _, _, _ => by
    rw [parseValue]
    simp [Json.render, skipSpace, isSpace, expectWord]
  | .bool false, fuel + 1, rest, _, _, _ => by
    rw [parseValue]
    simp [Json.render, skipSpace, isSpace, expectWord]
  | .num _, 0, _, _, _, hf => by simp [Json.fuel] at hf
  | .num lit, fuel + 1, rest, hw, hd, _ => by
    have hv : validNumber lit.data = true := by simpa [Json.wellFormed] using hw
    obtain ⟨c, cs, he, hc⟩ := validNumber_head lit.data hv
    obtain ⟨h0, h1, h2, h3, h4, h5, h6⟩ := number_head c hc
    have hs := scanNumber_append lit.data rest hd hv
    rw [parseValue]
    simp only [Json.render]
    rw [he] at hs ⊢
    rw [List.cons_append] at hs ⊢
    rw [skipSpace_cons _ _ h0]
    simp only [if_neg h1, if_neg h2, if_neg h3, if_neg h4, if_neg h5, if_neg h6, hs]
    rw [← he, string_mk_data]
  | .str _, 0, _, _, _, hf => by simp [Json.fuel] at hf
  | .str s, fuel + 1, rest, _, _, _ => by
    rw [parseValue]
    simp only [Json.render, quote, List.cons_append, List.append_assoc,
      List.singleton_append]
    rw [skipSpace_cons _ _ (by decide)]
    simp only [if_neg (show ('"' : Char) ≠ Char.ofNat 123 by decide),
      if_neg (show ('"' : Char) ≠ '[' by decide), if_true, unquote_quote, string_mk_data,
      List.nil_append]
  | .arr _, 0, _, _, _, hf => by simp [Json.fuel] at hf
  | .arr .nil, fuel + 1, rest, _, _, _ => by
    rw [parseValue]
    simp [Json.render, skipSpace, isSpace]
  | .arr (.cons x xs), fuel + 1, rest, hw, _, hf => by
    have hwx : x.wellFormed = true ∧ xs.wellFormed = true := by
      simpa [Json.wellFormed, JsonList.wellFormed] using hw
    obtain ⟨c, cs, he, hc0, hc1, hc2⟩ := render_head x hwx.1
    have ih := parseElements_render (.cons x xs) fuel rest
      (by simpa [Json.wellFormed] using hw) (by simpa [Json.fuel] using hf) x xs rfl
    rw [parseValue]
    simp only [Json.render, List.cons_append]
    rw [skipSpace_cons _ _ (by decide)]
    simp only [if_neg (show ('[' : Char) ≠ Char.ofNat 123 by decide), if_true]
    rw [List.append_assoc] at *
    rw [he] at ih ⊢
    rw [List.cons_append] at ih ⊢
    rw [skipSpace_cons _ _ hc0]
    simp only [if_neg hc1, ih]
  | .obj _, 0, _, _, _, hf => by simp [Json.fuel] at hf
  | .obj .nil, fuel + 1, rest, _, _, _ => by
    rw [parseValue]
    simp [Json.render, skipSpace, isSpace]
  | .obj (.cons k v ms), fuel + 1, rest, hw, _, hf => by
    have ih := parseMembers_render (.cons k v ms) fuel rest
      (by simpa [Json.wellFormed] using hw) (by simpa [Json.fuel] using hf) k v ms rfl
    rw [parseValue]
    simp only [Json.render, List.cons_append, quote] at ih ⊢
    rw [skipSpace_cons _ _ (by decide)]
    simp only [if_true]
    rw [skipSpace_cons _ _ (by decide)]
    simp only [if_neg (show ('"' : Char) ≠ Char.ofNat 125 by decide), ih]
/-- Reading the text of the elements of an array gives the elements back. -/
theorem parseElements_render : ∀ (l : JsonList) (fuel : Nat) (rest : List Char),
    l.wellFormed = true → l.fuel ≤ fuel → ∀ (x : Json) (xs : JsonList), l = .cons x xs →
    parseElements fuel (x.render ++ xs.renderTail ++ rest) = some (l, rest)
  | .nil, _, _, _, _, _, _, h => by cases h
  | .cons _ _, 0, _, _, hf, _, _, _ => by simp [JsonList.fuel] at hf
  | .cons x xs, fuel + 1, rest, hw, hf, _, _, rfl => by
    have hwx : x.wellFormed = true ∧ xs.wellFormed = true := by
      simpa [JsonList.wellFormed] using hw
    have hfx : x.fuel + xs.fuel ≤ fuel := by simpa [JsonList.fuel] using hf
    have ihx := parseValue_render x fuel (xs.renderTail ++ rest) hwx.1
      (delimited_list_tail xs rest) (by omega)
    rw [parseElements, List.append_assoc, ihx]
    simp only
    cases xs with
    | nil =>
      simp only [JsonList.renderTail, List.singleton_append]
      rw [skipSpace_cons _ _ (by decide)]
      simp only [if_neg (show (']' : Char) ≠ ',' by decide), if_true]
    | cons y ys =>
      have ihxs := parseElements_render (.cons y ys) fuel rest hwx.2 (by omega) y ys rfl
      simp only [JsonList.renderTail, List.cons_append]
      rw [skipSpace_cons _ _ (by decide)]
      simp only [if_true]
      rw [List.append_assoc] at ihxs
      rw [List.append_assoc, ihxs]
/-- Reading the text of the members of an object gives the members back. -/
theorem parseMembers_render : ∀ (l : JsonMembers) (fuel : Nat) (rest : List Char),
    l.wellFormed = true → l.fuel ≤ fuel → ∀ (k : String) (v : Json) (ms : JsonMembers),
    l = .cons k v ms →
    parseMembers fuel (quote k.data ++ ':' :: (v.render ++ ms.renderTail) ++ rest) =
      some (l, rest)
  | .nil, _, _, _, _, _, _, _, h => by cases h
  | .cons _ _ _, 0, _, _, hf, _, _, _, _ => by simp [JsonMembers.fuel] at hf
  | .cons k v ms, fuel + 1, rest, hw, hf, _, _, _, rfl => by
    have hwx : v.wellFormed = true ∧ ms.wellFormed = true := by
      simpa [JsonMembers.wellFormed] using hw
    have hfx : v.fuel + ms.fuel ≤ fuel := by simpa [JsonMembers.fuel] using hf
    have ihv := parseValue_render v fuel (ms.renderTail ++ rest) hwx.1
      (delimited_members_tail ms rest) (by omega)
    rw [parseMembers]
    simp only [quote, List.cons_append, List.append_assoc, List.singleton_append]
    rw [skipSpace_cons _ _ (by decide)]
    simp only [if_true, unquote_quote, List.nil_append]
    rw [skipSpace_cons _ _ (by decide)]
    simp only [if_true, ihv, string_mk_data]
    cases ms with
    | nil =>
      simp only [JsonMembers.renderTail, List.singleton_append]
      rw [skipSpace_cons _ _ (by decide)]
      simp only [if_neg (show Char.ofNat 125 ≠ ',' by decide), if_true]
    | cons k2 v2 ms2 =>
      have ihms := parseMembers_render (.cons k2 v2 ms2) fuel rest hwx.2 (by omega)
        k2 v2 ms2 rfl
      simp only [JsonMembers.renderTail, List.cons_append]
      rw [skipSpace_cons _ _ (by decide)]
      simp only [if_true]
      simp only [quote, List.cons_append, List.append_assoc, List.singleton_append] at ihms
      simp only [quote, List.cons_append, List.append_assoc, List.singleton_append, ihms]
end

mutual
theorem fuel_le_length : ∀ (j : Json), j.wellFormed = true → j.fuel ≤ j.render.length
  | .null, _ => by simp [Json.fuel, Json.render]
  | .bool true, _ => by simp [Json.fuel, Json.render]
  | .bool false, _ => by simp [Json.fuel, Json.render]
  | .num lit, hw => by
    obtain ⟨c, cs, he, -⟩ := validNumber_head lit.data (by simpa [Json.wellFormed] using hw)
    simp [Json.fuel, Json.render, he]
  | .str s, _ => by simp [Json.fuel, Json.render, quote]
  | .arr .nil, _ => by simp [Json.fuel, Json.render, JsonList.fuel]
  | .arr (.cons x xs), hw => by
    have hwx : x.wellFormed = true ∧ xs.wellFormed = true := by
      simpa [Json.wellFormed, JsonList.wellFormed] using hw
    have h1 := fuel_le_length x hwx.1
    have h2 := listFuel_le_length xs hwx.2
    simp only [Json.fuel, Json.render, JsonList.fuel, List.length_cons, List.length_append]
    omega
  | .obj .nil, _ => by simp [Json.fuel, Json.render, JsonMembers.fuel]
  | .obj (.cons k v ms), hw => by
    have hwx : v.wellFormed = true ∧ ms.wellFormed = true := by
      simpa [Json.wellFormed, JsonMembers.wellFormed] using hw
    have h1 := fuel_le_length v hwx.1
    have h2 := membersFuel_le_length ms hwx.2
    simp only [Json.fuel, Json.render, JsonMembers.fuel, List.length_cons, List.length_append]
    omega
theorem listFuel_le_length : ∀ (xs : JsonList), xs.wellFormed = true →
    xs.fuel + 1 ≤ xs.renderTail.length
  | .nil, _ => by simp [JsonList.fuel, JsonList.renderTail]
  | .cons x xs, hw => by
    have hwx : x.wellFormed = true ∧ xs.wellFormed = true := by
      simpa [JsonList.wellFormed] using hw
    have h1 := fuel_le_length x hwx.1
    have h2 := listFuel_le_length xs hwx.2
    simp only [JsonList.fuel, JsonList.renderTail, List.length_cons, List.length_append]
    omega
theorem membersFuel_le_length : ∀ (ms : JsonMembers), ms.wellFormed = true →
    ms.fuel + 1 ≤ ms.renderTail.length
  | .nil, _ => by simp [JsonMembers.fuel, JsonMembers.renderTail]
  | .cons k v ms, hw => by
    have hwx : v.wellFormed = true ∧ ms.wellFormed = true := by
      simpa [JsonMembers.wellFormed] using hw
    have h1 := fuel_le_length v hwx.1
    have h2 := membersFuel_le_length ms hwx.2
    simp only [JsonMembers.fuel, JsonMembers.renderTail, List.length_cons, List.length_append]
    omega
end

/-- Reading the compact text of a well-formed JSON value gives the value back. -/
theorem parseJson_render (j : Json) (hw : j.wellFormed = true) :
    parseJson j.render = some j := by
  unfold parseJson
  have h := parseValue_render j (2 * j.render.length + 2) [] hw delimited_nil
    (by have := fuel_le_length j hw; omega)
  rw [List.append_nil] at h
  rw [h]
  rfl

/-! ## The page token through `marshal` and `unmarshal` -/

/-- A supported value is written as well-formed JSON, and what is read back from
it is the value as it comes through JSON. -/
theorem marshalValue_supported (v : Option GoValue)
    (h : ∀ x, v = some x → x.supported = true) :
    ∃ j, marshalValue v = some j ∧ j.wellFormed = true ∧
      decodeInterface j = some (v.map GoValue.throughJSON) := by
  cases v with
  | none => exact ⟨.null, rfl, rfl, rfl⟩
  | some x =>
    have hx := h x rfl
    cases x with
    | int n =>
      have hr : -(2 ^ 63) ≤ n ∧ n < 2 ^ 64 := by simpa [GoValue.supported] using hx
      refine ⟨.num (String.mk (intLiteral n)), rfl, ?_, ?_⟩
      · simp only [Json.wellFormed]
        exact validNumber_intLiteral n
      · simp only [decodeInterface, float64Overflows_intLiteral n hr.1 hr.2]
        rfl
    | float64 lit => simp [GoValue.supported] at hx
    | str s => exact ⟨.str s, rfl, rfl, rfl⟩
    | bool b => exact ⟨.bool b, rfl, rfl, rfl⟩
    | time t =>
      have hr : 0 ≤ t.year ∧ t.year < 10000 := by simpa [GoValue.supported] using hx
      refine ⟨.str (String.mk (formatRFC3339Nano t)), ?_, rfl, rfl⟩
      simp only [marshalValue, hr, and_self, if_true]
    | composite j => simp [GoValue.supported] at hx

theorem decodeMembers_token {Proto F : Type} (env : Env Proto F) (sn kn : String)
    (sj kj fj : Json) (sv kv : Option GoValue) (d : Bool) (fv : Option F)
    (hsv : decodeInterface sj = some sv) (hkv : decodeInterface kj = some kv)
    (hf : (fj = .null ∧ fv = none) ∨
      (fj ≠ .null ∧ ∃ f, fv = some f ∧ env.filterUnmarshalJSON none fj = some f)) :
    decodeMembers env {}
      (.cons "SortByFieldName" (.str sn)
      (.cons "SortByFieldValue" sj
      (.cons "KeyFieldName" (.str kn)
      (.cons "KeyFieldValue" kj
      (.cons "IsDesc" (.bool d)
      (.cons "Filter" fj .nil)))))) =
    some { SortByFieldName := sn, SortByFieldValue := sv, KeyFieldName := kn,
           KeyFieldValue := kv, IsDesc := d, Filter := fv } := by
  have e1 : ∀ t : token F, decodeMember env t "SortByFieldName" (.str sn) =
      some { t with SortByFieldName := sn } := by
    intro t
    unfold decodeMember
    rw [if_pos (by decide)]
  have e2 : ∀ t : token F, decodeMember env t "SortByFieldValue" sj =
      some { t with SortByFieldValue := sv } := by
    intro t
    unfold decodeMember
    rw [if_neg (by decide), if_pos (by decide), hsv]
  have e3 : ∀ t : token F, decodeMember env t "KeyFieldName" (.str kn) =
      some { t with KeyFieldName := kn } := by
    intro t
    unfold decodeMember
    rw [if_neg (by decide), if_neg (by decide), if_pos (by decide)]
  have e4 : ∀ t : token F, decodeMember env t "KeyFieldValue" kj =
      some { t with KeyFieldValue := kv } := by
    intro t
    unfold decodeMember
    rw [if_neg (by decide), if_neg (by decide), if_neg (by decide), if_pos (by decide), hkv]
  have e5 : ∀ t : token F, decodeMember env t "IsDesc" (.bool d) =
      some { t with IsDesc := d } := by
    intro t
    unfold decodeMember
    rw [if_neg (by decide), if_neg (by decide), if_neg (by decide), if_neg (by decide),
      if_pos (by decide)]
  have e6 : ∀ t : token F, t.Filter = none → decodeMember env t "Filter" fj =
      some { t with Filter := fv } := by
    intro t ht
    unfold decodeMember
    rw [if_neg (by decide), if_neg (by decide), if_neg (by decide), if_neg (by decide),
      if_neg (by decide), if_pos (by decide)]
    rcases hf with ⟨h1, h2⟩ | ⟨h1, f, h2, h3⟩
    · subst h1 h2
      rfl
    · subst h2
      rw [ht]
      cases fj with
      | null => exact absurd rfl h1
      | bool b => simp only [h3]
      | num lit => simp only [h3]
      | str s => simp only [h3]
      | arr xs => simp only [h3]
      | obj ms => simp only [h3]
  simp only [decodeMembers, e1, e2, e3, e4, e5]
  rw [e6 _ rfl]

theorem unmarshal_marshal_of_json {Proto F : Type} (env : Env Proto F)
    (sn kn : String) (sv kv : Option GoValue) (d : Bool) (fv : Option F) (sj kj fj : Json)
    (hjson : tokenToJson env
      { SortByFieldName := sn, SortByFieldValue := sv, KeyFieldName := kn,
        KeyFieldValue := kv, IsDesc := d, Filter := fv } =
      some (.obj (.cons "SortByFieldName" (.str sn)
        (.cons "SortByFieldValue" sj
        (.cons "KeyFieldName" (.str kn)
        (.cons "KeyFieldValue" kj
        (.cons "IsDesc" (.bool d)
        (.cons "Filter" fj .nil))))))))
    (hsw : sj.wellFormed = true) (hkw : kj.wellFormed = true) (hfw : fj.wellFormed = true)
    (hsd : decodeInterface sj = some (sv.map GoValue.throughJSON))
    (hkd : decodeInterface kj = some (kv.map GoValue.throughJSON))
    (hfd : (fj = .null ∧ fv = none) ∨
      (fj ≠ .null ∧ ∃ f, fv = some f ∧ env.filterUnmarshalJSON none fj = some f)) :
    ∃ s, token.marshal env
        { SortByFieldName := sn, SortByFieldValue := sv, KeyFieldName := kn,
          KeyFieldValue := kv, IsDesc := d, Filter := fv } = .ok s ∧
      token.unmarshal env {} s = .ok
        { SortByFieldName := sn, SortByFieldValue := sv.map GoValue.throughJSON,
          KeyFieldName := kn, KeyFieldValue := kv.map GoValue.throughJSON, IsDesc := d,
          Filter := fv } := by
  have hwf : (Json.obj (.cons "SortByFieldName" (.str sn)
        (.cons "SortByFieldValue" sj
        (.cons "KeyFieldName" (.str kn)
        (.cons "KeyFieldValue" kj
        (.cons "IsDesc" (.bool d)
        (.cons "Filter" fj .nil))))))).wellFormed = true := by
    simp [Json.wellFormed, JsonMembers.wellFormed, hsw, hkw, hfw]
  refine ⟨String.mk (base64Encode (utf8Encode (Json.render
    (.obj (.cons "SortByFieldName" (.str sn)
        (.cons "SortByFieldValue" sj
        (.cons "KeyFieldName" (.str kn)
        (.cons "KeyFieldValue" kj
        (.cons "IsDesc" (.bool d)
        (.cons "Filter" fj .nil)))))))))), ?_, ?_⟩
  · unfold token.marshal jsonMarshal
    rw [hjson]
  · unfold token.unmarshal
    simp only
    rw [base64Decode_encode _ (utf8Encode_lt _)]
    simp only
    unfold jsonUnmarshal
    rw [utf8Decode_encode, parseJson_render _ hwf]
    simp only
    rw [decodeMembers_token env sn kn sj kj fj _ _ d fv hsd hkd hfd]

/-- C1 as the code has it: for a token whose sort and key values are of a
supported scalar kind and whose filter, if any, is written by the filter package as
well-formed JSON other than `null` that it reads back as the same filter,
`marshal` succeeds and `unmarshal` of its result succeeds with a token that has the
same field names, direction and filter, and the same values except that an integer
has become a `float64` and a timestamp the string of its `RFC3339Nano` layout. -/
theorem unmarshal_marshal {Proto F : Type} (env : Env Proto F) (t : token F)
    (hs : ∀ v, t.SortByFieldValue = some v → v.supported = true)
    (hk : ∀ v, t.KeyFieldValue = some v → v.supported = true)
    (hfilter : ∀ f, t.Filter = some f → ∃ fj, env.filterMarshalJSON f = some fj ∧
      fj.wellFormed = true ∧ fj ≠ .null ∧ env.filterUnmarshalJSON none fj = some f) :
    ∃ s, t.marshal env = .ok s ∧
      token.unmarshal env {} s = .ok
        { t with
          SortByFieldValue := t.SortByFieldValue.map GoValue.throughJSON
          KeyFieldValue := t.KeyFieldValue.map GoValue.throughJSON } := by
  obtain ⟨sn, sv, kn, kv, d, fv⟩ := t
  simp only at hs hk hfilter
  obtain ⟨sj, hsj, hsw, hsd⟩ := marshalValue_supported sv hs
  obtain ⟨kj, hkj, hkw, hkd⟩ := marshalValue_supported kv hk
  cases fv with
  | none =>
    exact unmarshal_marshal_of_json env sn kn sv kv d none sj kj .null
      (by simp only [tokenToJson, hsj, hkj]) hsw hkw rfl hsd hkd (Or.inl ⟨rfl, rfl⟩)
  | some f =>
    obtain ⟨fj, h1, h2, h3, h4⟩ := hfilter f rfl
    exact unmarshal_marshal_of_json env sn kn sv kv d (some f) sj kj fj
      (by simp only [tokenToJson, hsj, hkj, h1]) hsw hkw h2 hsd hkd
      (Or.inr ⟨h3, f, rfl, h4⟩)

/-! ## The theorems on the sample data -/

theorem sampleEnv_filterOnlyAddsPredicates : sampleEnv.FilterOnlyAddsPredicates :=
  fun f _ => ⟨List.replicate f (.Eq "Name" (.str "x")), rfl⟩

set_option maxRecDepth 100000 in
set_option exponentiation.threshold 1100 in
/-- C1 fails as stated: the token decoded from the page token of `sampleToken` is not
`sampleToken`, because its integer sort value has come back as a `float64`, and the
token decoded from the page token of `sampleTimeToken` is not `sampleTimeToken`,
because its timestamp has come back as a string. -/
theorem unmarshal_marshal_not_identity :
    (¬ ∃ s, sampleToken.marshal sampleEnv = .ok s ∧
      token.unmarshal sampleEnv {} s = .ok sampleToken) ∧
    (¬ ∃ s, sampleTimeToken.marshal sampleEnv = .ok s ∧
      token.unmarshal sampleEnv {} s = .ok sampleTimeToken) := by
  constructor
  · rintro ⟨s, h1, h2⟩
    have e1 : sampleToken.marshal sampleEnv = .ok samplePageToken := by decide
    have e2 : token.unmarshal sampleEnv {} samplePageToken =
        .ok { sampleToken with SortByFieldValue := some (.float64 "10") } := by decide
    rw [e1] at h1
    cases h1
    rw [e2] at h2
    revert h2
    decide
  · rintro ⟨s, h1, h2⟩
    have e1 : sampleTimeToken.marshal sampleEnv = .ok sampleTimePageToken := by decide
    have e2 : token.unmarshal sampleEnv {} sampleTimePageToken =
        .ok { sampleTimeToken with
              SortByFieldValue := some (.str "2018-11-05T07:03:09.12-05:30") } := by decide
    rw [e1] at h1
    cases h1
    rw [e2] at h2
    revert h2
    decide

/-- The round trip of C1 on `sampleToken`, which has an integer value, a string
value with a character that is escaped, and a filter. -/
theorem unmarshal_marshal_witness :
    ∃ s, sampleToken.marshal sampleEnv = .ok s ∧
      token.unmarshal sampleEnv {} s = .ok
        { sampleToken with
          SortByFieldValue := sampleToken.SortByFieldValue.map GoValue.throughJSON
          KeyFieldValue := sampleToken.KeyFieldValue.map GoValue.throughJSON } :=
  unmarshal_marshal sampleEnv sampleToken
    (fun v h => by cases h; rfl) (fun v h => by cases h; rfl)
    (fun f h => by cases h; exact ⟨.num "3", rfl, by decide, by decide, rfl⟩)

/-- The traversal of C2 on the store of the end-to-end scenario of the spec. -/
theorem listPages_whole_store_witness :
    ∃ pages, listPages sampleEnv sampleKey sampleStore 4 sampleFirstPage = some pages ∧
      pages.flatten.Perm sampleStore ∧
      pages.flatten.Pairwise (rowBefore sampleKey "CreatedAtInSec" "UUID" false) :=
  listPages_whole_store sampleEnv sampleKey sampleStore sampleFirstPage 4 (by decide)
    (by decide) (by decide) rfl ⟨rfl, rfl⟩ (by decide) (by decide)

/-- The pages of the sample store, two rows a page: the rows with keys 1 and 2,
then the row with key 3. -/
theorem listPages_sample :
    listPages sampleEnv sampleKey sampleStore 4 sampleFirstPage =
      some [[sampleJob 1 10, sampleJob 2 10], [sampleJob 3 20]] := by
  decide

/-- C3 on a call of `NewOptions` with a page size of 500. -/
theorem constructed_pageSize_in_range_witness :
    NewOptions sampleEnv (sampleJob 0 0) 500 "id desc" none =
        .ok { PageSize := 200, token := { SortByFieldName := "UUID", KeyFieldName := "UUID",
                                          IsDesc := true } } ∧
      (1 : Int) ≤ 200 ∧ (200 : Int) ≤ 200 :=
  ⟨by decide, constructed_pageSize_in_range sampleEnv
    { PageSize := 200, token := { SortByFieldName := "UUID", KeyFieldName := "UUID",
                                  IsDesc := true } }
    (Or.inl ⟨sampleJob 0 0, 500, "id desc", none, by decide⟩)⟩

/-- C5 on descending options with a cursor and a filter. -/
theorem addToSelect_cursor_predicate_witness :
    ∃ ps, (sampleNextPage.AddToSelect sampleEnv {}).whereParts =
      [] ++ [.Or [.Lt "CreatedAtInSec" (.int 10),
        .And [.Eq "CreatedAtInSec" (.int 10), .LtOrEq "UUID" (.int 2)]]] ++ ps :=
  (addToSelect_cursor_predicate sampleEnv sampleEnv_filterOnlyAddsPredicates
    sampleNextPage {}).elim (fun ps h => ⟨ps, h.2.2.1 (.int 10) (.int 2) rfl rfl rfl⟩)

/-- C6 on descending options with a cursor and a filter. -/
theorem addToSelect_ordering_witness :
    (sampleNextPage.AddToSelect sampleEnv {}).orderBys =
      [] ++ ["CreatedAtInSec" ++ " DESC", "UUID" ++ " DESC"] :=
  (addToSelect_ordering sampleEnv sampleEnv_filterOnlyAddsPredicates sampleNextPage {}).2 rfl

/-- C7 on the first page of the sample store: the limit is 3, and the three rows
of the store come back. -/
theorem addToSelect_limit_witness :
    (sampleFirstPage.AddToSelect sampleEnv {}).limit = some 3 ∧
      (runQuery sampleKey sampleStore (sampleFirstPage.AddToSelect sampleEnv {})).length = 3 :=
  ⟨(addToSelect_limit sampleEnv sampleEnv_filterOnlyAddsPredicates sampleFirstPage {}
      sampleKey sampleStore (by decide) (by decide)).1,
   (addToSelect_limit sampleEnv sampleEnv_filterOnlyAddsPredicates sampleFirstPage {}
      sampleKey sampleStore (by decide) (by decide)).2.1 (by decide)⟩

set_option maxRecDepth 100000 in
set_option exponentiation.threshold 1100 in
/-- C8 on the page token of `sampleToken` and the page size 0. -/
theorem newOptionsFromToken_of_unmarshal_witness :
    ∃ ps, validatePageSize 0 = .ok ps ∧
      NewOptionsFromToken sampleEnv samplePageToken 0 = .ok
        { PageSize := ps
          token := { sampleToken with SortByFieldValue := some (.float64 "10") } } :=
  newOptionsFromToken_of_unmarshal sampleEnv samplePageToken 0
    { sampleToken with SortByFieldValue := some (.float64 "10") }
    (by decide) (by decide) (by decide)

/-- C10 on a page token that is not base64. -/
theorem unmarshal_error_iff_witness :
    ∃ e, token.unmarshal sampleEnv {} "$$" = .error e ∧
      e.cls = ErrorClass.InvalidInput ∧ e.cause.isSome = true :=
  ((unmarshal_error_iff sampleEnv {} "$$").1.2 (Or.inl (by decide))).elim
    (fun e he => ⟨e, he, (unmarshal_error_iff sampleEnv {} "$$").2 e he⟩)

/-! ## Options from fresh criteria -/

/-- What a successful call of `NewOptions` returns. -/
theorem newOptions_ok {Proto F : Type} (env : Env Proto F) (l : Listable) (p : Int)
    (sortBy : String) (f : Option Proto) (o : Options F)
    (h : NewOptions env l p sortBy f = .ok o) :
    validatePageSize p = .ok o.PageSize ∧
    (Fields (ToLower env.unicodeToLower sortBy)).length ≤ 2 ∧
    ((Fields (ToLower env.unicodeToLower sortBy)).length = 2 →
      (Fields (ToLower env.unicodeToLower sortBy)).getD 1 "" = "desc" ∨
      (Fields (ToLower env.unicodeToLower sortBy)).getD 1 "" = "asc") ∧
    ((Fields (ToLower env.unicodeToLower sortBy)).length = 0 →
      o.token.SortByFieldName = l.DefaultSortField) ∧
    (0 < (Fields (ToLower env.unicodeToLower sortBy)).length →
      l.APIToModelFieldMap.lookup ((Fields (ToLower env.unicodeToLower sortBy)).getD 0 "") =
        some o.token.SortByFieldName) ∧
    o.token.SortByFieldValue = none ∧ o.token.KeyFieldValue = none ∧
    o.token.KeyFieldName = l.PrimaryKeyColumnName ∧
    (o.token.IsDesc = true ↔
      (Fields (ToLower env.unicodeToLower sortBy)).length = 2 ∧
      (Fields (ToLower env.unicodeToLower sortBy)).getD 1 "" = "desc") ∧
    (f = none → o.token.Filter = none) ∧
    (∀ proto, f = some proto → ∃ ff,
      env.NewWithKeyMap proto l.APIToModelFieldMap = .ok ff ∧ o.token.Filter = some ff) := by
  unfold NewOptions at h
  generalize Fields (ToLower env.unicodeToLower sortBy) = ql at h ⊢
  cases hv : validatePageSize p with
  | error e => rw [hv] at h; cases h
  | ok ps =>
    rw [hv] at h
    simp only at h
    by_cases hbad : ql.length > 2 ∨
        (ql.length = 2 ∧ ql.getD 1 "" ≠ "desc" ∧ ql.getD 1 "" ≠ "asc")
    · rw [if_pos hbad] at h
      cases h
    rw [if_neg hbad] at h
    have hfmt : ql.length ≤ 2 ∧
        (ql.length = 2 → ql.getD 1 "" = "desc" ∨ ql.getD 1 "" = "asc") := by
      constructor
      · by_contra hc
        exact hbad (Or.inl (by omega))
      · intro h2
        by_contra hc
        push_neg at hc
        exact hbad (Or.inr ⟨h2, hc.1, hc.2⟩)
    have fin : ∀ (name : String) (d : Bool) (fo : Option F),
        (ql.length = 0 → name = l.DefaultSortField) →
        (0 < ql.length → l.APIToModelFieldMap.lookup (ql.getD 0 "") = some name) →
        (d = true ↔ ql.length = 2 ∧ ql.getD 1 "" = "desc") →
        (f = none → fo = none) →
        (∀ proto, f = some proto → ∃ ff,
          env.NewWithKeyMap proto l.APIToModelFieldMap = .ok ff ∧ fo = some ff) →
        Except.ok (Options.mk ps (token.mk name none l.PrimaryKeyColumnName none d fo)) =
          (Except.ok o : Except Error (Options F)) →
        (Except.ok ps : Except Error Int) = .ok o.PageSize ∧ ql.length ≤ 2 ∧
        (ql.length = 2 → ql.getD 1 "" = "desc" ∨ ql.getD 1 "" = "asc") ∧
        (ql.length = 0 → o.token.SortByFieldName = l.DefaultSortField) ∧
        (0 < ql.length →
          l.APIToModelFieldMap.lookup (ql.getD 0 "") = some o.token.SortByFieldName) ∧
        o.token.SortByFieldValue = none ∧ o.token.KeyFieldValue = none ∧
        o.token.KeyFieldName = l.PrimaryKeyColumnName ∧
        (o.token.IsDesc = true ↔ ql.length = 2 ∧ ql.getD 1 "" = "desc") ∧
        (f = none → o.token.Filter = none) ∧
        (∀ proto, f = some proto → ∃ ff,
          env.NewWithKeyMap proto l.APIToModelFieldMap = .ok ff ∧ o.token.Filter = some ff) := by
      intro name d fo h0 h1 hd h2 h3 ho
      injection ho with ho
      subst ho
      exact ⟨rfl, hfmt.1, hfmt.2, h0, h1, rfl, rfl, rfl, hd, h2, h3⟩
    by_cases hpos : ql.length > 0
    · rw [if_pos hpos] at h
      rcases Option.eq_none_or_eq_some (l.APIToModelFieldMap.lookup (ql.getD 0 "")) with
        hl | ⟨n, hl⟩
      · rw [hl] at h; cases h
      · rw [hl] at h
        simp only at h
        by_cases h2 : ql.length = 2
        · simp only [h2, if_true] at h
          cases f with
          | none =>
            exact fin _ _ _ (fun h0 => by omega) (fun _ => hl) (by simp [h2]) (fun _ => rfl)
              (fun _ hp => Option.noConfusion hp) h
          | some proto =>
            simp only at h
            cases hk : env.NewWithKeyMap proto l.APIToModelFieldMap with
            | error e => rw [hk] at h; cases h
            | ok ff =>
              rw [hk] at h
              exact fin _ _ _ (fun h0 => by omega) (fun _ => hl) (by simp [h2])
                (fun hp => Option.noConfusion hp)
                (fun _ hp => (by cases hp; exact ⟨ff, hk, rfl⟩)) h
        · simp only [h2, if_false] at h
          cases f with
          | none =>
            exact fin _ _ _ (fun h0 => by omega) (fun _ => hl) (by simp [h2]) (fun _ => rfl)
              (fun _ hp => Option.noConfusion hp) h
          | some proto =>
            simp only at h
            cases hk : env.NewWithKeyMap proto l.APIToModelFieldMap with
            | error e => rw [hk] at h; cases h
            | ok ff =>
              rw [hk] at h
              exact fin _ _ _ (fun h0 => by omega) (fun _ => hl) (by simp [h2])
                (fun hp => Option.noConfusion hp)
                (fun _ hp => (by cases hp; exact ⟨ff, hk, rfl⟩)) h
    · rw [if_neg hpos] at h
      simp only at h
      have h2 : ¬ ql.length = 2 := by omega
      simp only [h2, if_false] at h
      cases f with
      | none =>
        exact fin _ _ _ (fun _ => rfl) (fun h0 => absurd h0 hpos) (by simp [h2]) (fun _ => rfl)
          (fun _ hp => Option.noConfusion hp) h
      | some proto =>
        simp only at h
        cases hk : env.NewWithKeyMap proto l.APIToModelFieldMap with
        | error e => rw [hk] at h; cases h
        | ok ff =>
          rw [hk] at h
          exact fin _ _ _ (fun _ => rfl) (fun h0 => absurd h0 hpos) (by simp [h2])
            (fun hp => Option.noConfusion hp)
            (fun _ hp => (by cases hp; exact ⟨ff, hk, rfl⟩)) h

/-- A page size that is refused makes `NewOptions` fail with the same error. -/
theorem newOptions_page_error {Proto F : Type} (env : Env Proto F) (l : Listable) (p : Int)
    (sortBy : String) (f : Option Proto) (e : Error) (hv : validatePageSize p = .error e) :
    NewOptions env l p sortBy f = .error e := by
  unfold NewOptions
  rw [hv]

/-- A sort specification of a wrong shape makes `NewOptions` fail. -/
theorem newOptions_bad_format {Proto F : Type} (env : Env Proto F) (l : Listable) (p ps : Int)
    (sortBy : String) (f : Option Proto) (hv : validatePageSize p = .ok ps)
    (hbad : (Fields (ToLower env.unicodeToLower sortBy)).length > 2 ∨
      ((Fields (ToLower env.unicodeToLower sortBy)).length = 2 ∧
        (Fields (ToLower env.unicodeToLower sortBy)).getD 1 "" ≠ "desc" ∧
        (Fields (ToLower env.unicodeToLower sortBy)).getD 1 "" ≠ "asc")) :
    NewOptions env l p sortBy f = .error (NewInvalidInputError
      "Received invalid sort by format %q. Supported format: \"field_name\", \"field_name desc\", or \"field_name asc\"") := by
  unfold NewOptions
  rw [hv]
  simp only
  rw [if_pos hbad]

/-- A first token that the field map lacks makes `NewOptions` fail. -/
theorem newOptions_unmapped {Proto F : Type} (env : Env Proto F) (l : Listable) (p ps : Int)
    (sortBy : String) (f : Option Proto) (hv : validatePageSize p = .ok ps)
    (hgood : ¬ ((Fields (ToLower env.unicodeToLower sortBy)).length > 2 ∨
      ((Fields (ToLower env.unicodeToLower sortBy)).length = 2 ∧
        (Fields (ToLower env.unicodeToLower sortBy)).getD 1 "" ≠ "desc" ∧
        (Fields (ToLower env.unicodeToLower sortBy)).getD 1 "" ≠ "asc")))
    (hpos : (Fields (ToLower env.unicodeToLower sortBy)).length > 0)
    (hl : l.APIToModelFieldMap.lookup
      ((Fields (ToLower env.unicodeToLower sortBy)).getD 0 "") = none) :
    NewOptions env l p sortBy f =
      .error (NewInvalidInputError "Invalid sorting field: %q: %s") := by
  unfold NewOptions
  rw [hv]
  simp only
  rw [if_neg hgood, if_pos hpos, hl]

/-- The page size is accepted when it is not negative. -/
theorem validatePageSize_ok_of_nonneg (p : Int) (hp : 0 ≤ p) :
    ∃ ps, validatePageSize p = .ok ps := by
  unfold validatePageSize
  rw [if_neg (by omega)]
  split_ifs
  · exact ⟨_, rfl⟩
  · exact ⟨_, rfl⟩
  · exact ⟨_, rfl⟩

/-- The error of a refused page size is an invalid-input error. -/
theorem validatePageSize_error_cls (p : Int) (e : Error) (h : validatePageSize p = .error e) :
    e.cls = ErrorClass.InvalidInput := by
  unfold validatePageSize at h
  split_ifs at h
  cases h
  rfl

/-- The causes of an error of `NewOptions`: the page size, the shape of the sort
specification, the sort field, or the filter. -/
theorem newOptions_error {Proto F : Type} (env : Env Proto F) (l : Listable) (p : Int)
    (sortBy : String) (f : Option Proto) (e : Error)
    (h : NewOptions env l p sortBy f = .error e) :
    validatePageSize p = .error e ∨
    (((Fields (ToLower env.unicodeToLower sortBy)).length > 2 ∨
      ((Fields (ToLower env.unicodeToLower sortBy)).length = 2 ∧
        (Fields (ToLower env.unicodeToLower sortBy)).getD 1 "" ≠ "desc" ∧
        (Fields (ToLower env.unicodeToLower sortBy)).getD 1 "" ≠ "asc")) ∧
      e.cls = ErrorClass.InvalidInput) ∨
    ((Fields (ToLower env.unicodeToLower sortBy)).length > 0 ∧
      l.APIToModelFieldMap.lookup
        ((Fields (ToLower env.unicodeToLower sortBy)).getD 0 "") = none ∧
      e.cls = ErrorClass.InvalidInput) ∨
    (∃ proto, f = some proto ∧ env.NewWithKeyMap proto l.APIToModelFieldMap = .error e) := by
  unfold NewOptions at h
  generalize Fields (ToLower env.unicodeToLower sortBy) = ql at h ⊢
  rcases hv : validatePageSize p with e2 | ps
  · rw [hv] at h
    simp only at h
    cases h
    exact Or.inl rfl
  rw [hv] at h
  simp only at h
  right
  by_cases hbad : ql.length > 2 ∨
      (ql.length = 2 ∧ ql.getD 1 "" ≠ "desc" ∧ ql.getD 1 "" ≠ "asc")
  · rw [if_pos hbad] at h
    cases h
    exact Or.inl ⟨hbad, rfl⟩
  rw [if_neg hbad] at h
  right
  have fin : ∀ (t : token F),
      (match f with
        | some proto =>
          match env.NewWithKeyMap proto l.APIToModelFieldMap with
          | .error err => Except.error err
          | .ok ff => Except.ok (Options.mk ps { t with Filter := some ff })
        | none => Except.ok (Options.mk ps t)) = Except.error e →
      ∃ proto, f = some proto ∧ env.NewWithKeyMap proto l.APIToModelFieldMap = .error e := by
    intro t ht
    cases f with
    | none => cases ht
    | some proto =>
      simp only at ht
      rcases hk : env.NewWithKeyMap proto l.APIToModelFieldMap with e3 | ff
      · rw [hk] at ht
        simp only at ht
        cases ht
        exact ⟨proto, rfl, hk⟩
      · rw [hk] at ht
        cases ht
  by_cases hpos : ql.length > 0
  · rw [if_pos hpos] at h
    rcases Option.eq_none_or_eq_some (l.APIToModelFieldMap.lookup (ql.getD 0 "")) with
      hl | ⟨n, hl⟩
    · rw [hl] at h
      cases h
      exact Or.inl ⟨hpos, hl, rfl⟩
    · rw [hl] at h
      exact Or.inr (fin _ h)
  · rw [if_neg hpos] at h
    exact Or.inr (fin _ h)

/-! ## The tokens of a sort specification -/

/-- No field is read exactly when nothing but white space is left. -/
theorem fieldsAux_eq_nil : ∀ (cs cur : List Char),
    fieldsAux cs cur = [] ↔ cur = [] ∧ ∀ c ∈ cs, isSpaceRune c = true
  | [], cur => by
    by_cases h : cur = []
    · simp [fieldsAux, h]
    · simp [fieldsAux, h]
  | c :: cs, cur => by
    rw [fieldsAux]
    by_cases hc : isSpaceRune c = true
    · rw [if_pos hc]
      by_cases h : cur = []
      · rw [if_pos h, fieldsAux_eq_nil cs []]
        simp [h, hc]
      · rw [if_neg h]
        simp [h]
    · rw [if_neg hc, fieldsAux_eq_nil cs (cur ++ [c])]
      simp [hc]

/-- A text without white space is one field. -/
theorem fieldsAux_single : ∀ (cs cur : List Char), (∀ c ∈ cs, isSpaceRune c = false) →
    cur ++ cs ≠ [] → fieldsAux cs cur = [String.mk (cur ++ cs)]
  | [], cur, _, hne => by
    rw [fieldsAux, if_neg (by simpa using hne)]
    simp
  | c :: cs, cur, hs, _ => by
    have hc : isSpaceRune c = false := hs c (List.mem_cons_self c cs)
    rw [fieldsAux, hc]
    simp only [Bool.false_eq_true, if_false]
    rw [fieldsAux_single cs (cur ++ [c]) (fun d hd => hs d (List.mem_cons_of_mem c hd))
      (by simp)]
    simp

/-- The fields of a non-empty text without white space: the text itself. -/
theorem fields_single (s : String) (hne : s.data ≠ [])
    (hs : ∀ c ∈ s.data, isSpaceRune c = false) : Fields s = [s] := by
  unfold Fields
  rw [fieldsAux_single s.data [] hs (by simpa using hne)]
  simp

/-- The fields of a text are none exactly when the text is white space only. -/
theorem fields_eq_nil (s : String) :
    Fields s = [] ↔ ∀ c ∈ s.data, isSpaceRune c = true := by
  unfold Fields
  rw [fieldsAux_eq_nil]
  simp

/-! ## The sort specification of `NewOptions` -/

/-- C11: for a page size that is not negative and no filter, `NewOptions` fails
exactly when the lower-cased `sortBy`, split at white space, has more than two
tokens, or two tokens of which the second is neither `asc` nor `desc`, or a first
token that is no key of the field map of the listable; every error it returns
then is an invalid-input error. -/
theorem newOptions_fails_iff {Proto F : Type} (env : Env Proto F) (l : Listable) (p : Int)
    (sortBy : String) (hp : 0 ≤ p) :
    ((∃ e, NewOptions env l p sortBy none = .error e) ↔
      (∃ a b c rest, Fields (ToLower env.unicodeToLower sortBy) = a :: b :: c :: rest) ∨
      (∃ a b, Fields (ToLower env.unicodeToLower sortBy) = [a, b] ∧ b ≠ "asc" ∧ b ≠ "desc") ∨
      (∃ a rest, Fields (ToLower env.unicodeToLower sortBy) = a :: rest ∧
        l.APIToModelFieldMap.lookup a = none)) ∧
    (∀ e, NewOptions env l p sortBy none = .error e → e.cls = ErrorClass.InvalidInput) := by
  obtain ⟨ps, hv⟩ := validatePageSize_ok_of_nonneg p hp
  have herr := newOptions_error env l p sortBy none
  have hfmt := newOptions_bad_format env l p ps sortBy none hv
  have hmap := newOptions_unmapped env l p ps sortBy none hv
  generalize NewOptions env l p sortBy none = res at herr hfmt hmap
  generalize Fields (ToLower env.unicodeToLower sortBy) = ql at herr hfmt hmap
  have hcls : ∀ e, res = .error e → e.cls = ErrorClass.InvalidInput := by
    intro e he
    rcases herr e he with h | ⟨_, h⟩ | ⟨_, _, h⟩ | ⟨proto, hproto, _⟩
    · rw [hv] at h
      cases h
    · exact h
    · exact h
    · cases hproto
  refine ⟨⟨?_, ?_⟩, hcls⟩
  · rintro ⟨e, he⟩
    rcases herr e he with h | ⟨h, _⟩ | ⟨h1, h2, _⟩ | ⟨proto, hproto, _⟩
    · rw [hv] at h
      cases h
    · rcases ql with _ | ⟨a, _ | ⟨b, _ | ⟨c, rest⟩⟩⟩
      · simp at h
      · simp at h
      · right
        left
        simp only [List.length_cons, List.length_nil] at h
        rcases h with h | ⟨_, h3, h4⟩
        · omega
        · exact ⟨a, b, rfl, by simpa using h4, by simpa using h3⟩
      · exact Or.inl ⟨a, b, c, rest, rfl⟩
    · rcases ql with _ | ⟨a, rest⟩
      · simp at h1
      · exact Or.inr (Or.inr ⟨a, rest, rfl, by simpa using h2⟩)
    · cases hproto
  · intro h
    by_cases hbad : ql.length > 2 ∨
        (ql.length = 2 ∧ ql.getD 1 "" ≠ "desc" ∧ ql.getD 1 "" ≠ "asc")
    · exact ⟨_, hfmt hbad⟩
    · rcases h with ⟨a, b, c, rest, h⟩ | ⟨a, b, h, h1, h2⟩ | ⟨a, rest, h, h1⟩
      · subst h
        exact absurd (Or.inl (by simp)) hbad
      · subst h
        exact absurd (Or.inr ⟨rfl, by simpa using h2, by simpa using h1⟩) hbad
      · subst h
        exact ⟨_, hmap hbad (by simp) (by simpa using h1)⟩

/-- C13: when `NewOptions` succeeds the key field of the options is the primary
key column of the listable, whatever the page size, the sort specification and
the filter are. -/
theorem newOptions_keyField {Proto F : Type} (env : Env Proto F) (l : Listable) (p : Int)
    (sortBy : String) (f : Option Proto) (o : Options F)
    (h : NewOptions env l p sortBy f = .ok o) :
    o.token.KeyFieldName = l.PrimaryKeyColumnName :=
  (newOptions_ok env l p sortBy f o h).2.2.2.2.2.2.2.1

/-- C12: when `NewOptions` accepts `sortBy`, the lower-cased `sortBy` split at white
space is one of three things. No token, which is the case exactly when the
lower-cased text is white space only: the sort field is the default sort field of
the listable, ascending. One token: the sort field is the image of the token under
the field map, ascending. Two tokens, the second `asc` or `desc`: the sort field
is the image of the first, descending exactly when the second is `desc`. -/
theorem newOptions_sort_field {Proto F : Type} (env : Env Proto F) (l : Listable) (p : Int)
    (sortBy : String) (f : Option Proto) (o : Options F)
    (h : NewOptions env l p sortBy f = .ok o) :
    ((Fields (ToLower env.unicodeToLower sortBy) = [] ∧
        o.token.SortByFieldName = l.DefaultSortField ∧ o.token.IsDesc = false) ∨
      (∃ a, Fields (ToLower env.unicodeToLower sortBy) = [a] ∧
        l.APIToModelFieldMap.lookup a = some o.token.SortByFieldName ∧
        o.token.IsDesc = false) ∨
      (∃ a b, Fields (ToLower env.unicodeToLower sortBy) = [a, b] ∧
        l.APIToModelFieldMap.lookup a = some o.token.SortByFieldName ∧
        (b = "asc" ∨ b = "desc") ∧ (o.token.IsDesc = true ↔ b = "desc"))) ∧
    (Fields (ToLower env.unicodeToLower sortBy) = [] ↔
      ∀ c ∈ (ToLower env.unicodeToLower sortBy).data, isSpaceRune c = true) := by
  refine ⟨?_, fields_eq_nil _⟩
  obtain ⟨_, h1, h2, h3, h4, _, _, _, h5, _, _⟩ := newOptions_ok env l p sortBy f o h
  generalize Fields (ToLower env.unicodeToLower sortBy) = ql at h1 h2 h3 h4 h5
  rcases ql with _ | ⟨a, _ | ⟨b, _ | ⟨c, rest⟩⟩⟩
  · refine Or.inl ⟨rfl, h3 rfl, ?_⟩
    cases hd : o.token.IsDesc
    · rfl
    · have := h5.1 hd
      simp at this
  · refine Or.inr (Or.inl ⟨a, rfl, by simpa using h4 (by simp), ?_⟩)
    cases hd : o.token.IsDesc
    · rfl
    · have := h5.1 hd
      simp at this
  · refine Or.inr (Or.inr ⟨a, b, rfl, by simpa using h4 (by simp), ?_, ?_⟩)
    · have := h2 rfl
      simpa [or_comm] using this
    · simpa using h5
  · simp at h1

/-- C19: the options that `NewOptions` returns have no cursor values, and
`AddToSelect` on them adds to a builder the two ordering clauses and the limit and
no predicate of its own: without a filter the predicates of the builder are left as
they were, and with a filter the query is what the filter makes of the builder with
the ordering and the limit. -/
theorem newOptions_first_page {Proto F : Type} (env : Env Proto F) (l : Listable) (p : Int)
    (sortBy : String) (f : Option Proto) (o : Options F) (b : SelectBuilder)
    (h : NewOptions env l p sortBy f = .ok o) :
    o.token.SortByFieldValue = none ∧ o.token.KeyFieldValue = none ∧
    (f = none → o.token.Filter = none ∧
      o.AddToSelect env b =
        ((b.OrderBy (o.token.SortByFieldName ++ " " ++
            (if o.token.IsDesc then "DESC" else "ASC"))).OrderBy
          (o.token.KeyFieldName ++ " " ++ (if o.token.IsDesc then "DESC" else "ASC"))).Limit
          ((o.PageSize + 1) % 2 ^ 64).toNat ∧
      (o.AddToSelect env b).whereParts = b.whereParts) ∧
    (∀ proto, f = some proto → ∃ ff,
      env.NewWithKeyMap proto l.APIToModelFieldMap = .ok ff ∧ o.token.Filter = some ff ∧
      o.AddToSelect env b = env.filterAddToSelect ff
        (((b.OrderBy (o.token.SortByFieldName ++ " " ++
            (if o.token.IsDesc then "DESC" else "ASC"))).OrderBy
          (o.token.KeyFieldName ++ " " ++ (if o.token.IsDesc then "DESC" else "ASC"))).Limit
          ((o.PageSize + 1) % 2 ^ 64).toNat)) := by
  obtain ⟨_, _, _, _, _, hs, hk, _, _, hnone, hsome⟩ := newOptions_ok env l p sortBy f o h
  obtain ⟨pageSize, ⟨sf, sv, kf, kv, desc, filt⟩⟩ := o
  simp only at hs hk hnone hsome
  subst hs hk
  refine ⟨rfl, rfl, ?_, ?_⟩
  · intro hf
    have := hnone hf
    subst this
    exact ⟨rfl, rfl, rfl⟩
  · intro proto hf
    obtain ⟨ff, h1, h2⟩ := hsome proto hf
    subst h2
    exact ⟨ff, h1, rfl, rfl⟩

/-- C20: `NewOptions` looks the sort field up after lower-casing the whole of
`sortBy`. For every `k` whose lower-cased form is one name, not empty and without
white space as the API field names that are the keys of the field map are, and is
no key of the field map, `NewOptions` with `sortBy = k` fails with an
invalid-input error, for every page size and filter; a key with an upper-case
letter whose lower-cased form is no key is such a `k`. Two texts with the same
lower-cased form give the same result: the same options, or the same error, which
is its class and the format of its message. -/
theorem newOptions_lowercases_sortBy {Proto F : Type} (env : Env Proto F) (l : Listable)
    (p : Int) (f : Option Proto) :
    (∀ k : String, (ToLower env.unicodeToLower k).data ≠ [] →
      (∀ c ∈ (ToLower env.unicodeToLower k).data, isSpaceRune c = false) →
      l.APIToModelFieldMap.lookup (ToLower env.unicodeToLower k) = none →
      ∃ e, NewOptions env l p k f = .error e ∧ e.cls = ErrorClass.InvalidInput) ∧
    (∀ s1 s2 : String, ToLower env.unicodeToLower s1 = ToLower env.unicodeToLower s2 →
      NewOptions env l p s1 f = NewOptions env l p s2 f) := by
  constructor
  · intro k hne hs hl
    have hq := fields_single _ hne hs
    rcases hv : validatePageSize p with e | ps
    · exact ⟨e, newOptions_page_error env l p k f e hv, validatePageSize_error_cls p e hv⟩
    · refine ⟨_, newOptions_unmapped env l p ps k f hv ?_ ?_ ?_, rfl⟩
      · rw [hq]
        simp
      · rw [hq]
        simp
      · rw [hq]
        simpa using hl
  · intro s1 s2 h12
    unfold NewOptions
    rw [h12]

/-! ## The token of the next page -/

/-- C14 as amended: the token that `nextPageToken` derives from the options `o`
and the record `r` has the sort field name and the direction of `o`, has as key
field name the primary key column of `r`, whatever the key field name of `o` is,
carries the values of these two fields of `r`, and has no filter. -/
theorem nextPageToken_fields {F : Type} (o : Options F) (r : Listable) (t : token F)
    (h : o.nextPageToken r = .ok t) :
    t.SortByFieldName = o.token.SortByFieldName ∧
    t.KeyFieldName = r.PrimaryKeyColumnName ∧
    t.IsDesc = o.token.IsDesc ∧
    (∃ v, r.FieldValue o.token.SortByFieldName = some v ∧ t.SortByFieldValue = some v) ∧
    (∃ v, r.FieldValue r.PrimaryKeyColumnName = some v ∧ t.KeyFieldValue = some v) ∧
    t.Filter = none := by
  obtain ⟨sv, kv, hs, hk, ht⟩ := nextPageToken_ok o r t h
  subst ht
  exact ⟨rfl, rfl, rfl, ⟨sv, hs, rfl⟩, ⟨kv, hk, rfl⟩, rfl⟩

/-- C17 as amended: on a record that is a pointer to a struct, `nextPageToken`
returns an error exactly when the struct has no field, exported or not, of the
sort field name of the options or none of the name of its primary key column, and
the error is the plain error of `fmt.Errorf`, which carries no classification: it
is neither an internal error nor an invalid-input error. It returns a token
exactly when both fields are there and exported. In the cases that are left, a
record that is no pointer to a struct, or both fields there and one of them
unexported, it panics, and returns neither a token nor an error. -/
theorem nextPageToken_error_iff {F : Type} (o : Options F) (r : Listable) :
    ((∃ e, o.nextPageToken r = .error e) ↔
      r.isStructPointer = true ∧
        (r.FieldByName o.token.SortByFieldName = none ∨
          r.FieldByName r.PrimaryKeyColumnName = none)) ∧
    (∀ e, o.nextPageToken r = .error e → e.cls = ErrorClass.Unclassified) ∧
    ((∃ t, o.nextPageToken r = .ok t) ↔
      r.isStructPointer = true ∧
        (∃ sv, r.FieldByName o.token.SortByFieldName = some (.exported sv)) ∧
        (∃ kv, r.FieldByName r.PrimaryKeyColumnName = some (.exported kv))) ∧
    (o.nextPageToken r = .panic ↔
      r.isStructPointer = false ∨
      ∃ fs fk, r.FieldByName o.token.SortByFieldName = some fs ∧
        r.FieldByName r.PrimaryKeyColumnName = some fk ∧
        (fs = .unexported ∨ fk = .unexported)) := by
  refine ⟨⟨?_, ?_⟩, ?_, ⟨?_, ?_⟩, nextPageToken_panic_iff o r⟩
  · rintro ⟨e, he⟩
    obtain ⟨hp, h⟩ := nextPageToken_error o r e he
    rcases h with ⟨h, _⟩ | ⟨h, _⟩
    · exact ⟨hp, Or.inl h⟩
    · exact ⟨hp, Or.inr h⟩
  · rintro ⟨hp, h⟩
    exact nextPageToken_of_missing o r hp h
  · intro e he
    rcases (nextPageToken_error o r e he).2 with ⟨_, h⟩ | ⟨_, h⟩
    · rw [h]
      rfl
    · rw [h]
      rfl
  · rintro ⟨t, ht⟩
    obtain ⟨sv, kv, hs, hk, _⟩ := nextPageToken_ok o r t ht
    obtain ⟨hp, hs2⟩ := (fieldValue_eq_some r _ sv).1 hs
    obtain ⟨_, hk2⟩ := (fieldValue_eq_some r _ kv).1 hk
    exact ⟨hp, ⟨sv, hs2⟩, ⟨kv, hk2⟩⟩
  · rintro ⟨hp, ⟨sv, hs⟩, ⟨kv, hk⟩⟩
    exact ⟨_, nextPageToken_of_fields o r sv kv ((fieldValue_eq_some r _ sv).2 ⟨hp, hs⟩)
      ((fieldValue_eq_some r _ kv).2 ⟨hp, hk⟩)⟩

/-! ## The cursor of the next page -/

/-- The cursor predicate rejects every row that is before the cursor row, also a
row that lacks one of the two columns. -/
theorem eval_cursor_before {κ : Type} [LinearOrder κ] (key : GoValue → κ) (sf kf : String)
    (d : Bool) (x c : Listable) (sv kv : GoValue)
    (hcs : c.FieldValue sf = some sv) (hck : c.FieldValue kf = some kv)
    (hb : rowBefore key sf kf d x c) :
    Sqlizer.eval.evalAll key x
      [if d then .Or [.Lt sf sv, .And [.Eq sf sv, .LtOrEq kf kv]]
       else .Or [.Gt sf sv, .And [.Eq sf sv, .GtOrEq kf kv]]] = false := by
  rcases hxs : x.FieldValue sf with _ | xs
  · cases d <;> simp [Sqlizer.eval.evalAll, Sqlizer.eval, Sqlizer.eval.evalAny, hxs]
  · rcases hxk : x.FieldValue kf with _ | xk
    · unfold rowBefore at hb
      rw [columnKey_of_field key x sf xs hxs, columnKey_of_field key c sf sv hcs,
        columnKey_of_field key c kf kv hck] at hb
      simp only [WithBot.coe_lt_coe, WithBot.coe_inj] at hb
      cases d
      · simp only [Bool.false_eq_true, if_false] at hb
        have hle : key xs ≤ key sv := by
          rcases hb with h | ⟨h, _⟩
          · exact le_of_lt h
          · exact le_of_eq h
        simp [Sqlizer.eval.evalAll, Sqlizer.eval, Sqlizer.eval.evalAny, hxs, hxk,
          not_lt_of_ge hle]
      · simp only [if_true] at hb
        have hle : key sv ≤ key xs := by
          rcases hb with h | ⟨h, _⟩
          · exact le_of_lt h
          · exact le_of_eq h.symm
        simp [Sqlizer.eval.evalAll, Sqlizer.eval, Sqlizer.eval.evalAny, hxs, hxk,
          not_lt_of_ge hle]
    · exact (eval_cursor key sf kf d x c xs xk sv kv hxs hxk hcs hck).1 hb

/-- C16: let `t` be the token that `nextPageToken` derives from the options `o` and
the record `r`, and take the query that `AddToSelect` builds from `t` with the page
size of `o`. Its predicate accepts `r`; no row that it accepts is before `r` in the
order by the sort field of `o` and then the primary key column of `r`, which is the
key field of `t`, in the direction of `o`; and on a store of rows with both columns
and pairwise distinct keys, of which `r` is one, the query returns the rows from
`r` on, `r` first. -/
theorem nextPageToken_starts_at_record {Proto F κ : Type} [LinearOrder κ]
    (env : Env Proto F) (key : GoValue → κ) (o : Options F) (r : Listable) (t : token F)
    (h : o.nextPageToken r = .ok t) :
    Sqlizer.eval.evalAll key r
      ((Options.mk o.PageSize t).AddToSelect env {}).whereParts = true ∧
    (∀ x, Sqlizer.eval.evalAll key x
        ((Options.mk o.PageSize t).AddToSelect env {}).whereParts = true →
      ¬ rowBefore key o.token.SortByFieldName r.PrimaryKeyColumnName o.token.IsDesc x r) ∧
    (∀ store pre rest, 1 ≤ o.PageSize → o.PageSize ≤ 200 →
      store.Pairwise (fun a b =>
        columnKey key a r.PrimaryKeyColumnName ≠ columnKey key b r.PrimaryKeyColumnName) →
      (∀ a ∈ store, (∃ v, a.FieldValue o.token.SortByFieldName = some v) ∧
        (∃ v, a.FieldValue r.PrimaryKeyColumnName = some v)) →
      store.insertionSort (fun a b => rowLe key
        [(o.token.SortByFieldName, o.token.IsDesc), (r.PrimaryKeyColumnName, o.token.IsDesc)]
        a b = true) = pre ++ r :: rest →
      runQuery key store ((Options.mk o.PageSize t).AddToSelect env {}) =
        (r :: rest).take (o.PageSize.toNat + 1)) := by
  obtain ⟨sv, kv, hs, hk, ht⟩ := nextPageToken_ok o r t h
  subst ht
  have hw : ((Options.mk o.PageSize
      (token.mk o.token.SortByFieldName (some sv) r.PrimaryKeyColumnName (some kv)
        o.token.IsDesc (none : Option F))).AddToSelect env {}).whereParts =
      [if o.token.IsDesc then .Or [.Lt o.token.SortByFieldName sv,
          .And [.Eq o.token.SortByFieldName sv, .LtOrEq r.PrimaryKeyColumnName kv]]
        else .Or [.Gt o.token.SortByFieldName sv,
          .And [.Eq o.token.SortByFieldName sv, .GtOrEq r.PrimaryKeyColumnName kv]]] := by
    cases hd : o.token.IsDesc
    · rw [(addToSelect_no_filter env _ {} rfl).1 sv kv rfl rfl rfl]
      simp
    · rw [(addToSelect_no_filter env _ {} rfl).2.1 sv kv rfl rfl rfl]
      simp
  refine ⟨?_, ?_, ?_⟩
  · rw [hw]
    exact (eval_cursor key _ _ _ r r sv kv sv kv hs hk hs hk).2 (Or.inr rfl)
  · intro x hx hb
    rw [hw, eval_cursor_before key _ _ _ x r sv kv hs hk hb] at hx
    cases hx
  · intro store pre rest h1 h2 hdist hfields hL
    exact runQuery_cursor env key store
      (Options.mk o.PageSize
        (token.mk o.token.SortByFieldName (some sv) r.PrimaryKeyColumnName (some kv)
          o.token.IsDesc none)) r pre rest sv kv rfl h1 h2 hdist hfields hL hs hk rfl rfl

/-! ## The pairing of the two cursor values -/

/-- The conditions under which `NewOptionsFromToken` returns given options. -/
theorem newOptionsFromToken_ok_iff {Proto F : Type} (env : Env Proto F) (s : String)
    (p : Int) (o : Options F) :
    NewOptionsFromToken env s p = .ok o ↔
      s ≠ "" ∧ validatePageSize p = .ok o.PageSize ∧
      token.unmarshal env {} s = .ok o.token := by
  unfold NewOptionsFromToken
  by_cases hs : s = ""
  · rw [if_pos hs]
    constructor
    · intro h
      cases h
    · intro h
      exact absurd hs h.1
  · rw [if_neg hs]
    rcases hv : validatePageSize p with e | ps
    · simp
    · simp only
      rcases hu : token.unmarshal env {} s with e | t
      · simp
      · obtain ⟨ps2, t2⟩ := o
        simp [hs]

/-- C18 as amended: the options that `NewOptions` returns have both cursor values
absent, and a token that `nextPageToken` returns has both present. The options
that `NewOptionsFromToken` returns hold the token as `unmarshal` decodes it from
the page token, and nothing but a non-empty page token, an accepted page size and
a page token that decodes is asked for: a decoded token with one of the two values
is not refused. -/
theorem cursor_values_paired {Proto F : Type} (env : Env Proto F) :
    (∀ l p sortBy f (o : Options F), NewOptions env l p sortBy f = .ok o →
      o.token.SortByFieldValue = none ∧ o.token.KeyFieldValue = none) ∧
    (∀ (o : Options F) r t, o.nextPageToken r = .ok t →
      t.SortByFieldValue.isSome = true ∧ t.KeyFieldValue.isSome = true) ∧
    (∀ s p (o : Options F), NewOptionsFromToken env s p = .ok o ↔
      s ≠ "" ∧ validatePageSize p = .ok o.PageSize ∧
      token.unmarshal env {} s = .ok o.token) := by
  refine ⟨?_, ?_, ?_⟩
  · intro l p sortBy f o h
    obtain ⟨_, _, _, _, _, hs, hk, _⟩ := newOptions_ok env l p sortBy f o h
    exact ⟨hs, hk⟩
  · intro o r t h
    obtain ⟨sv, kv, _, _, ht⟩ := nextPageToken_ok o r t h
    subst ht
    exact ⟨rfl, rfl⟩
  · intro s p o
    exact newOptionsFromToken_ok_iff env s p o

/-! ## The filter on the following pages -/

/-- The empty page token does not decode. -/
theorem unmarshal_empty {Proto F : Type} (env : Env Proto F) (t t2 : token F) :
    token.unmarshal env t "" ≠ .ok t2 := by
  intro h
  cases h

/-- C15 fails in the code, for every filter: let the options `o` have a filter and
the record `r` have the sort field of `o` and its key field, with values of a
supported scalar kind. Then `NextPageToken` returns a page token, and the options
that `NewOptionsFromToken` rebuilds from it, for every accepted page size, have the
sort field and the direction of `o` and the cursor on `r`, but no filter. -/
theorem nextPageToken_drops_filter {Proto F : Type} (env : Env Proto F) (o : Options F)
    (r : Listable) (sv kv : GoValue) (f : F) (p ps : Int)
    (hf : o.token.Filter = some f)
    (hs : r.FieldValue o.token.SortByFieldName = some sv)
    (hk : r.FieldValue r.PrimaryKeyColumnName = some kv)
    (hsv : sv.supported = true) (hkv : kv.supported = true)
    (hp : validatePageSize p = .ok ps) :
    ∃ s, o.NextPageToken env r = .ok s ∧
      NewOptionsFromToken env s p = .ok
        { PageSize := ps
          token := { SortByFieldName := o.token.SortByFieldName
                     SortByFieldValue := some sv.throughJSON
                     KeyFieldName := r.PrimaryKeyColumnName
                     KeyFieldValue := some kv.throughJSON
                     IsDesc := o.token.IsDesc
                     Filter := none } } ∧
      o.token.Filter ≠ none := by
  obtain ⟨sj, hsj, hsw, hsd⟩ := marshalValue_supported (some sv)
    (fun x hx => by cases hx; exact hsv)
  obtain ⟨kj, hkj, hkw, hkd⟩ := marshalValue_supported (some kv)
    (fun x hx => by cases hx; exact hkv)
  obtain ⟨s, hm, hu⟩ := unmarshal_marshal_of_json env o.token.SortByFieldName
    r.PrimaryKeyColumnName (some sv) (some kv) o.token.IsDesc none sj kj .null
    (by simp only [tokenToJson, hsj, hkj]) hsw hkw rfl hsd hkd (Or.inl ⟨rfl, rfl⟩)
  refine ⟨s, ?_, ?_, ?_⟩
  · unfold Options.NextPageToken
    rw [nextPageToken_of_fields o r sv kv hs hk]
    simp only
    rw [hm]
  · rw [newOptionsFromToken_ok_iff]
    refine ⟨?_, hp, hu⟩
    intro h0
    rw [h0] at hu
    exact unmarshal_empty env _ _ hu
  · rw [hf]
    exact Option.noConfusion

/-! ## The sort specification and the next page on the sample data -/

/-- C11 on the sort specifications `name foo` and `a b c` of the spec, and on a
field that the map lacks: each is refused, with an invalid-input error. -/
theorem newOptions_fails_iff_witness :
    (∃ e, NewOptions sampleEnv samplePipeline 10 "name foo" none = .error e ∧
      e.cls = ErrorClass.InvalidInput) ∧
    (∃ e, NewOptions sampleEnv samplePipeline 10 "a b c" none = .error e ∧
      e.cls = ErrorClass.InvalidInput) ∧
    (∃ e, NewOptions sampleEnv samplePipeline 10 "nope" none = .error e ∧
      e.cls = ErrorClass.InvalidInput) :=
  ⟨((newOptions_fails_iff sampleEnv samplePipeline 10 "name foo" (by decide)).1.2
      (Or.inr (Or.inl ⟨"name", "foo", by decide, by decide, by decide⟩))).elim
      (fun e he => ⟨e, he,
        (newOptions_fails_iff sampleEnv samplePipeline 10 "name foo" (by decide)).2 e he⟩),
   ((newOptions_fails_iff sampleEnv samplePipeline 10 "a b c" (by decide)).1.2
      (Or.inl ⟨"a", "b", "c", [], by decide⟩)).elim
      (fun e he => ⟨e, he,
        (newOptions_fails_iff sampleEnv samplePipeline 10 "a b c" (by decide)).2 e he⟩),
   ((newOptions_fails_iff sampleEnv samplePipeline 10 "nope" (by decide)).1.2
      (Or.inr (Or.inr ⟨"nope", [], by decide, by decide⟩))).elim
      (fun e he => ⟨e, he,
        (newOptions_fails_iff sampleEnv samplePipeline 10 "nope" (by decide)).2 e he⟩)⟩

/-- C12 on the sort specification `name ASC`: the two tokens are `name` and `asc`,
the sort field is `Name` and the direction is ascending. -/
theorem newOptions_sort_field_witness :
    NewOptions sampleEnv samplePipeline 10 "name ASC" none =
        .ok { PageSize := 10, token := { SortByFieldName := "Name", KeyFieldName := "UUID" } } ∧
      ((Fields (ToLower sampleEnv.unicodeToLower "name ASC") = [] ∧
          "Name" = samplePipeline.DefaultSortField ∧ false = false) ∨
        (∃ a, Fields (ToLower sampleEnv.unicodeToLower "name ASC") = [a] ∧
          samplePipeline.APIToModelFieldMap.lookup a = some "Name" ∧ false = false) ∨
        (∃ a b, Fields (ToLower sampleEnv.unicodeToLower "name ASC") = [a, b] ∧
          samplePipeline.APIToModelFieldMap.lookup a = some "Name" ∧
          (b = "asc" ∨ b = "desc") ∧ (false = true ↔ b = "desc"))) :=
  ⟨by decide,
   (newOptions_sort_field sampleEnv samplePipeline 10 "name ASC" none
      { PageSize := 10, token := { SortByFieldName := "Name", KeyFieldName := "UUID" } }
      (by decide)).1⟩

/-- The examples of the spec for C12: `name` sorts by name ascending, `name desc`
by name descending, and a sort specification of white space by the default sort
field, ascending. -/
theorem newOptions_sort_examples :
    NewOptions sampleEnv samplePipeline 10 "name" none =
        .ok { PageSize := 10, token := { SortByFieldName := "Name", KeyFieldName := "UUID" } } ∧
      NewOptions sampleEnv samplePipeline 10 "name desc" none =
        .ok { PageSize := 10, token := { SortByFieldName := "Name", KeyFieldName := "UUID",
                                         IsDesc := true } } ∧
      NewOptions sampleEnv samplePipeline 10 "  " none =
        .ok { PageSize := 10, token := { SortByFieldName := "CreatedAtInSec",
                                         KeyFieldName := "UUID" } } := by
  decide

/-- C13 on a call with a sort specification and a filter. -/
theorem newOptions_keyField_witness :
    NewOptions sampleEnv samplePipeline 10 "Name DeSc" (some 4) =
        .ok { PageSize := 10, token := { SortByFieldName := "Name", KeyFieldName := "UUID",
                                         IsDesc := true, Filter := some 4 } } ∧
      "UUID" = samplePipeline.PrimaryKeyColumnName :=
  ⟨by decide,
   newOptions_keyField sampleEnv samplePipeline 10 "Name DeSc" (some 4)
      { PageSize := 10, token := { SortByFieldName := "Name", KeyFieldName := "UUID",
                                   IsDesc := true, Filter := some 4 } } (by decide)⟩

/-- C19 on a call without a filter: the query on the empty builder has no
predicate. -/
theorem newOptions_first_page_witness :
    ((Options.mk 10 (token.mk "Name" none "UUID" none true (none : Option Nat))).AddToSelect
      sampleEnv {}).whereParts = [] :=
  ((newOptions_first_page sampleEnv samplePipeline 10 "name desc" none
      { PageSize := 10, token := { SortByFieldName := "Name", KeyFieldName := "UUID",
                                   IsDesc := true } } {} (by decide)).2.2.1 rfl).2.2

/-- C20 on the key `Name` of a field map without a key `name`, and on two sort
specifications that differ in letter case. -/
theorem newOptions_lowercases_sortBy_witness :
    (∃ e, NewOptions sampleEnv sampleUpperKey 10 "Name" none = .error e ∧
      e.cls = ErrorClass.InvalidInput) ∧
    NewOptions sampleEnv samplePipeline 10 "name DESC" none =
      NewOptions sampleEnv samplePipeline 10 "NAME desc" none :=
  ⟨(newOptions_lowercases_sortBy sampleEnv sampleUpperKey 10 none).1 "Name"
      (by decide) (by decide) (by decide),
   (newOptions_lowercases_sortBy sampleEnv samplePipeline 10 none).2
      "name DESC" "NAME desc" (by decide)⟩

/-- The lookup of `NewOptions` takes the first name of the lower-cased `sortBy`,
also where a key of the field map has white space in it, as no API field name has:
with the sort specification `Name desc` and the field map of `sampleSpacedKeys`,
the sort field is that of the key `name`, descending, and the field of the key
`Name desc` is not selected. -/
theorem newOptions_spaced_key :
    sampleSpacedKeys.APIToModelFieldMap.lookup "Name desc" = some "UUID" ∧
      NewOptions sampleEnv sampleSpacedKeys 10 "Name desc" none =
        .ok { PageSize := 10, token := { SortByFieldName := "Name", KeyFieldName := "UUID",
                                         IsDesc := true } } := by
  decide

/-- C14 fails as stated: the options `sampleForeignKeyOptions` have the key field
`Name`, and the token derived from them and a record with the primary key `UUID`
has the key field `UUID`. -/
theorem nextPageToken_other_keyField :
    ∃ t, sampleForeignKeyOptions.nextPageToken (sampleJob 3 20) = .ok t ∧
      t.KeyFieldName ≠ sampleForeignKeyOptions.token.KeyFieldName :=
  ⟨{ SortByFieldName := "CreatedAtInSec", SortByFieldValue := some (.int 20),
     KeyFieldName := "UUID", KeyFieldValue := some (.int 3) }, by decide, by decide⟩

/-- C14 as amended, on the same options and record. -/
theorem nextPageToken_fields_witness :
    ∃ t, sampleForeignKeyOptions.nextPageToken (sampleJob 3 20) = .ok t ∧
      t.SortByFieldName = "CreatedAtInSec" ∧ t.KeyFieldName = "UUID" ∧ t.IsDesc = false ∧
      t.Filter = none :=
  ⟨{ SortByFieldName := "CreatedAtInSec", SortByFieldValue := some (.int 20),
     KeyFieldName := "UUID", KeyFieldValue := some (.int 3) }, by decide,
   (nextPageToken_fields sampleForeignKeyOptions (sampleJob 3 20) _ (by decide)).1,
   (nextPageToken_fields sampleForeignKeyOptions (sampleJob 3 20) _ (by decide)).2.1,
   (nextPageToken_fields sampleForeignKeyOptions (sampleJob 3 20) _ (by decide)).2.2.1,
   (nextPageToken_fields sampleForeignKeyOptions (sampleJob 3 20) _ (by decide)).2.2.2.2.2⟩

/-- C15 on the options `sampleNextPage`, which have the filter `1`, and the record
`sampleJob 2 10`: the options rebuilt from the page token have no filter. -/
theorem nextPageToken_drops_filter_witness :
    ∃ s, sampleNextPage.NextPageToken sampleEnv (sampleJob 2 10) = .ok s ∧
      NewOptionsFromToken sampleEnv s 2 = .ok
        { PageSize := 2
          token := { SortByFieldName := "CreatedAtInSec"
                     SortByFieldValue := some (GoValue.int 10).throughJSON
                     KeyFieldName := "UUID"
                     KeyFieldValue := some (GoValue.int 2).throughJSON
                     IsDesc := true
                     Filter := none } } ∧
      sampleNextPage.token.Filter ≠ none :=
  nextPageToken_drops_filter sampleEnv sampleNextPage (sampleJob 2 10) (.int 10) (.int 2) 1 2 2
    rfl rfl rfl (by decide) (by decide) (by decide)

set_option maxRecDepth 100000 in
set_option exponentiation.threshold 1100 in
/-- The failing input of C15, evaluated: the page token that `NextPageToken` derives
from `sampleNextPage` and the record `sampleJob 2 10` is `sampleDerivedPageToken`,
with `null` for the filter, and the options that `NewOptionsFromToken` rebuilds from
it with the same page size have the sort field and the direction of
`sampleNextPage` and no filter, while `sampleNextPage` has the filter `1`. -/
theorem sampleNextPage_filter_lost :
    sampleNextPage.token.Filter = some 1 ∧
      sampleNextPage.NextPageToken sampleEnv (sampleJob 2 10) = .ok sampleDerivedPageToken ∧
      NewOptionsFromToken sampleEnv sampleDerivedPageToken 2 =
        .ok { PageSize := 2
              token := { SortByFieldName := "CreatedAtInSec"
                         SortByFieldValue := some (.float64 "10")
                         KeyFieldName := "UUID"
                         KeyFieldValue := some (.float64 "2")
                         IsDesc := true
                         Filter := none } } := by
  decide

/-- C16 on the sample store: the query of the token derived from the first-page
options and the record with key 2 returns that record and the one after it. -/
theorem nextPageToken_starts_at_record_witness :
    ∃ t, sampleFirstPage.nextPageToken (sampleJob 2 10) = .ok t ∧
      runQuery sampleKey sampleStore ((Options.mk 2 t).AddToSelect sampleEnv {}) =
        [sampleJob 2 10, sampleJob 3 20] :=
  ⟨{ SortByFieldName := "CreatedAtInSec", SortByFieldValue := some (.int 10),
     KeyFieldName := "UUID", KeyFieldValue := some (.int 2) }, by decide,
   (nextPageToken_starts_at_record sampleEnv sampleKey sampleFirstPage (sampleJob 2 10) _
      (by decide)).2.2 sampleStore [sampleJob 1 10] [sampleJob 3 20] (by decide) (by decide)
      (by decide)
      (fun a ha => by
        simp only [sampleStore, List.mem_cons, List.mem_singleton, List.not_mem_nil,
          or_false] at ha
        rcases ha with rfl | rfl | rfl <;> exact ⟨⟨_, rfl⟩, ⟨_, rfl⟩⟩)
      (by decide)⟩

/-- C17 fails as stated: the error for a record without the sort field, and the
error for a record without its key field, are not internal errors; and for the
record `sampleHidden`, which has the sort field `secret`, unexported, and its key
field, `nextPageToken` neither fails nor succeeds: it panics. -/
theorem nextPageToken_error_not_internal :
    (∃ e, sampleForeignKeyOptions.nextPageToken sampleSpacedKeys = .error e ∧
      e.cls ≠ ErrorClass.InternalServerError) ∧
    (∃ e, sampleFirstPage.nextPageToken
        { sampleJob 1 10 with PrimaryKeyColumnName := "ID" } = .error e ∧
      e.cls ≠ ErrorClass.InternalServerError) ∧
    (sampleHidden.FieldByName "secret" ≠ none ∧
      sampleHidden.FieldByName sampleHidden.PrimaryKeyColumnName ≠ none ∧
      (Options.mk 2 (token.mk "secret" none "UUID" none false (none : Option Nat))).nextPageToken
        sampleHidden = .panic) :=
  ⟨⟨Errorf "cannot sort by field %q on type %q", by decide, by decide⟩,
   ⟨Errorf "type %q does not have key field %q", by decide, by decide⟩,
   by decide, by decide, by decide⟩

/-- C17 as amended, on a record without the sort field of the options, on a record
with both fields, on a record whose sort field is unexported, and on a record that
is no pointer to a struct. -/
theorem nextPageToken_error_iff_witness :
    (∃ e, sampleForeignKeyOptions.nextPageToken sampleSpacedKeys = .error e ∧
      e.cls = ErrorClass.Unclassified) ∧
    (∃ t, sampleFirstPage.nextPageToken (sampleJob 2 10) = .ok t) ∧
    (Options.mk 2 (token.mk "secret" none "UUID" none false (none : Option Nat))).nextPageToken
      sampleHidden = .panic ∧
    sampleFirstPage.nextPageToken { sampleJob 2 10 with isStructPointer := false } = .panic :=
  ⟨((nextPageToken_error_iff sampleForeignKeyOptions sampleSpacedKeys).1.2
      ⟨by decide, Or.inl (by decide)⟩).elim
      (fun e he => ⟨e, he,
        (nextPageToken_error_iff sampleForeignKeyOptions sampleSpacedKeys).2.1 e he⟩),
   (nextPageToken_error_iff sampleFirstPage (sampleJob 2 10)).2.2.1.2
      ⟨by decide, ⟨.int 10, by decide⟩, ⟨.int 2, by decide⟩⟩,
   (nextPageToken_error_iff
      (Options.mk 2 (token.mk "secret" none "UUID" none false (none : Option Nat)))
      sampleHidden).2.2.2.2
      (Or.inr ⟨.unexported, .exported (.str "h1"), by decide, by decide, Or.inl rfl⟩),
   (nextPageToken_error_iff sampleFirstPage
      { sampleJob 2 10 with isStructPointer := false }).2.2.2.2 (Or.inl (by decide))⟩

set_option maxRecDepth 100000 in
set_option exponentiation.threshold 1100 in
/-- C18 fails as stated: `NewOptionsFromToken` accepts `sampleOneSidedPageToken`,
whose decoded token has a sort value and no key value. -/
theorem newOptionsFromToken_accepts_one_sided :
    ∃ o, NewOptionsFromToken sampleEnv sampleOneSidedPageToken 2 = .ok o ∧
      o.token.SortByFieldValue = some (.float64 "1") ∧ o.token.KeyFieldValue = none :=
  ⟨{ PageSize := 2, token := { SortByFieldValue := some (.float64 "1") } },
   by decide, rfl, rfl⟩

set_option maxRecDepth 100000 in
set_option exponentiation.threshold 1100 in
/-- C18 as amended, on the options of a call of `NewOptions`, on the token derived
from a record, and on the page token `sampleOneSidedPageToken`. -/
theorem cursor_values_paired_witness :
    ((none : Option GoValue) = none ∧ (none : Option GoValue) = none) ∧
    ((some (GoValue.int 10)).isSome = true ∧ (some (GoValue.int 2)).isSome = true) ∧
    NewOptionsFromToken sampleEnv sampleOneSidedPageToken 2 =
      .ok { PageSize := 2, token := { SortByFieldValue := some (.float64 "1") } } :=
  ⟨(cursor_values_paired sampleEnv).1 samplePipeline 10 "name" none
      { PageSize := 10, token := { SortByFieldName := "Name", KeyFieldName := "UUID" } }
      (by decide),
   (cursor_values_paired sampleEnv).2.1 sampleFirstPage (sampleJob 2 10)
      { SortByFieldName := "CreatedAtInSec", SortByFieldValue := some (.int 10),
        KeyFieldName := "UUID", KeyFieldValue := some (.int 2) } (by decide),
   ((cursor_values_paired sampleEnv).2.2 sampleOneSidedPageToken 2
      { PageSize := 2, token := { SortByFieldValue := some (.float64 "1") } }).2
      ⟨by decide, by decide, by decide⟩⟩

end list
